import Mathlib

/-!
# serpcli: the fetch / write pipeline of `serphandler/serp.go`

A shallow embedding of `SerpHandler.fetchPage`, `SerpHandler.writeData`,
`SerpHandler.processResult` and `SerpHandler.Query`, followed by theorems
about their behaviour.

Conventions of the embedding:

* Go `interface{}` values decoded from JSON are values of `JVal`; a
  `map[string]interface{}` is an association list and `m[k]` is `List.lookup`.
* Go `int` values are integers without a bound: the loop counter stays below
  `s.MaxPages`, the counter of empty pages below 3, and the product `page*10`
  is exact, since a run of `Query` ends within its 5 minute deadline with a
  200 ms pause after every page, which keeps `page` far below `2^63 / 10`.
* The remote page source is an oracle answering the `i`-th call; the state of
  the shared deadline seen by a `select` is an oracle (sequential functions) or
  a field of the global state (the interleaving model of `Query`).
* `time.Sleep` and the `fmt.Println` progress lines have no effect on the
  modelled state and are omitted.
-/

namespace SerpCli

/-! ## Data model -/

/-- Dynamic JSON values as they appear behind a Go `interface{}`. The payload of
a number is a `float64` in Go; the program never inspects it. -/
inductive JVal where
  | null : JVal
  | bool (b : Bool) : JVal
  | num (x : Int) : JVal
  | str (s : String) : JVal
  | arr (items : List JVal) : JVal
  | obj (fields : List (String × JVal)) : JVal

/-- Go `map[string]interface{}`: one decoded page, or one decoded item. -/
abbrev JObj := List (String × JVal)

/-- Go `map[string]string`: the request parameters. -/
abbrev Params := List (String × String)

/-- Assignment `m[k] = v` on a `map[string]string`. -/
def Params.set : Params → String → String → Params
  | [], k, v => [(k, v)]
  | (k', v') :: rest, k, v =>
    if k' = k then (k, v) :: rest else (k', v') :: Params.set rest k v

/-- Error values. `external` is an error produced outside the pipeline (the
remote client, the operating system); the others are the `fmt.Errorf` values
built in `serp.go`, keeping the wrapped cause of `%w`. -/
inductive Err where
  | external (msg : String) : Err
  | fetchingPage (page : Int) (cause : Err) : Err
  | stalled (max : Int) : Err
  | openOutput (cause : Err) : Err
  | fileStats (cause : Err) : Err
  | parseOrganic : Err
deriving DecidableEq

/-- The struct `SerpHandler`. -/
structure SerpHandler where
  ApiKey : String
  SearchEngine : String
  OutputFile : String
  MaxPages : Int
  OutputExt : String
  Concurrency : Int

/-- Standard library `filepath.Ext`, scanning the reversed path: the suffix
that starts at the last dot of the last path element, or the empty string. -/
def filepathExtAux : List Char → List Char → List Char
  | [], _ => []
  | c :: rest, acc =>
    if c = '/' then [] else if c = '.' then c :: acc else filepathExtAux rest (c :: acc)

/-- Standard library `filepath.Ext`. -/
def filepathExt (path : String) : String :=
  String.mk (filepathExtAux path.toList.reverse [])

/-- Function `CreateSerpHandler`. -/
def CreateSerpHandler (apiKey searchEngine outputFile : String) : SerpHandler :=
  { ApiKey := apiKey
    SearchEngine := searchEngine
    OutputFile := outputFile
    MaxPages := 100
    OutputExt := filepathExt outputFile
    Concurrency := 3 }

/-- The rendering `fmt.Sprintf("%d", n)`. -/
def sprintfD (n : Int) : String := toString n

/-- What `g.NewGoogleSearch(parameter, s.ApiKey)` captures. -/
structure Request where
  parameter : Params
  apiKey : String

/-- The remote page source: the answer of `search.GetJSON()` to the call with
the given number (calls are numbered from 0) and request. -/
abbrev PageSource := Nat → Request → Except Err JObj

/-! ## The fetcher, `SerpHandler.fetchPage` -/

/-- The initial `parameter` map of `fetchPage`. -/
def initialParams (s : SerpHandler) (query : String) : Params :=
  [("engine", s.SearchEngine), ("q", query)]

/-- Lines 124-126: the `start` parameter is set for pages after the first. -/
def pageParams (parameter : Params) (page : Nat) : Params :=
  if page > 0 then parameter.set "start" (sprintfD ((page : Int) * 10))
  else parameter

/-- The type assertion `result["organic_results"].([]interface{})`: the raw
items of a page, when the entry is present and is a list. -/
def organicResults (result : JObj) : Option (List JVal) :=
  match result.lookup "organic_results" with
  | some (JVal.arr items) => some items
  | _ => none

/-- Lines 136-137: `!hasOrganic || len(organicResults) == 0`. -/
def isEmptyPage (result : JObj) : Bool :=
  match organicResults result with
  | some items => items.length == 0
  | none => true

/-- Lines 152-161, negated: the page has a `serpapi_pagination` map whose
`next` entry is present, not nil and not the empty string. -/
def hasNextPage (result : JObj) : Bool :=
  match result.lookup "serpapi_pagination" with
  | some (JVal.obj pagination) =>
    match pagination.lookup "next" with
    | none => false
    | some JVal.null => false
    | some (JVal.str next) => next != ""
    | some _ => true
  | _ => false

/-- The local `maxConsecutiveEmptyResults`. -/
def maxConsecutiveEmptyResults : Nat := 3

/-- Outcome of the body of one loop iteration up to its channel operation. -/
inductive Fetched where
  /-- Send `e` on `errCh`, then return. -/
  | failed (e : Err) : Fetched
  /-- Send `result` on `ch`; `empties` is the updated counter. -/
  | page (result : JObj) (empties : Nat) : Fetched

/-- Lines 128-149: issue the request and classify the answer. -/
def fetchBody (answer : Except Err JObj) (page empties : Nat) : Fetched :=
  match answer with
  | Except.error err => Fetched.failed (Err.fetchingPage page err)
  | Except.ok result =>
    if isEmptyPage result then
      if empties + 1 ≥ maxConsecutiveEmptyResults then
        Fetched.failed (Err.stalled maxConsecutiveEmptyResults)
      else Fetched.page result (empties + 1)
    else Fetched.page result 0

/-- The request issued in the iteration for `page`: `start` has been assigned
in every earlier iteration after the first and is assigned again in this one. -/
def requestFor (s : SerpHandler) (query : String) (page : Nat) : Request :=
  { parameter := pageParams (initialParams s query) page, apiKey := s.ApiKey }

/-- Observable actions of the fetcher. -/
inductive FEvent where
  /-- The call `search.GetJSON()` in the iteration for this page index. -/
  | request (page : Nat) (req : Request) : FEvent
  /-- The send `ch <- result`. -/
  | emit (result : JObj) : FEvent
  /-- The send `errCh <- e`. -/
  | report (e : Err) : FEvent
  /-- The deferred send on `doneCh`. -/
  | done : FEvent

/-- The `for page := 0; page < s.MaxPages; page++` loop of `fetchPage`; the
first argument is the number of iterations left, `s.MaxPages - page`.
`ctx page` tells whether `ctx.Done()` is ready at the `select` of the
iteration for `page`. -/
def fetchLoop (s : SerpHandler) (src : PageSource) (ctx : Nat → Bool) :
    Nat → Nat → Nat → Params → List FEvent
  | 0, _, _, _ => []
  | left + 1, page, empties, parameter =>
    if ctx page then []
    else
      let parameter := pageParams parameter page
      let req : Request := { parameter := parameter, apiKey := s.ApiKey }
      match fetchBody (src page req) page empties with
      | Fetched.failed e => [FEvent.request page req, FEvent.report e]
      | Fetched.page result empties =>
        FEvent.request page req :: FEvent.emit result ::
          (if hasNextPage result then fetchLoop s src ctx left (page + 1) empties parameter
           else [])

/-- Method `SerpHandler.fetchPage`, as the sequence of its observable actions,
assuming that none of its channel sends blocks forever. -/
def fetchPage (s : SerpHandler) (query : String) (src : PageSource) (ctx : Nat → Bool) :
    List FEvent :=
  fetchLoop s src ctx s.MaxPages.toNat 0 0 (initialParams s query) ++ [FEvent.done]

/-- Requests in a trace, in order, each with the page index of its iteration. -/
def requests : List FEvent → List (Nat × Request)
  | [] => []
  | FEvent.request page req :: rest => (page, req) :: requests rest
  | _ :: rest => requests rest

/-- Page indices of the requests in a trace, in order. -/
def requestedPages (trace : List FEvent) : List Nat :=
  (requests trace).map Prod.fst

/-- Pages sent on the page channel in a trace, in order. -/
def emittedPages : List FEvent → List JObj
  | [] => []
  | FEvent.emit result :: rest => result :: emittedPages rest
  | _ :: rest => emittedPages rest

/-- Errors sent on the error channel in a trace, in order. -/
def reportedErrors : List FEvent → List Err
  | [] => []
  | FEvent.report e :: rest => e :: reportedErrors rest
  | _ :: rest => reportedErrors rest

/-- Loop invariant on the `parameter` map: it is the initial map, possibly with
`start` assigned, and it is the initial map while `page` is 0. -/
def ParamInv (s : SerpHandler) (query : String) (page : Nat) (parameter : Params) : Prop :=
  (page = 0 → parameter = initialParams s query) ∧
  (parameter = initialParams s query ∨
    ∃ v, parameter = (initialParams s query).set "start" v)

/-- The trace of `count` successful iterations starting at `page`, each
requesting and then emitting its page. -/
def pagesTrace (s : SerpHandler) (query : String) (pg : Nat → JObj) : Nat → Nat → List FEvent
  | _, 0 => []
  | page, count + 1 =>
    FEvent.request page (requestFor s query page) :: FEvent.emit (pg page) ::
      pagesTrace s query pg (page + 1) count

/-! ## The writer, `SerpHandler.writeData` and `SerpHandler.processResult` -/

/-- One CSV record. -/
abbrev Record := List String

/-- File content. -/
abbrev Bytes := List UInt8

/-- The header record written to an empty output file. -/
def csvHeader : Record := ["title", "link", "snippet", "date"]

/-- The assertion `org[key].(string)` with its result ignored when it fails:
the string under `key`, or the zero value `""`. -/
def stringField (org : JObj) (key : String) : String :=
  match org.lookup key with
  | some (JVal.str v) => v
  | _ => ""

/-- Lines 247-252: the record built from one map-shaped item. -/
def recordOf (org : JObj) : Record :=
  let title := stringField org "title"
  let link := stringField org "link"
  let date := stringField org "date"
  let snippet := stringField org "snippet"
  [title, link, snippet, date]

/-- Lines 241-257: the `range` loop over the raw items; an item that is not a
map is skipped. -/
def writeRecords : List JVal → List Record
  | [] => []
  | JVal.obj org :: rest => recordOf org :: writeRecords rest
  | _ :: rest => writeRecords rest

/-- Method `SerpHandler.processResult` on a sink whose writes and flushes
succeed: the records written so far, extended by the records of the page, and
the error it sends on `errCh`, if any. -/
def processResult (result : JObj) (rows : List Record) : List Record × Option Err :=
  match organicResults result with
  | none => (rows, some Err.parseOrganic)
  | some items => (rows ++ writeRecords items, none)

/-- The part of the environment the writer sees: `openFile` is the result of
`os.OpenFile` (an error, or the content of the file at open time), `stat` the
error of `f.Stat()`, if any. Writes and flushes to an opened file succeed. -/
structure FileEnv where
  openFile : Except Err Bytes
  stat : Option Err

/-- Lines 172-197 of `writeData`: open the file, look at its size and write
the header if the size is 0. The result is the error to report, or the
records written so far. -/
def openSink (file : FileEnv) : Except Err (List Record) :=
  match file.openFile with
  | Except.error err => Except.error (Err.openOutput err)
  | Except.ok prior =>
    match file.stat with
    | some err => Except.error (Err.fileStats err)
    | none => if prior.length == 0 then Except.ok [csvHeader] else Except.ok []

/-- Content of the output file after a run that wrote `rows`, given the
encoding of one record by `csv.Writer`: the file is opened with `O_APPEND`. -/
def sinkContent (encode : Record → Bytes) (prior : Bytes) : List Record → Bytes
  | [] => prior
  | row :: rest => sinkContent encode (prior ++ encode row) rest

/-- What one evaluation of the `select` of `writeData` can observe. -/
inductive WSelect where
  /-- The case `<-ctx.Done()`. -/
  | ctxDone : WSelect
  /-- The case `<-doneCh`. -/
  | fetchDone : WSelect
  /-- The case `result, ok := <-ch` with `ok` true. -/
  | page (result : JObj) : WSelect
  /-- The case `result, ok := <-ch` with `ok` false. -/
  | closed : WSelect
  /-- The `default` case. -/
  | idle : WSelect

/-- The ways `writeData` returns. -/
inductive WExit where
  | failed : WExit
  | cancelled : WExit
  | closed : WExit
  | drained : WExit
deriving DecidableEq

/-- Observable result of a run of `writeData`. -/
structure WRun where
  /-- Records written to the file, in order. -/
  rows : List Record
  /-- Pages received from the page channel, in order. -/
  consumed : List JObj
  /-- Errors sent on the error channel, in order. -/
  reported : List Err
  /-- How the function returned; `none` while it is still in its loop. -/
  exit : Option WExit

/-- The `for { select { ... } }` loop of `writeData` over the successive
observations of its `select`; the first argument is the local `fetchDone`. -/
def writeLoop : Bool → List WSelect → WRun → WRun
  | _, [], run => run
  | _, WSelect.ctxDone :: _, run => { run with exit := some WExit.cancelled }
  | _, WSelect.fetchDone :: rest, run => writeLoop true rest run
  | fetchDone, WSelect.page result :: rest, run =>
    let out := processResult result run.rows
    writeLoop fetchDone rest
      { run with rows := out.1, consumed := run.consumed ++ [result],
                 reported := run.reported ++ out.2.toList }
  | _, WSelect.closed :: _, run => { run with exit := some WExit.closed }
  | fetchDone, WSelect.idle :: rest, run =>
    if fetchDone then { run with exit := some WExit.drained }
    else writeLoop fetchDone rest run

/-- Method `SerpHandler.writeData`, as a function of the file environment and
of the successive observations of its `select`, assuming that none of its
sends on `errCh` blocks forever. -/
def writeData (file : FileEnv) (selects : List WSelect) : WRun :=
  match openSink file with
  | Except.error e => { rows := [], consumed := [], reported := [e], exit := some WExit.failed }
  | Except.ok rows => writeLoop false selects { rows := rows, consumed := [], reported := [], exit := none }

/-- The records of a sequence of pages as the specification describes them:
page by page, item by item, one record per map-shaped raw item. -/
def specRecords : List JObj → List Record
  | [] => []
  | page :: rest =>
    ((organicResults page).getD []).filterMap
        (fun item => match item with
          | JVal.obj org => some [stringField org "title", stringField org "link",
              stringField org "snippet", stringField org "date"]
          | _ => none)
      ++ specRecords rest

/-! ## The pipeline, `SerpHandler.Query`, as an interleaving of its goroutines

The four goroutines of `Query` (the fetcher, the writer, the error monitor and
`Query` itself) run as one transition system. A label names the goroutine that
moves and, at a `select` with several ready cases, the case that is taken. The
channels are FIFO buffers of capacity `s.Concurrency` (1 for `doneCh`); when
the capacity is 0 a value passes directly from a goroutine that is at its send
to the receiver; a goroutine at a send may or may not have parked yet, so a
`default` case stays enabled beside such a transfer. Timers (the 5 minute
deadline, the 500 ms bound) may fire at any moment. All goroutines exist from the start: the steps by which `Query`
launches them touch no shared state but the wait group, whose counter starts
at 2.
-/

/-- Program points of `fetchPage`. -/
inductive FPc where
  /-- At the loop test and the `select` of line 119, with the loop variables. -/
  | loop (page empties : Nat) (parameter : Params) : FPc
  /-- At a send `errCh <- e` that is followed by `return`. -/
  | sendErr (e : Err) : FPc
  /-- At the send `ch <- result` of line 149. -/
  | sendPage (page empties : Nat) (parameter : Params) (result : JObj) : FPc
  /-- At the deferred send on `doneCh`. -/
  | sendDone : FPc
  /-- At the deferred `wg.Done()`. -/
  | wgDone : FPc
  /-- Returned. -/
  | exited : FPc

/-- Program points of `writeData`. -/
inductive WPc where
  /-- Before `os.OpenFile`. -/
  | opening : WPc
  /-- At a send `errCh <- e` that is followed by `return` (lines 174, 186). -/
  | reportOpen (e : Err) : WPc
  /-- At the send `errCh <- e` of `processResult`, after which the loop goes on. -/
  | reportParse (e : Err) (fetchDone : Bool) : WPc
  /-- At the `select` of line 202, with the local `fetchDone`. -/
  | select (fetchDone : Bool) : WPc
  /-- At the deferred `wg.Done()`. -/
  | wgDone (reason : WExit) : WPc
  /-- Returned. -/
  | exited (reason : WExit) : WPc

/-- Program points of the error-handling goroutine of `Query`. -/
inductive MPc where
  /-- At the `select` of line 290. -/
  | select : MPc
  /-- Received `err` (nil when `errCh` was closed), before `queryErr = err`. -/
  | gotErr (e : Option Err) : MPc
  /-- Before `cancel()`. -/
  | cancelling : MPc
  /-- Before `close(errorDone)`. -/
  | closing : MPc
  /-- Returned. -/
  | exited : MPc

/-- Program points of `Query` after it has launched the goroutines. -/
inductive QPc where
  /-- At `wg.Wait()`. -/
  | waiting : QPc
  /-- Before `close(resultCh)`. -/
  | closeResults : QPc
  /-- Before the `cancel()` of line 312. -/
  | cancel : QPc
  /-- At the `select` of line 316. -/
  | awaitMonitor : QPc
  /-- Before `close(errCh)`. -/
  | closeErrs : QPc
  /-- Before `return queryErr`. -/
  | returning : QPc
  /-- Returned this value. -/
  | returned (result : Option Err) : QPc

/-- Everything outside the program. -/
structure Env where
  src : PageSource
  file : FileEnv

/-- Global state of one run of `Query`. The last three fields are histories,
read by no transition. -/
structure Sys where
  /-- The context is cancelled or past its deadline: `ctx.Done()` is closed. -/
  ctxDone : Bool
  resultCh : List JObj
  resultClosed : Bool
  errCh : List Err
  errClosed : Bool
  /-- Number of signals buffered in `doneCh`. -/
  doneCh : Nat
  /-- The channel `errorDone` is closed. -/
  errorDone : Bool
  queryErr : Option Err
  /-- Counter of the wait group. -/
  wg : Nat
  fetcher : FPc
  writer : WPc
  monitor : MPc
  main : QPc
  /-- Records written to the output file by this run. -/
  rows : List Record
  /-- Actions of the fetcher so far. -/
  fetchLog : List FEvent
  /-- Pages received by the writer so far. -/
  consumed : List JObj
  /-- Errors sent by the writer so far. -/
  writerErrs : List Err

/-- Scheduling choices. -/
inductive Label where
  /-- The deadline of the context expires. -/
  | deadline : Label
  /-- The fetcher takes its next step. -/
  | fetch : Label
  /-- The writer takes its next step outside the `select`. -/
  | writeStep : Label
  /-- The writer's `select` takes `<-ctx.Done()`. -/
  | writeCtx : Label
  /-- The writer's `select` takes `<-doneCh`. -/
  | writeDone : Label
  /-- The writer's `select` takes `<-ch`. -/
  | writePage : Label
  /-- The writer's `select` takes `default`. -/
  | writeIdle : Label
  /-- The monitor's `select` takes `<-errCh` from the buffer or the closed channel. -/
  | monErr : Label
  /-- The monitor's `select` takes `<-errCh` directly from the fetcher. -/
  | monErrFetcher : Label
  /-- The monitor's `select` takes `<-errCh` directly from the writer. -/
  | monErrWriter : Label
  /-- The monitor's `select` takes `<-ctx.Done()`. -/
  | monCtx : Label
  /-- The monitor takes its next step outside the `select`. -/
  | monStep : Label
  /-- The goroutine of `Query` takes its next step. -/
  | mainStep : Label
  /-- The `time.After(500 ms)` case of the `select` of line 316 fires. -/
  | mainTimer : Label
deriving DecidableEq

/-- Capacity of `resultCh` and `errCh`. -/
def capacity (s : SerpHandler) : Nat := s.Concurrency.toNat

/-- State after `Query` has made its channels and launched its goroutines. -/
def initial (s : SerpHandler) (query : String) : Sys :=
  { ctxDone := false, resultCh := [], resultClosed := false, errCh := [], errClosed := false,
    doneCh := 0, errorDone := false, queryErr := none, wg := 2,
    fetcher := FPc.loop 0 0 (initialParams s query), writer := WPc.opening,
    monitor := MPc.select, main := QPc.waiting,
    rows := [], fetchLog := [], consumed := [], writerErrs := [] }

/-- Lines 151-166: where the fetcher goes after `ch <- result`. -/
def afterSend (page empties : Nat) (parameter : Params) (result : JObj) : FPc :=
  if hasNextPage result then FPc.loop (page + 1) empties parameter else FPc.sendDone

/-- The fetcher's next step. -/
def fetchStep (s : SerpHandler) (env : Env) (σ : Sys) : Option Sys :=
  match σ.fetcher with
  | FPc.loop page empties parameter =>
    if (page : Int) < s.MaxPages then
      if σ.ctxDone then some { σ with fetcher := FPc.sendDone }
      else
        let parameter := pageParams parameter page
        let req : Request := { parameter := parameter, apiKey := s.ApiKey }
        match fetchBody (env.src page req) page empties with
        | Fetched.failed e =>
          some { σ with fetcher := FPc.sendErr e,
                        fetchLog := σ.fetchLog ++ [FEvent.request page req] }
        | Fetched.page result empties =>
          some { σ with fetcher := FPc.sendPage page empties parameter result,
                        fetchLog := σ.fetchLog ++ [FEvent.request page req] }
    else some { σ with fetcher := FPc.sendDone }
  | FPc.sendErr e =>
    if σ.errCh.length < capacity s ∧ σ.errClosed = false then
      some { σ with errCh := σ.errCh ++ [e], fetcher := FPc.sendDone,
                    fetchLog := σ.fetchLog ++ [FEvent.report e] }
    else none
  | FPc.sendPage page empties parameter result =>
    if σ.resultCh.length < capacity s ∧ σ.resultClosed = false then
      some { σ with resultCh := σ.resultCh ++ [result],
                    fetcher := afterSend page empties parameter result,
                    fetchLog := σ.fetchLog ++ [FEvent.emit result] }
    else none
  | FPc.sendDone =>
    if σ.doneCh < 1 then
      some { σ with doneCh := σ.doneCh + 1, fetcher := FPc.wgDone,
                    fetchLog := σ.fetchLog ++ [FEvent.done] }
    else none
  | FPc.wgDone => some { σ with wg := σ.wg - 1, fetcher := FPc.exited }
  | FPc.exited => none

/-- The writer has received `result`: lines 217-218. -/
def consume (σ : Sys) (fetchDone : Bool) (result : JObj) : Sys :=
  let out := processResult result σ.rows
  { σ with rows := out.1, consumed := σ.consumed ++ [result],
           writer := match out.2 with
             | some e => WPc.reportParse e fetchDone
             | none => WPc.select fetchDone }

/-- The writer's next step outside its `select`. -/
def writeStep (s : SerpHandler) (env : Env) (σ : Sys) : Option Sys :=
  match σ.writer with
  | WPc.opening =>
    match openSink env.file with
    | Except.error e => some { σ with writer := WPc.reportOpen e }
    | Except.ok rows => some { σ with rows := rows, writer := WPc.select false }
  | WPc.reportOpen e =>
    if σ.errCh.length < capacity s ∧ σ.errClosed = false then
      some { σ with errCh := σ.errCh ++ [e], writerErrs := σ.writerErrs ++ [e],
                    writer := WPc.wgDone WExit.failed }
    else none
  | WPc.reportParse e fetchDone =>
    if σ.errCh.length < capacity s ∧ σ.errClosed = false then
      some { σ with errCh := σ.errCh ++ [e], writerErrs := σ.writerErrs ++ [e],
                    writer := WPc.select fetchDone }
    else none
  | WPc.select _ => none
  | WPc.wgDone reason => some { σ with wg := σ.wg - 1, writer := WPc.exited reason }
  | WPc.exited _ => none

/-- The writer's `select`, taking the case named by the label. A receive case
is ready when its channel holds a value or is closed; `default` is taken only
when no other case is ready. -/
def writeSelect (s : SerpHandler) (σ : Sys) (l : Label) : Option Sys :=
  match σ.writer with
  | WPc.select fetchDone =>
    match l with
    | Label.writeCtx =>
      if σ.ctxDone then some { σ with writer := WPc.wgDone WExit.cancelled } else none
    | Label.writeDone =>
      if 0 < σ.doneCh then some { σ with doneCh := σ.doneCh - 1, writer := WPc.select true }
      else none
    | Label.writePage =>
      match σ.resultCh with
      | result :: rest => some (consume { σ with resultCh := rest } fetchDone result)
      | [] =>
        if σ.resultClosed then some { σ with writer := WPc.wgDone WExit.closed }
        else
          match σ.fetcher with
          | FPc.sendPage page empties parameter result =>
            if capacity s = 0 then
              some (consume { σ with fetcher := afterSend page empties parameter result,
                                     fetchLog := σ.fetchLog ++ [FEvent.emit result] }
                      fetchDone result)
            else none
          | _ => none
    | Label.writeIdle =>
      if σ.ctxDone = false ∧ σ.doneCh = 0 ∧ σ.resultCh.length = 0 ∧ σ.resultClosed = false then
        if fetchDone then some { σ with writer := WPc.wgDone WExit.drained } else some σ
      else none
    | _ => none
  | _ => none

/-- The monitor's steps. -/
def monitorStep (s : SerpHandler) (σ : Sys) (l : Label) : Option Sys :=
  match σ.monitor, l with
  | MPc.select, Label.monErr =>
    match σ.errCh with
    | e :: rest => some { σ with errCh := rest, monitor := MPc.gotErr (some e) }
    | [] => if σ.errClosed then some { σ with monitor := MPc.gotErr none } else none
  | MPc.select, Label.monErrFetcher =>
    match σ.fetcher with
    | FPc.sendErr e =>
      if capacity s = 0 ∧ σ.errCh = [] ∧ σ.errClosed = false then
        some { σ with fetcher := FPc.sendDone, fetchLog := σ.fetchLog ++ [FEvent.report e],
                      monitor := MPc.gotErr (some e) }
      else none
    | _ => none
  | MPc.select, Label.monErrWriter =>
    if capacity s = 0 ∧ σ.errCh = [] ∧ σ.errClosed = false then
      match σ.writer with
      | WPc.reportOpen e =>
        some { σ with writer := WPc.wgDone WExit.failed, writerErrs := σ.writerErrs ++ [e],
                      monitor := MPc.gotErr (some e) }
      | WPc.reportParse e fetchDone =>
        some { σ with writer := WPc.select fetchDone, writerErrs := σ.writerErrs ++ [e],
                      monitor := MPc.gotErr (some e) }
      | _ => none
    else none
  | MPc.select, Label.monCtx =>
    if σ.ctxDone then some { σ with monitor := MPc.closing } else none
  | MPc.gotErr e, Label.monStep => some { σ with queryErr := e, monitor := MPc.cancelling }
  | MPc.cancelling, Label.monStep => some { σ with ctxDone := true, monitor := MPc.closing }
  | MPc.closing, Label.monStep => some { σ with errorDone := true, monitor := MPc.exited }
  | _, _ => none

/-- The steps of `Query` from `wg.Wait()` on. -/
def mainStep (σ : Sys) (l : Label) : Option Sys :=
  match σ.main, l with
  | QPc.waiting, Label.mainStep =>
    if σ.wg = 0 then some { σ with main := QPc.closeResults } else none
  | QPc.closeResults, Label.mainStep =>
    some { σ with resultClosed := true, main := QPc.cancel }
  | QPc.cancel, Label.mainStep => some { σ with ctxDone := true, main := QPc.awaitMonitor }
  | QPc.awaitMonitor, Label.mainStep =>
    if σ.errorDone then some { σ with main := QPc.closeErrs } else none
  | QPc.awaitMonitor, Label.mainTimer => some { σ with main := QPc.closeErrs }
  | QPc.closeErrs, Label.mainStep => some { σ with errClosed := true, main := QPc.returning }
  | QPc.returning, Label.mainStep => some { σ with main := QPc.returned σ.queryErr }
  | _, _ => none

/-- One transition of the pipeline; `none` when the label is not enabled. -/
def step (s : SerpHandler) (env : Env) (σ : Sys) (l : Label) : Option Sys :=
  match l with
  | Label.deadline => some { σ with ctxDone := true }
  | Label.fetch => fetchStep s env σ
  | Label.writeStep => writeStep s env σ
  | Label.writeCtx => writeSelect s σ l
  | Label.writeDone => writeSelect s σ l
  | Label.writePage => writeSelect s σ l
  | Label.writeIdle => writeSelect s σ l
  | Label.monErr => monitorStep s σ l
  | Label.monErrFetcher => monitorStep s σ l
  | Label.monErrWriter => monitorStep s σ l
  | Label.monCtx => monitorStep s σ l
  | Label.monStep => monitorStep s σ l
  | Label.mainStep => mainStep σ l
  | Label.mainTimer => mainStep σ l

/-- The state reached from `σ` by a schedule, when every label of it is enabled. -/
def run (s : SerpHandler) (env : Env) : Sys → List Label → Option Sys
  | σ, [] => some σ
  | σ, l :: rest =>
    match step s env σ l with
    | some σ' => run s env σ' rest
    | none => none

/-- States of the runs of `s.Query(query)`; `make` panics on a negative
capacity, so there is no run then. -/
inductive Reachable (s : SerpHandler) (query : String) (env : Env) : Sys → Prop where
  | init (h : 0 ≤ s.Concurrency) : Reachable s query env (initial s query)
  | step {σ σ' : Sys} (l : Label) (h : Reachable s query env σ)
      (hstep : step s env σ l = some σ') : Reachable s query env σ'

/-! ## Sample data -/

/-- The handler the command line builds. -/
def demoHandler : SerpHandler := CreateSerpHandler "key" "google" "output.csv"

/-- A page with the given raw items and, optionally, a next-page link. -/
def pageOf (items : List JVal) (next : Option String) : JObj :=
  ("organic_results", JVal.arr items) ::
    match next with
    | some link => [("serpapi_pagination", JVal.obj [("next", JVal.str link)])]
    | none => []

def itemA : JVal :=
  JVal.obj [("title", JVal.str "A"), ("link", JVal.str "u1"), ("snippet", JVal.str "s1")]

def itemB : JVal :=
  JVal.obj [("title", JVal.str "B"), ("link", JVal.str "u2"), ("snippet", JVal.str "s2"),
    ("date", JVal.str "2024-01-01")]

/-- The fields of an item without a title and with a date that is not a string. -/
def itemCFields : JObj :=
  [("link", JVal.str "u3"), ("snippet", JVal.str "s3"), ("date", JVal.num 7)]

def itemC : JVal := JVal.obj itemCFields

/-- A page without an `organic_results` entry and without pagination. -/
def noResultsPage : JObj := [("search_information", JVal.obj [])]

/-- An output file that opens and is empty. -/
def emptyFile : FileEnv := { openFile := Except.ok [], stat := none }

/-- An output file that opens and already holds three bytes. -/
def usedFile : FileEnv := { openFile := Except.ok [97, 44, 98], stat := none }

/-- Two pages: items A and B, then item C. -/
def twoPages (i : Nat) : JObj :=
  if i = 0 then pageOf [itemA, itemB] (some "next") else pageOf [itemC] none

/-- A source with the two pages of `twoPages`. -/
def twoPageSource : PageSource := fun i _ => Except.ok (twoPages i)

/-- A source whose pages are all empty and all announce a next page. -/
def emptyPagesSource : PageSource := fun _ _ => Except.ok (pageOf [] (some "next"))

/-- A source whose only page lacks the item list. -/
def noResultsSource : PageSource := fun _ _ => Except.ok noResultsPage

/-! ## Invariants of the pipeline -/

/-- The fetcher has not yet executed its deferred send on `doneCh`. -/
def FPc.beforeDone : FPc → Bool
  | FPc.loop _ _ _ => true
  | FPc.sendErr _ => true
  | FPc.sendPage _ _ _ _ => true
  | FPc.sendDone => true
  | FPc.wgDone => false
  | FPc.exited => false

/-- The fetcher has returned. -/
def FPc.isExited : FPc → Bool
  | FPc.exited => true
  | _ => false

/-- The reason with which the writer has left its loop, if it has. -/
def WPc.reason : WPc → Option WExit
  | WPc.wgDone r => some r
  | WPc.exited r => some r
  | _ => none

/-- The writer has returned. -/
def WPc.isExited : WPc → Bool
  | WPc.exited _ => true
  | _ => false

/-- The writer has received the completion signal. -/
def WPc.sawDone : WPc → Bool
  | WPc.reportParse _ fetchDone => fetchDone
  | WPc.select fetchDone => fetchDone
  | WPc.wgDone WExit.drained => true
  | WPc.exited WExit.drained => true
  | _ => false

/-- Invariant of every run, whatever the environment. -/
structure Inv (σ : Sys) : Prop where
  wg_eq : σ.wg = (if σ.fetcher.isExited then 0 else 1) + (if σ.writer.isExited then 0 else 1)
  main_wg : σ.main ≠ QPc.waiting → σ.wg = 0
  closed_main : σ.resultClosed = true → σ.main ≠ QPc.waiting ∧ σ.main ≠ QPc.closeResults
  pages : emittedPages σ.fetchLog = σ.consumed ++ σ.resultCh
  before : σ.fetcher.beforeDone = true →
    σ.doneCh = 0 ∧ σ.writer.sawDone = false ∧ FEvent.done ∉ σ.fetchLog
  after : σ.fetcher.beforeDone = false →
    ∃ init, σ.fetchLog = init ++ [FEvent.done] ∧ FEvent.done ∉ init
  drained : σ.writer.reason = some WExit.drained → σ.resultCh = []
  failed : σ.writer.reason = some WExit.failed → σ.writerErrs ≠ []
  cancelled : σ.writer.reason = some WExit.cancelled → σ.ctxDone = true
  not_closed : σ.writer.reason ≠ some WExit.closed
  err_open : σ.errClosed = true → σ.main ≠ QPc.waiting

/-- The state a schedule leads to, or the starting state when some label of
the schedule is not enabled. -/
def exec (s : SerpHandler) (env : Env) (σ : Sys) (schedule : List Label) : Sys :=
  (run s env σ schedule).getD σ

/-- The environment of the two-page source and an empty output file. -/
def twoPageEnv : Env := { src := twoPageSource, file := emptyFile }

/-- A schedule for `twoPageEnv`: the fetcher fetches and emits both pages and
returns, the writer then opens the file, consumes both pages, receives the
completion signal and leaves by its drained exit, and `Query` returns. -/
def twoPageSchedule : List Label :=
  [Label.fetch, Label.fetch, Label.fetch, Label.fetch, Label.fetch, Label.fetch,
   Label.writeStep, Label.writePage, Label.writePage, Label.writeDone, Label.writeIdle,
   Label.writeStep,
   Label.mainStep, Label.mainStep, Label.mainStep, Label.monCtx, Label.monStep,
   Label.mainStep, Label.mainStep, Label.mainStep]

/-- A schedule for `twoPageEnv` in which the writer works as pages arrive and
is polling when the fetcher finishes. -/
def eagerSchedule : List Label :=
  [Label.writeStep, Label.writeIdle, Label.fetch, Label.fetch, Label.writePage,
   Label.writeIdle, Label.fetch, Label.fetch, Label.fetch, Label.writeDone, Label.writePage,
   Label.writeIdle, Label.fetch, Label.writeStep]

/-- The setting of a remote failure: the page source answers the
requests for pages `0..k-1` with pages that have raw items and announce a next
page, it fails with `cause` on the request for page `k`, and the output file
opens. -/
structure FailsAt (s : SerpHandler) (query : String) (env : Env) (pg : Nat → JObj) (k : Nat)
    (cause : Err) : Prop where
  pages : ∀ i, i < k → env.src i (requestFor s query i) = Except.ok (pg i)
  items : ∀ i, i < k → isEmptyPage (pg i) = false
  next : ∀ i, i < k → hasNextPage (pg i) = true
  fails : env.src k (requestFor s query k) = Except.error cause
  opens : ∃ prior, env.file.openFile = Except.ok prior
  stats : env.file.stat = none

/-- In the setting of `FailsAt`: the history of the fetcher at each of its
program points. -/
def FailShape (s : SerpHandler) (query : String) (pg : Nat → JObj) (k : Nat) (cause : Err) :
    FPc → List FEvent → Prop
  | FPc.loop page _ parameter, log =>
    page ≤ k ∧ ParamInv s query page parameter ∧ log = pagesTrace s query pg 0 page
  | FPc.sendPage page _ parameter result, log =>
    page < k ∧ parameter = pageParams (initialParams s query) page ∧ result = pg page ∧
      log = pagesTrace s query pg 0 page ++ [FEvent.request page (requestFor s query page)]
  | FPc.sendErr e, log =>
    e = Err.fetchingPage k cause ∧
      log = pagesTrace s query pg 0 k ++ [FEvent.request k (requestFor s query k)]
  | FPc.sendDone, log =>
    (∃ j, j ≤ k ∧ log = pagesTrace s query pg 0 j) ∨
      log = pagesTrace s query pg 0 k ++
        [FEvent.request k (requestFor s query k), FEvent.report (Err.fetchingPage k cause)]
  | _, log =>
    (∃ j, j ≤ k ∧ log = pagesTrace s query pg 0 j ++ [FEvent.done]) ∨
      log = pagesTrace s query pg 0 k ++
        [FEvent.request k (requestFor s query k), FEvent.report (Err.fetchingPage k cause),
         FEvent.done]

/-- The writer is at a send on the error channel. -/
def WPc.reporting : WPc → Bool
  | WPc.reportOpen _ => true
  | WPc.reportParse _ _ => true
  | _ => false

/-- Invariant of the runs in the setting of `FailsAt`. -/
structure FailInv (s : SerpHandler) (query : String) (pg : Nat → JObj) (k : Nat) (cause : Err)
    (σ : Sys) : Prop where
  shape : FailShape s query pg k cause σ.fetcher σ.fetchLog
  errs : ∀ e, e ∈ σ.errCh → e = Err.fetchingPage k cause
  got : ∀ e, σ.monitor = MPc.gotErr (some e) → e = Err.fetchingPage k cause
  stored : ∀ e, σ.queryErr = some e → e = Err.fetchingPage k cause
  returned : ∀ e, σ.main = QPc.returned (some e) → e = Err.fetchingPage k cause
  wellFormed : ∀ r, r ∈ σ.resultCh → isEmptyPage r = false
  quiet : σ.writerErrs = [] ∧ σ.writer.reporting = false
  unsent : σ.errCh = [] ∨ reportedErrors σ.fetchLog ≠ []

/-- The histories described by `FailShape`, summarised. -/
def LogFacts (pg : Nat → JObj) (k : Nat) (cause : Err) (finished : Bool) (log : List FEvent) :
    Prop :=
  (∀ i, i ∈ requestedPages log → i ≤ k) ∧
  emittedPages log <+: (List.range k).map pg ∧
  (reportedErrors log = [] ∨ reportedErrors log = [Err.fetchingPage k cause]) ∧
  (k ∈ requestedPages log → emittedPages log = (List.range k).map pg) ∧
  (finished = true → k ∈ requestedPages log →
    reportedErrors log = [Err.fetchingPage k cause])

/-- A source that returns two pages with item A announcing a next page and
fails on the third call. -/
def failsAtTwoSource : PageSource := fun i _ =>
  if i < 2 then Except.ok (pageOf [itemA] (some "next"))
  else Except.error (Err.external "rate limit")

/-- The environment of `failsAtTwoSource` and an empty output file. -/
def failsAtTwoEnv : Env := { src := failsAtTwoSource, file := emptyFile }

/-- The error the fetcher builds from the failure of `failsAtTwoSource`. -/
def failsAtTwoReport : Err := Err.fetchingPage 2 (Err.external "rate limit")

/-- A schedule for `failsAtTwoEnv`: the fetcher emits two pages, sends the
error of the third request and returns; the writer writes both pages and
leaves by its drained exit; `Query` closes the page channel and calls
`cancel()`; only then does the monitor run its `select`, where both cases are
ready, and it takes `<-ctx.Done()`. -/
def lostErrorSchedule : List Label :=
  [Label.fetch, Label.fetch, Label.fetch, Label.fetch, Label.fetch, Label.fetch, Label.fetch,
   Label.fetch,
   Label.writeStep, Label.writePage, Label.writePage, Label.writeDone, Label.writeIdle,
   Label.writeStep,
   Label.mainStep, Label.mainStep, Label.mainStep,
   Label.monCtx, Label.monStep,
   Label.mainStep, Label.mainStep, Label.mainStep]

/-- A schedule for `failsAtTwoEnv` in which the monitor waits at its `select`
from the start: the 5 minute deadline expires while the request for page 2 is
under way, which wakes the monitor through `<-ctx.Done()`; the error the
fetcher then sends stays in the buffer of `errCh`. -/
def expiredDeadlineSchedule : List Label :=
  [Label.fetch, Label.fetch, Label.fetch, Label.fetch, Label.fetch,
   Label.deadline, Label.monCtx, Label.monStep,
   Label.fetch, Label.fetch, Label.fetch,
   Label.writeStep, Label.writePage, Label.writePage, Label.writeCtx, Label.writeStep,
   Label.mainStep, Label.mainStep, Label.mainStep, Label.mainStep, Label.mainStep,
   Label.mainStep]

/-- A schedule for `failsAtTwoEnv` in which the monitor is at its `select`
when the fetcher sends the error and receives it. -/
def keptErrorSchedule : List Label :=
  [Label.fetch, Label.fetch, Label.fetch, Label.fetch, Label.fetch, Label.fetch,
   Label.monErr, Label.monStep, Label.monStep, Label.monStep,
   Label.fetch, Label.fetch,
   Label.writeStep, Label.writeCtx, Label.writeStep,
   Label.mainStep, Label.mainStep, Label.mainStep, Label.mainStep, Label.mainStep,
   Label.mainStep]

/-- The environment whose only page lacks the item list. -/
def noResultsEnv : Env := { src := noResultsSource, file := emptyFile }

/-- A schedule for `noResultsEnv`: the fetcher emits the page and returns, the
writer processes it and reports the parse error, the monitor receives it. -/
def parseErrorSchedule : List Label :=
  [Label.fetch, Label.fetch, Label.fetch, Label.fetch,
   Label.writeStep, Label.writePage, Label.writeStep,
   Label.monErr, Label.monStep, Label.monStep, Label.monStep,
   Label.writeCtx, Label.writeStep,
   Label.mainStep, Label.mainStep, Label.mainStep, Label.mainStep, Label.mainStep,
   Label.mainStep]

/-! ## The fetcher of the pipeline and `fetchPage` -/

/-- What `fetchPage` still does from a program point of the fetcher, when the
later observations of the context are given by `ctx`. -/
def fetcherRest (s : SerpHandler) (src : PageSource) (ctx : Nat → Bool) : FPc → List FEvent
  | FPc.loop page empties parameter =>
    fetchLoop s src ctx (s.MaxPages.toNat - page) page empties parameter ++ [FEvent.done]
  | FPc.sendErr e => [FEvent.report e, FEvent.done]
  | FPc.sendPage page empties parameter result =>
    FEvent.emit result ::
      ((if hasNextPage result then
          fetchLoop s src ctx (s.MaxPages.toNat - (page + 1)) (page + 1) empties parameter
        else []) ++ [FEvent.done])
  | FPc.sendDone => [FEvent.done]
  | FPc.wgDone => []
  | FPc.exited => []

/-- The history `log` of a fetcher at program point `pc` is the beginning of
the trace of `fetchPage` under every cancellation behaviour that agrees with
the `n` observations of the context made so far. -/
def FetcherRefines (s : SerpHandler) (query : String) (src : PageSource) (pc : FPc)
    (log : List FEvent) : Prop :=
  ∃ (seen : Nat → Bool) (n : Nat),
    (∀ page empties parameter, pc = FPc.loop page empties parameter → n ≤ page) ∧
    (∀ page empties parameter result,
      pc = FPc.sendPage page empties parameter result → n ≤ page + 1) ∧
    ∀ ctx : Nat → Bool, (∀ i, i < n → ctx i = seen i) →
      fetchPage s query src ctx = log ++ fetcherRest s src ctx pc

/-- The rows written in a run of the pipeline are those `writeData` writes:
nothing before the file is opened, then `base` (the header, or nothing)
followed by the records of the pages consumed. -/
def RowsInv (base : List Record) (σ : Sys) : Prop :=
  (σ.writer = WPc.opening ∧ σ.rows = [] ∧ σ.consumed = []) ∨
  (σ.writer ≠ WPc.opening ∧ σ.rows = base ++ specRecords σ.consumed)

/-! ## Errors on their way to the result of `Query` -/

/-- The error the writer is about to send, if it is at a send on `errCh`. -/
def WPc.pending : WPc → List Err
  | WPc.reportOpen e => [e]
  | WPc.reportParse e _ => [e]
  | _ => []

/-- One parse error for every page of the list that lacks a well-formed item
list. -/
def parseErrors : List JObj → List Err
  | [] => []
  | page :: rest =>
    match organicResults page with
    | none => Err.parseOrganic :: parseErrors rest
    | some _ => parseErrors rest

/-- The `select` of the monitor has taken the case `err := <-errCh` in the
schedule. -/
def tookErr (schedule : List Label) : Prop :=
  Label.monErr ∈ schedule ∨ Label.monErrFetcher ∈ schedule ∨ Label.monErrWriter ∈ schedule

/-- The error `e` has been sent on `errCh`, by the fetcher or by the writer. -/
def Sent (σ : Sys) (e : Err) : Prop :=
  e ∈ reportedErrors σ.fetchLog ∨ e ∈ σ.writerErrs

/-- The monitor is past its `select` and its `cancel()`. -/
def MPc.finished : MPc → Bool
  | MPc.closing => true
  | MPc.exited => true
  | _ => false

/-- The goroutine of `Query` is past the `select` of line 316. -/
def QPc.pastWait : QPc → Bool
  | QPc.closeErrs => true
  | QPc.returning => true
  | QPc.returned _ => true
  | _ => false

/-- The goroutine of `Query` is past `close(errCh)`. -/
def QPc.pastClose : QPc → Bool
  | QPc.returning => true
  | QPc.returned _ => true
  | _ => false

/-- Invariant relating a schedule to the state it leads to: how an error
travels from `errCh` through the monitor to the value `Query` returns. -/
structure MonInv (schedule : List Label) (σ : Sys) : Prop where
  sent : ∀ e, e ∈ σ.errCh → Sent σ e
  sel : σ.monitor = MPc.select → ¬ tookErr schedule ∧ σ.queryErr = none
  got : ∀ e, σ.monitor = MPc.gotErr e → tookErr schedule ∧ σ.queryErr = none ∧
    (Label.mainTimer ∉ schedule → ∃ e', e = some e' ∧ Sent σ e')
  stored : σ.monitor = MPc.cancelling → tookErr schedule ∧
    (Label.mainTimer ∉ schedule → ∃ e', σ.queryErr = some e' ∧ Sent σ e')
  fin : σ.monitor.finished = true →
    (tookErr schedule → σ.ctxDone = true ∧
      (Label.mainTimer ∉ schedule → ∃ e', σ.queryErr = some e' ∧ Sent σ e')) ∧
    (¬ tookErr schedule → σ.queryErr = none)
  edone : σ.errorDone = true → σ.monitor = MPc.exited
  late : Label.mainTimer ∉ schedule → σ.main.pastWait = true → σ.monitor = MPc.exited
  closed : σ.errClosed = true → σ.main.pastClose = true
  ret : Label.mainTimer ∉ schedule → ∀ r, σ.main = QPc.returned r → r = σ.queryErr

/-- What a step of the fetcher or of the writer, or the expiry of the
deadline, leaves unchanged. -/
structure WorkerFrame (σ σ' : Sys) : Prop where
  monitor : σ'.monitor = σ.monitor
  queryErr : σ'.queryErr = σ.queryErr
  main : σ'.main = σ.main
  errorDone : σ'.errorDone = σ.errorDone
  errClosed : σ'.errClosed = σ.errClosed
  ctxDone : σ.ctxDone = true → σ'.ctxDone = true
  sentMono : ∀ e, Sent σ e → Sent σ' e
  chan : ∀ e, e ∈ σ'.errCh → e ∈ σ.errCh ∨ Sent σ' e

/-- Invariant of the writer in the runs on a file that opens: it has reported
one parse error for every consumed page that lacks the item list and nothing
else, and it has not left through an open failure. -/
structure ParseInv (σ : Sys) : Prop where
  errs : σ.writerErrs ++ σ.writer.pending = parseErrors σ.consumed
  opened : ∀ e, σ.writer ≠ WPc.reportOpen e
  notFailed : σ.writer.reason ≠ some WExit.failed

/-! ## Sequential behaviour of the fetcher -/

theorem set_start_initial (s : SerpHandler) (query v : String) :
    (initialParams s query).set "start" v =
      [("engine", s.SearchEngine), ("q", query), ("start", v)] := by
  simp [initialParams, Params.set]

theorem set_start_twice (s : SerpHandler) (query v w : String) :
    ((initialParams s query).set "start" v).set "start" w =
      (initialParams s query).set "start" w := by
  simp [initialParams, Params.set]

theorem paramInv_zero (s : SerpHandler) (query : String) :
    ParamInv s query 0 (initialParams s query) :=
  ⟨fun _ => rfl, Or.inl rfl⟩

theorem pageParams_of_inv {s : SerpHandler} {query : String} {page : Nat}
    {parameter : Params} (h : ParamInv s query page parameter) :
    pageParams parameter page = pageParams (initialParams s query) page := by
  unfold pageParams
  by_cases hp : page > 0
  · simp only [hp, if_true]
    rcases h.2 with h2 | ⟨v, h2⟩
    · rw [h2]
    · rw [h2, set_start_twice]
  · have : page = 0 := by omega
    simp only [hp, if_false]
    exact h.1 this

theorem paramInv_succ (s : SerpHandler) (query : String) (page : Nat) :
    ParamInv s query (page + 1) (pageParams (initialParams s query) page) := by
  refine ⟨fun h => absurd h (Nat.succ_ne_zero page), ?_⟩
  by_cases hp : page > 0
  · exact Or.inr ⟨sprintfD ((page : Int) * 10), by simp [pageParams, hp]⟩
  · exact Or.inl (by simp [pageParams, hp])

/-- One unfolding of the loop, with the request in closed form. -/
theorem fetchLoop_succ (s : SerpHandler) (query : String) (src : PageSource)
    (ctx : Nat → Bool) (left page empties : Nat) (parameter : Params)
    (h : ParamInv s query page parameter) :
    fetchLoop s src ctx (left + 1) page empties parameter =
      if ctx page then []
      else
        match fetchBody (src page (requestFor s query page)) page empties with
        | Fetched.failed e => [FEvent.request page (requestFor s query page), FEvent.report e]
        | Fetched.page result empties =>
          FEvent.request page (requestFor s query page) :: FEvent.emit result ::
            (if hasNextPage result then
              fetchLoop s src ctx left (page + 1) empties
                (pageParams (initialParams s query) page)
             else []) := by
  rw [fetchLoop]
  simp only [pageParams_of_inv h, requestFor]

theorem requests_append (a b : List FEvent) :
    requests (a ++ b) = requests a ++ requests b := by
  induction a with
  | nil => rfl
  | cons e rest ih => cases e <;> simp [requests, ih]

theorem requestedPages_append (a b : List FEvent) :
    requestedPages (a ++ b) = requestedPages a ++ requestedPages b := by
  simp [requestedPages, requests_append]

theorem emittedPages_append (a b : List FEvent) :
    emittedPages (a ++ b) = emittedPages a ++ emittedPages b := by
  induction a with
  | nil => rfl
  | cons e rest ih => cases e <;> simp [emittedPages, ih]

theorem reportedErrors_append (a b : List FEvent) :
    reportedErrors (a ++ b) = reportedErrors a ++ reportedErrors b := by
  induction a with
  | nil => rfl
  | cons e rest ih => cases e <;> simp [reportedErrors, ih]

theorem requests_pagesTrace (s : SerpHandler) (query : String) (pg : Nat → JObj)
    (count : Nat) : ∀ page,
    requests (pagesTrace s query pg page count) =
      (List.range' page count).map (fun i => (i, requestFor s query i)) := by
  induction count with
  | zero => intro page; rfl
  | succ c ih => intro page; simp [pagesTrace, requests, ih, List.range']

theorem requestedPages_pagesTrace (s : SerpHandler) (query : String) (pg : Nat → JObj)
    (count : Nat) (page : Nat) :
    requestedPages (pagesTrace s query pg page count) = List.range' page count := by
  simp [requestedPages, requests_pagesTrace, List.map_map, Function.comp_def]

theorem emittedPages_pagesTrace (s : SerpHandler) (query : String) (pg : Nat → JObj)
    (count : Nat) : ∀ page,
    emittedPages (pagesTrace s query pg page count) = (List.range' page count).map pg := by
  induction count with
  | zero => intro page; rfl
  | succ c ih => intro page; simp [pagesTrace, emittedPages, ih, List.range']

theorem reportedErrors_pagesTrace (s : SerpHandler) (query : String) (pg : Nat → JObj)
    (count : Nat) : ∀ page, reportedErrors (pagesTrace s query pg page count) = [] := by
  induction count with
  | zero => intro page; rfl
  | succ c ih => intro page; simp [pagesTrace, reportedErrors, ih]

theorem pagesTrace_add (s : SerpHandler) (query : String) (pg : Nat → JObj) (b : Nat) :
    ∀ a page, pagesTrace s query pg page (a + b) =
      pagesTrace s query pg page a ++ pagesTrace s query pg (page + a) b := by
  intro a
  induction a with
  | zero => intro page; simp [pagesTrace]
  | succ a ih =>
    intro page
    have h : a + 1 + b = (a + b) + 1 := by omega
    rw [h, pagesTrace, pagesTrace, ih (page + 1)]
    have h2 : page + 1 + a = page + (a + 1) := by omega
    rw [h2]
    rfl

/-- A run of non-empty pages that all announce a next page, except the last:
the loop requests and emits each of them and stops after the last. -/
theorem fetchLoop_until_last (s : SerpHandler) (query : String) (src : PageSource)
    (pg : Nat → JObj) (m : Nat) :
    ∀ (left page empties : Nat) (parameter : Params),
      ParamInv s query page parameter → m + 1 ≤ left →
      (∀ i, page ≤ i → i ≤ page + m → src i (requestFor s query i) = Except.ok (pg i)) →
      (∀ i, page ≤ i → i ≤ page + m → isEmptyPage (pg i) = false) →
      (∀ i, page ≤ i → i < page + m → hasNextPage (pg i) = true) →
      hasNextPage (pg (page + m)) = false →
      fetchLoop s src (fun _ => false) left page empties parameter =
        pagesTrace s query pg page (m + 1) := by
  induction m with
  | zero =>
    intro left page empties parameter hinv hleft hsrc hne _ hlast
    obtain ⟨l, rfl⟩ : ∃ l, left = l + 1 := ⟨left - 1, by omega⟩
    rw [fetchLoop_succ s query src _ l page empties parameter hinv]
    have h1 := hsrc page (le_refl _) (by omega)
    have h2 := hne page (le_refl _) (by omega)
    simp only [Nat.add_zero] at hlast
    simp [h1, fetchBody, h2, hlast, pagesTrace]
  | succ m ih =>
    intro left page empties parameter hinv hleft hsrc hne hnext hlast
    obtain ⟨l, rfl⟩ : ∃ l, left = l + 1 := ⟨left - 1, by omega⟩
    rw [fetchLoop_succ s query src _ l page empties parameter hinv]
    have h1 := hsrc page (le_refl _) (by omega)
    have h2 := hne page (le_refl _) (by omega)
    have h3 := hnext page (le_refl _) (by omega)
    have hrec := ih l (page + 1) 0 (pageParams (initialParams s query) page)
      (paramInv_succ s query page) (by omega)
      (fun i hi hi2 => hsrc i (by omega) (by omega))
      (fun i hi hi2 => hne i (by omega) (by omega))
      (fun i hi hi2 => hnext i (by omega) (by omega))
      (by rw [show page + 1 + m = page + (m + 1) by omega]; exact hlast)
    simp only [h1, fetchBody, h2, h3, Bool.false_eq_true, if_false, if_true, hrec]
    rfl

/-- Claim C1. For a page limit `s.MaxPages` and `n` pages (`1 ≤ n ≤ s.MaxPages`)
that the page source returns successfully, each with at least one raw item,
each but the last announcing a next page and the last announcing none,
`fetchPage` without cancellation requests exactly the page indices `0..n-1`,
emits exactly those `n` pages in index order on the page channel, and reports
no error. -/
theorem fetchPage_emits_all_pages (s : SerpHandler) (query : String) (src : PageSource)
    (pg : Nat → JObj) (n : Nat) (hn : 1 ≤ n) (hL : (n : Int) ≤ s.MaxPages)
    (hsrc : ∀ i, i < n → src i (requestFor s query i) = Except.ok (pg i))
    (hitems : ∀ i, i < n → isEmptyPage (pg i) = false)
    (hnext : ∀ i, i + 1 < n → hasNextPage (pg i) = true)
    (hlast : hasNextPage (pg (n - 1)) = false) :
    requestedPages (fetchPage s query src (fun _ => false)) = List.range n ∧
    emittedPages (fetchPage s query src (fun _ => false)) = (List.range n).map pg ∧
    reportedErrors (fetchPage s query src (fun _ => false)) = [] := by
  obtain ⟨m, rfl⟩ : ∃ m, n = m + 1 := ⟨n - 1, by omega⟩
  have hleft : m + 1 ≤ s.MaxPages.toNat := by omega
  have hrun := fetchLoop_until_last s query src pg m s.MaxPages.toNat 0 0
    (initialParams s query) (paramInv_zero s query) hleft
    (fun i _ hi => hsrc i (by omega)) (fun i _ hi => hitems i (by omega))
    (fun i _ hi => hnext i (by omega)) (by simpa using hlast)
  unfold fetchPage
  rw [hrun, requestedPages_append, emittedPages_append, reportedErrors_append,
    requestedPages_pagesTrace, emittedPages_pagesTrace, reportedErrors_pagesTrace]
  simp [requestedPages, requests, emittedPages, reportedErrors, List.range_eq_range']

/-- One iteration that emits its page and goes on to the next page. -/
theorem fetchLoop_emit_next (s : SerpHandler) (query : String) (src : PageSource)
    (left page empties : Nat) (parameter : Params) (result : JObj)
    (hinv : ParamInv s query page parameter)
    (hsrc : src page (requestFor s query page) = Except.ok result)
    (hcount : isEmptyPage result = true → empties + 1 < maxConsecutiveEmptyResults)
    (hnext : hasNextPage result = true) :
    fetchLoop s src (fun _ => false) (left + 1) page empties parameter =
      FEvent.request page (requestFor s query page) :: FEvent.emit result ::
        fetchLoop s src (fun _ => false) left (page + 1)
          (if isEmptyPage result then empties + 1 else 0)
          (pageParams (initialParams s query) page) := by
  rw [fetchLoop_succ s query src _ left page empties parameter hinv]
  by_cases hempty : isEmptyPage result = true
  · have hlt : ¬ (empties + 1 ≥ maxConsecutiveEmptyResults) := Nat.not_le.mpr (hcount hempty)
    simp [hsrc, fetchBody, hempty, hlt, hnext]
  · simp [hsrc, fetchBody, hempty, hnext]

/-- One iteration whose page is the third consecutive empty one. -/
theorem fetchLoop_stall (s : SerpHandler) (query : String) (src : PageSource)
    (left page empties : Nat) (parameter : Params) (result : JObj)
    (hinv : ParamInv s query page parameter)
    (hsrc : src page (requestFor s query page) = Except.ok result)
    (hempty : isEmptyPage result = true)
    (hcount : maxConsecutiveEmptyResults ≤ empties + 1) :
    fetchLoop s src (fun _ => false) (left + 1) page empties parameter =
      [FEvent.request page (requestFor s query page),
       FEvent.report (Err.stalled maxConsecutiveEmptyResults)] := by
  rw [fetchLoop_succ s query src _ left page empties parameter hinv]
  simp [hsrc, fetchBody, hempty, hcount]

/-- Pages before `k` contain no three consecutive empty pages, so the counter
of consecutive empty pages is below the threshold on arrival at page `k`; if
pages `k`, `k+1`, `k+2` are empty, the first two are emitted and the third
makes the fetcher report the stalled error. -/
theorem fetchLoop_until_stalled (s : SerpHandler) (query : String) (src : PageSource)
    (pg : Nat → JObj) (k : Nat)
    (hsrc : ∀ i, i < k + 3 → src i (requestFor s query i) = Except.ok (pg i))
    (hnext : ∀ i, i < k + 2 → hasNextPage (pg i) = true)
    (hfirst : ∀ j, j < k → ¬ (isEmptyPage (pg j) = true ∧ isEmptyPage (pg (j + 1)) = true ∧
      isEmptyPage (pg (j + 2)) = true))
    (hk0 : isEmptyPage (pg k) = true) (hk1 : isEmptyPage (pg (k + 1)) = true)
    (hk2 : isEmptyPage (pg (k + 2)) = true) (d : Nat) :
    ∀ (left page empties : Nat) (parameter : Params),
      ParamInv s query page parameter → page + d = k → d + 3 ≤ left → empties ≤ page →
      (∀ t, page - empties ≤ t → t < page → isEmptyPage (pg t) = true) →
      fetchLoop s src (fun _ => false) left page empties parameter =
        pagesTrace s query pg page (d + 2) ++
          [FEvent.request (k + 2) (requestFor s query (k + 2)),
           FEvent.report (Err.stalled maxConsecutiveEmptyResults)] := by
  induction d with
  | zero =>
    intro left page empties parameter hinv hpage hleft hle hrun
    have hpk : page = k := by omega
    subst hpk
    have hc : empties = 0 := by
      by_contra hne
      have h1 : isEmptyPage (pg (page - 1)) = true := hrun (page - 1) (by omega) (by omega)
      apply hfirst (page - 1) (by omega)
      refine ⟨h1, ?_, ?_⟩
      · rw [show page - 1 + 1 = page by omega]; exact hk0
      · rw [show page - 1 + 2 = page + 1 by omega]; exact hk1
    subst hc
    obtain ⟨l, rfl⟩ : ∃ l, left = l + 3 := ⟨left - 3, by omega⟩
    rw [fetchLoop_emit_next s query src (l + 2) page 0 parameter (pg page) hinv
      (hsrc page (by omega)) (fun _ => by simp [maxConsecutiveEmptyResults])
      (hnext page (by omega))]
    rw [fetchLoop_emit_next s query src (l + 1) (page + 1) _ _ (pg (page + 1))
      (paramInv_succ s query page) (hsrc (page + 1) (by omega))
      (fun _ => by simp [maxConsecutiveEmptyResults, hk0]) (hnext (page + 1) (by omega))]
    rw [fetchLoop_stall s query src l (page + 1 + 1) _ _ (pg (page + 2))
      (paramInv_succ s query (page + 1)) (hsrc (page + 2) (by omega)) hk2
      (by simp [maxConsecutiveEmptyResults, hk0, hk1])]
    simp [pagesTrace]
  | succ d ih =>
    intro left page empties parameter hinv hpage hleft hle hrun
    obtain ⟨l, rfl⟩ : ∃ l, left = l + 1 := ⟨left - 1, by omega⟩
    have hcount : isEmptyPage (pg page) = true → empties + 1 < maxConsecutiveEmptyResults := by
      intro hempty
      by_contra hge
      simp only [maxConsecutiveEmptyResults] at hge
      apply hfirst (page - 2) (by omega)
      refine ⟨hrun (page - 2) (by omega) (by omega), ?_, ?_⟩
      · exact hrun (page - 2 + 1) (by omega) (by omega)
      · rw [show page - 2 + 2 = page by omega]; exact hempty
    rw [fetchLoop_emit_next s query src l page empties parameter (pg page) hinv
      (hsrc page (by omega)) hcount (hnext page (by omega))]
    rw [ih l (page + 1) _ _ (paramInv_succ s query page) (by omega) (by omega)
      (by split <;> omega)
      (fun t ht ht2 => by
        by_cases hempty : isEmptyPage (pg page) = true
        · rw [if_pos hempty] at ht
          by_cases htp : t = page
          · rw [htp]; exact hempty
          · exact hrun t (by omega) (by omega)
        · rw [if_neg hempty] at ht
          omega)]
    simp [pagesTrace]

/-- The whole trace of a run that stalls at the first triple of consecutive
empty pages `k`, `k+1`, `k+2`. -/
theorem fetchPage_stalled_trace (s : SerpHandler) (query : String) (src : PageSource)
    (pg : Nat → JObj) (k : Nat) (hL : ((k + 3 : Nat) : Int) ≤ s.MaxPages)
    (hsrc : ∀ i, i < k + 3 → src i (requestFor s query i) = Except.ok (pg i))
    (hnext : ∀ i, i < k + 2 → hasNextPage (pg i) = true)
    (hfirst : ∀ j, j < k → ¬ (isEmptyPage (pg j) = true ∧ isEmptyPage (pg (j + 1)) = true ∧
      isEmptyPage (pg (j + 2)) = true))
    (hk0 : isEmptyPage (pg k) = true) (hk1 : isEmptyPage (pg (k + 1)) = true)
    (hk2 : isEmptyPage (pg (k + 2)) = true) :
    fetchPage s query src (fun _ => false) =
      pagesTrace s query pg 0 (k + 2) ++
        [FEvent.request (k + 2) (requestFor s query (k + 2)),
         FEvent.report (Err.stalled maxConsecutiveEmptyResults), FEvent.done] := by
  unfold fetchPage
  rw [fetchLoop_until_stalled s query src pg k hsrc hnext hfirst hk0 hk1 hk2 k
    s.MaxPages.toNat 0 0 (initialParams s query) (paramInv_zero s query) (by omega) (by omega)
    (le_refl _) (fun t _ ht => absurd ht (Nat.not_lt_zero t))]
  simp

/-- The request sequence of the loop from `page` on: consecutive page indices,
each with the request in closed form. -/
theorem fetchLoop_requests (s : SerpHandler) (query : String) (src : PageSource)
    (ctx : Nat → Bool) (left : Nat) :
    ∀ (page empties : Nat) (parameter : Params), ParamInv s query page parameter →
      ∃ k, k ≤ left ∧ requests (fetchLoop s src ctx left page empties parameter) =
        (List.range' page k).map (fun i => (i, requestFor s query i)) := by
  induction left with
  | zero => intro page empties parameter _; exact ⟨0, le_refl _, rfl⟩
  | succ l ih =>
    intro page empties parameter hinv
    rw [fetchLoop_succ s query src ctx l page empties parameter hinv]
    by_cases hc : ctx page = true
    · exact ⟨0, Nat.zero_le _, by simp [hc, requests]⟩
    · simp only [hc, Bool.false_eq_true, if_false]
      cases hb : fetchBody (src page (requestFor s query page)) page empties with
      | failed e => exact ⟨1, by omega, by simp [requests, List.range']⟩
      | page result empties2 =>
        by_cases hn : hasNextPage result = true
        · obtain ⟨k, hk, hreq⟩ := ih (page + 1) empties2
            (pageParams (initialParams s query) page) (paramInv_succ s query page)
          exact ⟨k + 1, by omega, by simp [requests, hn, hreq, List.range']⟩
        · exact ⟨1, by omega, by simp [requests, hn, List.range']⟩

theorem lookup_engine_requestFor (s : SerpHandler) (query : String) (page : Nat) :
    (requestFor s query page).parameter.lookup "engine" = some s.SearchEngine := by
  unfold requestFor pageParams
  by_cases hp : page > 0
  · simp only [hp, if_true, set_start_initial]; rfl
  · simp only [hp, if_false]; rfl

theorem lookup_q_requestFor (s : SerpHandler) (query : String) (page : Nat) :
    (requestFor s query page).parameter.lookup "q" = some query := by
  unfold requestFor pageParams
  by_cases hp : page > 0
  · simp only [hp, if_true, set_start_initial]; rfl
  · simp only [hp, if_false]; rfl

theorem lookup_start_requestFor (s : SerpHandler) (query : String) (page : Nat) :
    (requestFor s query page).parameter.lookup "start" =
      if page > 0 then some (sprintfD ((page : Int) * 10)) else none := by
  unfold requestFor pageParams
  by_cases hp : page > 0
  · simp only [hp, if_true, set_start_initial]; rfl
  · simp only [hp, if_false]; rfl

/-- Witness of C1 on a source with two pages. -/
theorem fetchPage_emits_all_pages_witness :
    requestedPages (fetchPage demoHandler "q" twoPageSource (fun _ => false)) = List.range 2 ∧
    emittedPages (fetchPage demoHandler "q" twoPageSource (fun _ => false)) =
      (List.range 2).map twoPages ∧
    reportedErrors (fetchPage demoHandler "q" twoPageSource (fun _ => false)) = [] :=
  fetchPage_emits_all_pages demoHandler "q" twoPageSource twoPages 2
    (by decide) (by decide) (fun _ _ => rfl)
    (fun i hi => by
      have h : i = 0 ∨ i = 1 := by omega
      rcases h with h | h <;> subst h <;> rfl)
    (fun i hi => by
      have h : i = 0 := by omega
      subst h; rfl)
    rfl

/-- Claim C2, as amended. When the page source returns pages `0..k+2`
successfully, pages `k`, `k+1`, `k+2` are the first three consecutive pages
with zero raw items, every page before `k+2` announces a next page and the page
limit is at least `k+3`, `fetchPage` without cancellation stops after page
`k+2` by reporting the stalled error, and what it has emitted on the page
channel up to that point is every page before `k+2`, empty ones included: only
the page that completes the run of three is not emitted. -/
theorem fetchPage_stalls_after_third_empty (s : SerpHandler) (query : String)
    (src : PageSource) (pg : Nat → JObj) (k : Nat) (hL : ((k + 3 : Nat) : Int) ≤ s.MaxPages)
    (hsrc : ∀ i, i < k + 3 → src i (requestFor s query i) = Except.ok (pg i))
    (hnext : ∀ i, i < k + 2 → hasNextPage (pg i) = true)
    (hfirst : ∀ j, j < k → ¬ (isEmptyPage (pg j) = true ∧ isEmptyPage (pg (j + 1)) = true ∧
      isEmptyPage (pg (j + 2)) = true))
    (hk0 : isEmptyPage (pg k) = true) (hk1 : isEmptyPage (pg (k + 1)) = true)
    (hk2 : isEmptyPage (pg (k + 2)) = true) :
    fetchPage s query src (fun _ => false) =
      pagesTrace s query pg 0 (k + 2) ++
        [FEvent.request (k + 2) (requestFor s query (k + 2)),
         FEvent.report (Err.stalled 3), FEvent.done] ∧
    requestedPages (fetchPage s query src (fun _ => false)) = List.range (k + 3) ∧
    emittedPages (fetchPage s query src (fun _ => false)) = (List.range (k + 2)).map pg ∧
    reportedErrors (fetchPage s query src (fun _ => false)) = [Err.stalled 3] := by
  have htrace := fetchPage_stalled_trace s query src pg k hL hsrc hnext hfirst hk0 hk1 hk2
  simp only [maxConsecutiveEmptyResults] at htrace
  refine ⟨htrace, ?_, ?_, ?_⟩
  · rw [htrace, requestedPages_append, requestedPages_pagesTrace]
    simp [requestedPages, requests, List.range_eq_range', List.range'_concat]
  · rw [htrace, emittedPages_append, emittedPages_pagesTrace]
    simp [emittedPages, List.range_eq_range']
  · rw [htrace, reportedErrors_append, reportedErrors_pagesTrace]
    simp [reportedErrors]

/-- Witness of the amended C2: three empty pages from the start. -/
theorem fetchPage_stalls_after_third_empty_witness :
    fetchPage demoHandler "q" emptyPagesSource (fun _ => false) =
      pagesTrace demoHandler "q" (fun _ => pageOf [] (some "next")) 0 (0 + 2) ++
        [FEvent.request (0 + 2) (requestFor demoHandler "q" (0 + 2)),
         FEvent.report (Err.stalled 3), FEvent.done] ∧
    requestedPages (fetchPage demoHandler "q" emptyPagesSource (fun _ => false)) =
      List.range (0 + 3) ∧
    emittedPages (fetchPage demoHandler "q" emptyPagesSource (fun _ => false)) =
      (List.range (0 + 2)).map (fun _ => pageOf [] (some "next")) ∧
    reportedErrors (fetchPage demoHandler "q" emptyPagesSource (fun _ => false)) =
      [Err.stalled 3] :=
  fetchPage_stalls_after_third_empty demoHandler "q" emptyPagesSource
    (fun _ => pageOf [] (some "next")) 0 (by decide) (fun _ _ => rfl) (fun _ _ => rfl)
    (fun j hj => absurd hj (Nat.not_lt_zero j)) rfl rfl rfl

/-- Counterexample to C2 as stated: on three empty pages in a row the fetcher
reports the stalled error after the third, but it has emitted the first two,
which have zero raw items. -/
theorem fetchPage_emits_empty_pages :
    (∀ i, i < 3 → emptyPagesSource i (requestFor demoHandler "q" i) =
      Except.ok (pageOf [] (some "next"))) ∧
    isEmptyPage (pageOf [] (some "next")) = true ∧
    reportedErrors (fetchPage demoHandler "q" emptyPagesSource (fun _ => false)) =
      [Err.stalled 3] ∧
    emittedPages (fetchPage demoHandler "q" emptyPagesSource (fun _ => false)) =
      [pageOf [] (some "next"), pageOf [] (some "next")] ∧
    ¬ (∀ p ∈ emittedPages (fetchPage demoHandler "q" emptyPagesSource (fun _ => false)),
        isEmptyPage p = false) := by
  refine ⟨fun _ _ => rfl, rfl, rfl, rfl, ?_⟩
  intro h
  have h2 := h (pageOf [] (some "next"))
    (by rw [show emittedPages (fetchPage demoHandler "q" emptyPagesSource (fun _ => false)) =
          [pageOf [] (some "next"), pageOf [] (some "next")] from rfl]
        exact List.mem_cons_self _ _)
  exact absurd h2 (by decide)

/-- Claim C8. For every page limit, page source and cancellation behaviour,
the requests of `fetchPage` are for the page indices `0, 1, ..., k-1` in
strictly increasing order for some `k` not above the limit (none when the limit
is not positive); each carries the configured engine and the query unchanged;
and the request for index `i` carries `start` exactly when `i > 0`, its value
being the decimal rendering of `i * 10`. -/
theorem fetchPage_request_sequence (s : SerpHandler) (query : String) (src : PageSource)
    (ctx : Nat → Bool) :
    ∃ k : Nat, (k : Int) ≤ max s.MaxPages 0 ∧ (s.MaxPages ≤ 0 → k = 0) ∧
      requestedPages (fetchPage s query src ctx) = List.range k ∧
      ∀ i req, (i, req) ∈ requests (fetchPage s query src ctx) →
        req.parameter.lookup "engine" = some s.SearchEngine ∧
        req.parameter.lookup "q" = some query ∧
        (i = 0 → req.parameter.lookup "start" = none) ∧
        (i > 0 → req.parameter.lookup "start" = some (toString (i * 10))) := by
  obtain ⟨k, hk, hreq⟩ := fetchLoop_requests s query src ctx s.MaxPages.toNat 0 0
    (initialParams s query) (paramInv_zero s query)
  have hall : requests (fetchPage s query src ctx) =
      (List.range' 0 k).map (fun i => (i, requestFor s query i)) := by
    unfold fetchPage
    rw [requests_append, hreq]
    simp [requests]
  refine ⟨k, by omega, fun h => by omega, ?_, ?_⟩
  · simp [requestedPages, hall, List.map_map, Function.comp_def, List.range_eq_range']
  · intro i req hmem
    rw [hall, List.mem_map] at hmem
    obtain ⟨j, _, hj⟩ := hmem
    injection hj with h1 h2
    subst h1
    subst h2
    refine ⟨lookup_engine_requestFor s query j, lookup_q_requestFor s query j, ?_, ?_⟩
    · intro h0
      rw [lookup_start_requestFor, if_neg (by omega)]
    · intro hpos
      rw [lookup_start_requestFor, if_pos hpos]
      have hcast : (j : Int) * 10 = ((j * 10 : Nat) : Int) := by push_cast; rfl
      rw [hcast]
      rfl

/-! ## Sequential behaviour of the writer -/

theorem writeRecords_append (a b : List JVal) :
    writeRecords (a ++ b) = writeRecords a ++ writeRecords b := by
  induction a with
  | nil => rfl
  | cons item rest ih => cases item <;> simp [writeRecords, ih]

theorem stringField_of_string (org : JObj) (key v : String)
    (h : org.lookup key = some (JVal.str v)) : stringField org key = v := by
  simp [stringField, h]

theorem stringField_default (org : JObj) (key : String)
    (h : ∀ v, org.lookup key ≠ some (JVal.str v)) : stringField org key = "" := by
  unfold stringField
  split
  · next v hv => exact absurd hv (h v)
  · rfl

/-- Claim C6. For a map-shaped raw item of a page, the record `processResult`
writes is `[title, link, snippet, date]` in that order, each component being
the item's string value under that key, and the empty string when the key is
absent or its value is not a string; `processResult` reports no error. -/
theorem processResult_writes_item (result : JObj) (pre post : List JVal) (org : JObj)
    (rows : List Record) (h : organicResults result = some (pre ++ JVal.obj org :: post)) :
    (processResult result rows).2 = none ∧
    (processResult result rows).1 =
      rows ++ writeRecords pre ++
        [stringField org "title", stringField org "link", stringField org "snippet",
          stringField org "date"] :: writeRecords post ∧
    ∀ key, (∀ v, org.lookup key = some (JVal.str v) → stringField org key = v) ∧
      ((∀ v, org.lookup key ≠ some (JVal.str v)) → stringField org key = "") := by
  refine ⟨by simp [processResult, h], ?_, fun key =>
    ⟨fun v hv => stringField_of_string org key v hv, stringField_default org key⟩⟩
  simp [processResult, h, writeRecords_append, writeRecords, recordOf]

/-- Witness of C6: an item without a title, after a complete item. -/
theorem processResult_writes_item_witness :
    (processResult (pageOf [itemA, itemC] none) [csvHeader]).2 = none ∧
    (processResult (pageOf [itemA, itemC] none) [csvHeader]).1 =
      [csvHeader] ++ writeRecords [itemA] ++
        [stringField itemCFields "title", stringField itemCFields "link",
          stringField itemCFields "snippet", stringField itemCFields "date"] ::
          writeRecords [] ∧
    ∀ key, (∀ v, itemCFields.lookup key = some (JVal.str v) → stringField itemCFields key = v) ∧
      ((∀ v, itemCFields.lookup key ≠ some (JVal.str v)) → stringField itemCFields key = "") :=
  processResult_writes_item (pageOf [itemA, itemC] none) [itemA] [] itemCFields [csvHeader] rfl

theorem specRecords_append (a b : List JObj) :
    specRecords (a ++ b) = specRecords a ++ specRecords b := by
  induction a with
  | nil => rfl
  | cons page rest ih => simp [specRecords, ih]

theorem writeRecords_eq_filterMap (items : List JVal) :
    writeRecords items = items.filterMap
      (fun item => match item with
        | JVal.obj org => some [stringField org "title", stringField org "link",
            stringField org "snippet", stringField org "date"]
        | _ => none) := by
  induction items with
  | nil => rfl
  | cons item rest ih => cases item <;> simp [writeRecords, recordOf, ih]

theorem processResult_rows (result : JObj) (rows : List Record) :
    (processResult result rows).1 = rows ++ specRecords [result] := by
  unfold processResult
  cases h : organicResults result with
  | none => simp [specRecords, h]
  | some items => simp [specRecords, h, writeRecords_eq_filterMap]

/-- The loop keeps the written rows equal to a fixed base followed by the
records of the pages consumed. -/
theorem writeLoop_rows (base : List Record) (selects : List WSelect) :
    ∀ (fetchDone : Bool) (run : WRun), run.rows = base ++ specRecords run.consumed →
      (writeLoop fetchDone selects run).rows =
        base ++ specRecords (writeLoop fetchDone selects run).consumed := by
  induction selects with
  | nil => intro fetchDone run h; simpa [writeLoop] using h
  | cons sel rest ih =>
    intro fetchDone run h
    cases sel with
    | ctxDone => simpa [writeLoop] using h
    | fetchDone => simpa [writeLoop] using ih true run h
    | page result =>
      simp only [writeLoop]
      apply ih
      simp [processResult_rows, specRecords_append, h]
    | closed => simpa [writeLoop] using h
    | idle =>
      cases fetchDone with
      | true => simpa [writeLoop] using h
      | false => simpa [writeLoop] using ih false run h

/-- The rows of a run on a file that opens: the header when the file was
empty, then the records of the pages consumed. -/
theorem writeData_rows (file : FileEnv) (selects : List WSelect) (prior : Bytes)
    (hopen : file.openFile = Except.ok prior) (hstat : file.stat = none) :
    (writeData file selects).rows =
      (if prior.length = 0 then [csvHeader] else []) ++
        specRecords (writeData file selects).consumed := by
  unfold writeData openSink
  simp only [hopen, hstat]
  by_cases hp : prior.length = 0
  · simp only [hp, beq_self_eq_true, if_true]
    exact writeLoop_rows [csvHeader] selects false _ (by simp [specRecords])
  · have hb : (prior.length == 0) = false := by simpa using hp
    simp only [hp, hb, if_false, Bool.false_eq_true]
    exact writeLoop_rows [] selects false _ (by simp [specRecords])

theorem prefix_sinkContent (encode : Record → Bytes) (rows : List Record) :
    ∀ prior : Bytes, prior <+: sinkContent encode prior rows := by
  induction rows with
  | nil => intro prior; exact List.prefix_refl _
  | cons row rest ih =>
    intro prior
    exact List.IsPrefix.trans (List.prefix_append prior (encode row)) (ih _)

/-- Claim C5. Starting from an empty output file, the rows `writeData` writes
are the header followed by the records of the pages it consumes, page by page
and, within a page, item by item in the original order, with one record for
each raw item that is a map and none for any other item. -/
theorem writeData_rows_in_order (file : FileEnv) (selects : List WSelect)
    (hopen : file.openFile = Except.ok []) (hstat : file.stat = none) :
    (writeData file selects).rows = csvHeader :: specRecords (writeData file selects).consumed := by
  simpa using writeData_rows file selects [] hopen hstat

/-- Witness of C5: pages P1 (items A, B) and P2 (item C, then an item that is
not a map) give the rows header, A, B, C. -/
theorem writeData_rows_in_order_witness :
    (writeData emptyFile
        [WSelect.page (pageOf [itemA, itemB] (some "next")), WSelect.idle,
         WSelect.page (pageOf [itemC, JVal.null] none), WSelect.fetchDone, WSelect.idle]).rows =
      csvHeader :: specRecords (writeData emptyFile
        [WSelect.page (pageOf [itemA, itemB] (some "next")), WSelect.idle,
         WSelect.page (pageOf [itemC, JVal.null] none), WSelect.fetchDone,
         WSelect.idle]).consumed ∧
    (writeData emptyFile
        [WSelect.page (pageOf [itemA, itemB] (some "next")), WSelect.idle,
         WSelect.page (pageOf [itemC, JVal.null] none), WSelect.fetchDone, WSelect.idle]).rows =
      [["title", "link", "snippet", "date"], ["A", "u1", "s1", ""],
       ["B", "u2", "s2", "2024-01-01"], ["", "u3", "s3", ""]] :=
  ⟨writeData_rows_in_order emptyFile _ rfl rfl, by decide⟩

/-- Claim C7. For every content of the output file at open time, `writeData`
writes the header exactly when that content is empty: on an empty file the
rows written are the header followed by the data records, on a populated file
they are the data records alone, and in both cases the content at open time is
a prefix of the final content. -/
theorem writeData_header_iff_empty (file : FileEnv) (selects : List WSelect) (prior : Bytes)
    (encode : Record → Bytes)
    (hopen : file.openFile = Except.ok prior) (hstat : file.stat = none) :
    (prior = [] → (writeData file selects).rows =
        csvHeader :: specRecords (writeData file selects).consumed) ∧
    (prior ≠ [] → (writeData file selects).rows =
        specRecords (writeData file selects).consumed) ∧
    prior <+: sinkContent encode prior (writeData file selects).rows := by
  have h := writeData_rows file selects prior hopen hstat
  refine ⟨fun hp => ?_, fun hp => ?_, prefix_sinkContent encode _ prior⟩
  · simpa [hp] using h
  · have hl : prior.length ≠ 0 := fun h0 => hp (List.length_eq_zero.mp h0)
    simpa [hl] using h

/-- Witness of C7 on a file that already holds data. -/
theorem writeData_header_iff_empty_witness :
    (([97, 44, 98] : Bytes) = [] →
      (writeData usedFile [WSelect.page (pageOf [itemA] none), WSelect.fetchDone,
        WSelect.idle]).rows =
        csvHeader :: specRecords (writeData usedFile [WSelect.page (pageOf [itemA] none),
          WSelect.fetchDone, WSelect.idle]).consumed) ∧
    (([97, 44, 98] : Bytes) ≠ [] →
      (writeData usedFile [WSelect.page (pageOf [itemA] none), WSelect.fetchDone,
        WSelect.idle]).rows =
        specRecords (writeData usedFile [WSelect.page (pageOf [itemA] none),
          WSelect.fetchDone, WSelect.idle]).consumed) ∧
    ([97, 44, 98] : Bytes) <+: sinkContent (fun _ => [10]) [97, 44, 98]
      (writeData usedFile [WSelect.page (pageOf [itemA] none), WSelect.fetchDone,
        WSelect.idle]).rows :=
  writeData_header_iff_empty usedFile _ [97, 44, 98] (fun _ => [10]) rfl rfl

/-! ## Invariants of the interleaving model -/

theorem inv_initial (s : SerpHandler) (query : String) : Inv (initial s query) := by
  constructor <;> simp [initial, FPc.isExited, WPc.isExited, emittedPages, FPc.beforeDone, WPc.sawDone, WPc.reason]

theorem afterSend_beforeDone (page empties : Nat) (parameter : Params) (result : JObj) :
    (afterSend page empties parameter result).beforeDone = true := by
  unfold afterSend; split <;> rfl

theorem afterSend_isExited (page empties : Nat) (parameter : Params) (result : JObj) :
    (afterSend page empties parameter result).isExited = false := by
  unfold afterSend; split <;> rfl

theorem sawDone_of_drained {w : WPc} (h : w.reason = some WExit.drained) : w.sawDone = true := by
  cases w <;> simp_all [WPc.reason, WPc.sawDone]

theorem inv_fetchStep (s : SerpHandler) (env : Env) (σ σ' : Sys) (hinv : Inv σ)
    (hstep : fetchStep s env σ = some σ') : Inv σ' := by
  obtain ⟨h1, h2, h3, h4, h5, h6, h7, h8, h9, h10, h11⟩ := hinv
  unfold fetchStep at hstep
  cases hf : σ.fetcher <;> rw [hf] at hstep <;> simp only at hstep
  case loop page empties parameter =>
    rw [hf] at h1 h5 h6
    simp only [FPc.beforeDone, FPc.isExited, forall_true_left] at h1 h5 h6
    split at hstep
    · split at hstep
      · injection hstep with hstep; subst hstep
        constructor <;> simp_all [FPc.beforeDone, FPc.isExited]
      · split at hstep
        · injection hstep with hstep; subst hstep
          constructor <;> simp_all [FPc.beforeDone, FPc.isExited, emittedPages_append, emittedPages]
        · injection hstep with hstep; subst hstep
          constructor <;> simp_all [FPc.beforeDone, FPc.isExited, emittedPages_append, emittedPages]
    · injection hstep with hstep; subst hstep
      constructor <;> simp_all [FPc.beforeDone, FPc.isExited]
  case sendErr e =>
    rw [hf] at h1 h5 h6
    simp only [FPc.beforeDone, FPc.isExited, forall_true_left] at h1 h5 h6
    split at hstep
    · injection hstep with hstep; subst hstep
      constructor <;> simp_all [FPc.beforeDone, FPc.isExited, emittedPages_append, emittedPages]
    · exact absurd hstep (by simp)
  case sendPage page empties parameter result =>
    rw [hf] at h1 h5 h6
    simp only [FPc.beforeDone, FPc.isExited, forall_true_left] at h1 h5 h6
    have hd : σ.writer.reason ≠ some WExit.drained := fun h => by
      have := sawDone_of_drained h
      simp_all
    split at hstep
    · injection hstep with hstep; subst hstep
      constructor <;> simp_all [afterSend_beforeDone, afterSend_isExited, emittedPages_append, emittedPages]
    · exact absurd hstep (by simp)
  case sendDone =>
    rw [hf] at h1 h5 h6
    simp only [FPc.beforeDone, FPc.isExited, forall_true_left] at h1 h5 h6
    split at hstep
    · injection hstep with hstep; subst hstep
      constructor <;> simp_all [FPc.beforeDone, FPc.isExited, emittedPages_append, emittedPages]
    · exact absurd hstep (by simp)
  case wgDone =>
    rw [hf] at h1 h5 h6
    simp only [FPc.beforeDone, FPc.isExited, forall_true_left] at h1 h5 h6
    injection hstep with hstep; subst hstep
    constructor <;> simp_all [FPc.beforeDone, FPc.isExited]
  case exited => exact absurd hstep (by simp)
theorem inv_writeStep (s : SerpHandler) (env : Env) (σ σ' : Sys) (hinv : Inv σ)
    (hstep : writeStep s env σ = some σ') : Inv σ' := by
  obtain ⟨h1, h2, h3, h4, h5, h6, h7, h8, h9, h10, h11⟩ := hinv
  unfold writeStep at hstep
  cases hw : σ.writer <;> rw [hw] at hstep <;> simp only at hstep
  case opening =>
    rw [hw] at h1 h5 h7 h8 h9 h10
    split at hstep <;> injection hstep with hstep <;> subst hstep <;>
      constructor <;> simp_all [WPc.isExited, WPc.reason, WPc.sawDone]
  case reportOpen e =>
    rw [hw] at h1 h5 h7 h8 h9 h10
    split at hstep
    · injection hstep with hstep; subst hstep
      constructor <;> simp_all [WPc.isExited, WPc.reason, WPc.sawDone]
    · exact absurd hstep (by simp)
  case reportParse e fetchDone =>
    rw [hw] at h1 h5 h7 h8 h9 h10
    split at hstep
    · injection hstep with hstep; subst hstep
      constructor <;> simp_all [WPc.isExited, WPc.reason, WPc.sawDone]
    · exact absurd hstep (by simp)
  case select fetchDone => exact absurd hstep (by simp)
  case wgDone reason =>
    rw [hw] at h1 h5 h7 h8 h9 h10
    injection hstep with hstep; subst hstep
    cases reason <;> constructor <;> simp_all [WPc.isExited, WPc.reason, WPc.sawDone]
  case exited reason => exact absurd hstep (by simp)

theorem inv_consume (σ : Sys) (fetchDone : Bool) (result : JObj) (rest : List JObj)
    (h1 : σ.wg = (if σ.fetcher.isExited then 0 else 1) + 1)
    (h2 : σ.main ≠ QPc.waiting → σ.wg = 0)
    (h3 : σ.resultClosed = true → σ.main ≠ QPc.waiting ∧ σ.main ≠ QPc.closeResults)
    (h4 : emittedPages σ.fetchLog = σ.consumed ++ result :: rest)
    (hch : σ.resultCh = rest)
    (h5 : σ.fetcher.beforeDone = true →
      σ.doneCh = 0 ∧ fetchDone = false ∧ FEvent.done ∉ σ.fetchLog)
    (h6 : σ.fetcher.beforeDone = false →
      ∃ init, σ.fetchLog = init ++ [FEvent.done] ∧ FEvent.done ∉ init)
    (h11 : σ.errClosed = true → σ.main ≠ QPc.waiting) :
    Inv (consume σ fetchDone result) := by
  unfold consume
  cases hp : (processResult result σ.rows).2 <;>
    constructor <;> simp_all [WPc.isExited, WPc.reason, WPc.sawDone]

theorem inv_writeSelect (s : SerpHandler) (σ σ' : Sys) (l : Label) (hinv : Inv σ)
    (hstep : writeSelect s σ l = some σ') : Inv σ' := by
  obtain ⟨h1, h2, h3, h4, h5, h6, h7, h8, h9, h10, h11⟩ := hinv
  unfold writeSelect at hstep
  cases hw : σ.writer <;> rw [hw] at hstep <;> simp only at hstep
  case select fetchDone =>
    rw [hw] at h1 h5 h7 h8 h9 h10
    simp only [WPc.isExited, WPc.sawDone, WPc.reason] at h1 h5 h7 h8 h9 h10
    cases l <;> simp only at hstep
    case writeCtx =>
      split at hstep
      · injection hstep with hstep; subst hstep
        constructor <;> simp_all [WPc.isExited, WPc.reason, WPc.sawDone]
      · exact absurd hstep (by simp)
    case writeDone =>
      split at hstep
      · injection hstep with hstep; subst hstep
        have hb : σ.fetcher.beforeDone = false := by
          cases hbd : σ.fetcher.beforeDone
          · rfl
          · have := (h5 hbd).1; omega
        constructor <;> simp_all [WPc.isExited, WPc.reason, WPc.sawDone]
      · exact absurd hstep (by simp)
    case writePage =>
      split at hstep
      · next result rest hch =>
        injection hstep with hstep; subst hstep
        exact inv_consume _ fetchDone result rest (by simpa using h1) h2 h3
          (by simpa [hch] using h4) rfl h5 h6 h11
      · next hch =>
        split at hstep
        · next hclosed =>
          exfalso
          have hm := h3 hclosed
          have hwg := h2 hm.1
          rw [hwg] at h1
          simp only [Bool.false_eq_true, if_false] at h1
          omega
        · split at hstep
          · next page empties parameter result hf =>
            split at hstep
            · injection hstep with hstep; subst hstep
              refine inv_consume _ fetchDone result [] ?_ h2 h3 ?_ hch ?_ ?_ h11
              · show σ.wg = (if (afterSend page empties parameter result).isExited then 0
                  else 1) + 1
                rw [afterSend_isExited]
                simpa [hf, FPc.isExited] using h1
              · simp [emittedPages_append, emittedPages, h4, hch]
              · intro _
                have := h5 (by rw [hf]; rfl)
                simp_all
              · intro hb
                have hb2 : (afterSend page empties parameter result).beforeDone = false := hb
                rw [afterSend_beforeDone] at hb2
                exact absurd hb2 (by simp)
            · exact absurd hstep (by simp)
          · exact absurd hstep (by simp)
    case writeIdle =>
      split at hstep
      · next hidle =>
        split at hstep
        · injection hstep with hstep; subst hstep
          have hnil : σ.resultCh = [] := List.length_eq_zero.mp hidle.2.2.1
          constructor <;> simp_all [WPc.isExited, WPc.reason, WPc.sawDone]
        · injection hstep with hstep; subst hstep
          constructor <;> simp_all [WPc.isExited, WPc.reason, WPc.sawDone]
      · exact absurd hstep (by simp)
    all_goals exact absurd hstep (by simp)
  all_goals exact absurd hstep (by simp)
theorem inv_monitorStep (s : SerpHandler) (σ σ' : Sys) (l : Label) (hinv : Inv σ)
    (hstep : monitorStep s σ l = some σ') : Inv σ' := by
  obtain ⟨h1, h2, h3, h4, h5, h6, h7, h8, h9, h10, h11⟩ := hinv
  unfold monitorStep at hstep
  split at hstep
  · split at hstep
    · injection hstep with hstep; subst hstep
      exact ⟨h1, h2, h3, h4, h5, h6, h7, h8, h9, h10, h11⟩
    · split at hstep
      · injection hstep with hstep; subst hstep
        exact ⟨h1, h2, h3, h4, h5, h6, h7, h8, h9, h10, h11⟩
      · exact absurd hstep (by simp)
  · split at hstep
    · next e hf =>
      rw [hf] at h1 h5 h6
      simp only [FPc.beforeDone, FPc.isExited, forall_true_left] at h1 h5 h6
      split at hstep
      · injection hstep with hstep; subst hstep
        refine ⟨h1, h2, h3, ?_, fun _ => ⟨h5.1, h5.2.1, ?_⟩, fun hb => ?_, h7, h8, h9, h10, h11⟩
        · simpa [emittedPages_append, emittedPages] using h4
        · simpa using h5.2.2
        · exact absurd hb (by simp [FPc.beforeDone])
      · exact absurd hstep (by simp)
    · exact absurd hstep (by simp)
  · split at hstep
    · split at hstep
      · next e hw =>
        rw [hw] at h1 h5 h7 h8 h9 h10
        injection hstep with hstep; subst hstep
        refine ⟨h1, h2, h3, h4, fun hb => ?_, h6, ?_, ?_, ?_, ?_, h11⟩
        · have := h5 hb
          exact ⟨this.1, rfl, this.2.2⟩
        · intro hr; simp [WPc.reason] at hr
        · intro _; simp
        · intro hr; simp [WPc.reason] at hr
        · simp [WPc.reason]
      · next e fetchDone hw =>
        rw [hw] at h1 h5 h7 h8 h9 h10
        injection hstep with hstep; subst hstep
        refine ⟨h1, h2, h3, h4, h5, h6, ?_, ?_, ?_, ?_, h11⟩
        · intro hr; simp [WPc.reason] at hr
        · intro hr; simp [WPc.reason] at hr
        · intro hr; simp [WPc.reason] at hr
        · simp [WPc.reason]
      · exact absurd hstep (by simp)
    · exact absurd hstep (by simp)
  · split at hstep
    · injection hstep with hstep; subst hstep
      exact ⟨h1, h2, h3, h4, h5, h6, h7, h8, h9, h10, h11⟩
    · exact absurd hstep (by simp)
  · injection hstep with hstep; subst hstep
    exact ⟨h1, h2, h3, h4, h5, h6, h7, h8, h9, h10, h11⟩
  · injection hstep with hstep; subst hstep
    exact ⟨h1, h2, h3, h4, h5, h6, h7, h8, fun _ => rfl, h10, h11⟩
  · injection hstep with hstep; subst hstep
    exact ⟨h1, h2, h3, h4, h5, h6, h7, h8, h9, h10, h11⟩
  · exact absurd hstep (by simp)

theorem inv_mainStep (σ σ' : Sys) (l : Label) (hinv : Inv σ)
    (hstep : mainStep σ l = some σ') : Inv σ' := by
  obtain ⟨h1, h2, h3, h4, h5, h6, h7, h8, h9, h10, h11⟩ := hinv
  unfold mainStep at hstep
  split at hstep
  · next hm =>
    split at hstep
    · next hwg =>
      injection hstep with hstep; subst hstep
      exact ⟨h1, fun _ => hwg, fun hc => absurd hm (h3 hc).1, h4, h5, h6, h7, h8, h9, h10, fun _ => by simp⟩
    · exact absurd hstep (by simp)
  · next hm =>
    injection hstep with hstep; subst hstep
    have hwg : σ.wg = 0 := h2 (by rw [hm]; simp)
    exact ⟨h1, fun _ => hwg, fun _ => ⟨by simp, by simp⟩, h4, h5, h6, h7, h8, h9, h10, fun _ => by simp⟩
  · next hm =>
    injection hstep with hstep; subst hstep
    have hwg : σ.wg = 0 := h2 (by rw [hm]; simp)
    exact ⟨h1, fun _ => hwg, fun _ => ⟨by simp, by simp⟩, h4, h5, h6, h7, h8, fun _ => rfl, h10, fun _ => by simp⟩
  · next hm =>
    split at hstep
    · injection hstep with hstep; subst hstep
      have hwg : σ.wg = 0 := h2 (by rw [hm]; simp)
      exact ⟨h1, fun _ => hwg, fun _ => ⟨by simp, by simp⟩, h4, h5, h6, h7, h8, h9, h10, fun _ => by simp⟩
    · exact absurd hstep (by simp)
  · next hm =>
    injection hstep with hstep; subst hstep
    have hwg : σ.wg = 0 := h2 (by rw [hm]; simp)
    exact ⟨h1, fun _ => hwg, fun _ => ⟨by simp, by simp⟩, h4, h5, h6, h7, h8, h9, h10, fun _ => by simp⟩
  · next hm =>
    injection hstep with hstep; subst hstep
    have hwg : σ.wg = 0 := h2 (by rw [hm]; simp)
    exact ⟨h1, fun _ => hwg, fun _ => ⟨by simp, by simp⟩, h4, h5, h6, h7, h8, h9, h10, fun _ => by simp⟩
  · next hm =>
    injection hstep with hstep; subst hstep
    have hwg : σ.wg = 0 := h2 (by rw [hm]; simp)
    exact ⟨h1, fun _ => hwg, fun _ => ⟨by simp, by simp⟩, h4, h5, h6, h7, h8, h9, h10, fun _ => by simp⟩
  · exact absurd hstep (by simp)

theorem inv_step (s : SerpHandler) (env : Env) (σ σ' : Sys) (l : Label) (hinv : Inv σ)
    (hstep : step s env σ l = some σ') : Inv σ' := by
  cases l <;> simp only [step] at hstep
  case deadline =>
    obtain ⟨h1, h2, h3, h4, h5, h6, h7, h8, h9, h10, h11⟩ := hinv
    injection hstep with hstep; subst hstep
    constructor <;> simp_all
  case fetch => exact inv_fetchStep s env σ σ' hinv hstep
  case writeStep => exact inv_writeStep s env σ σ' hinv hstep
  case writeCtx => exact inv_writeSelect s σ σ' _ hinv hstep
  case writeDone => exact inv_writeSelect s σ σ' _ hinv hstep
  case writePage => exact inv_writeSelect s σ σ' _ hinv hstep
  case writeIdle => exact inv_writeSelect s σ σ' _ hinv hstep
  case monErr => exact inv_monitorStep s σ σ' _ hinv hstep
  case monErrFetcher => exact inv_monitorStep s σ σ' _ hinv hstep
  case monErrWriter => exact inv_monitorStep s σ σ' _ hinv hstep
  case monCtx => exact inv_monitorStep s σ σ' _ hinv hstep
  case monStep => exact inv_monitorStep s σ σ' _ hinv hstep
  case mainStep => exact inv_mainStep σ σ' _ hinv hstep
  case mainTimer => exact inv_mainStep σ σ' _ hinv hstep

theorem inv_reachable (s : SerpHandler) (query : String) (env : Env) (σ : Sys)
    (h : Reachable s query env σ) : Inv σ := by
  induction h with
  | init _ => exact inv_initial s query
  | step l _ hstep ih => exact inv_step s env _ _ l ih hstep

theorem reachable_run (s : SerpHandler) (query : String) (env : Env) (schedule : List Label) :
    ∀ σ σ', Reachable s query env σ → run s env σ schedule = some σ' →
      Reachable s query env σ' := by
  induction schedule with
  | nil =>
    intro σ σ' h hrun
    simp only [run] at hrun
    injection hrun with hrun
    subst hrun
    exact h
  | cons l rest ih =>
    intro σ σ' h hrun
    simp only [run] at hrun
    cases hs : step s env σ l with
    | none => simp [hs] at hrun
    | some σ1 =>
      simp only [hs] at hrun
      exact ih σ1 σ' (Reachable.step l h hs) hrun
theorem done_not_mem_fetchLoop (s : SerpHandler) (src : PageSource) (ctx : Nat → Bool)
    (left : Nat) : ∀ (page empties : Nat) (parameter : Params),
      FEvent.done ∉ fetchLoop s src ctx left page empties parameter := by
  induction left with
  | zero => intro page empties parameter; simp [fetchLoop]
  | succ l ih =>
    intro page empties parameter
    rw [fetchLoop]
    split
    · simp
    · simp only
      split
      · simp
      · split
        · simp [ih]
        · simp

/-- Claim C9. On every exit path of `fetchPage` the completion signal is sent
exactly once and after every page emission and error report of the fetcher:
this holds of the function taken alone, for every page source and cancellation
behaviour, and of the fetcher in every run of `Query`, where moreover the send
on `doneCh` is enabled whenever the fetcher is at it, whatever the writer is
doing. -/
theorem fetcher_signals_done_once (s : SerpHandler) (query : String) (env : Env)
    (ctx : Nat → Bool) (σ : Sys) (h : Reachable s query env σ) :
    (∃ init, fetchPage s query env.src ctx = init ++ [FEvent.done] ∧ FEvent.done ∉ init) ∧
    (σ.fetcher = FPc.sendDone → ∃ σ', step s env σ Label.fetch = some σ') ∧
    (σ.fetcher.beforeDone = true → FEvent.done ∉ σ.fetchLog) ∧
    (σ.fetcher = FPc.wgDone ∨ σ.fetcher = FPc.exited →
      ∃ init, σ.fetchLog = init ++ [FEvent.done] ∧ FEvent.done ∉ init) := by
  have hinv := inv_reachable s query env σ h
  refine ⟨⟨_, rfl, done_not_mem_fetchLoop s env.src ctx _ _ _ _⟩, ?_, ?_, ?_⟩
  · intro hf
    have hd := (hinv.before (by rw [hf]; rfl)).1
    simp [step, fetchStep, hf, hd]
  · intro hb
    exact (hinv.before hb).2.2
  · intro hf
    apply hinv.after
    rcases hf with hf | hf <;> rw [hf] <;> rfl

/-- Witness of C9 at the end of a complete run on two pages. -/
theorem fetcher_signals_done_once_witness :
    (∃ init, fetchPage demoHandler "q" twoPageEnv.src (fun _ => false) =
      init ++ [FEvent.done] ∧ FEvent.done ∉ init) ∧
    ((exec demoHandler twoPageEnv (initial demoHandler "q") twoPageSchedule).fetcher =
        FPc.sendDone →
      ∃ σ', step demoHandler twoPageEnv
        (exec demoHandler twoPageEnv (initial demoHandler "q") twoPageSchedule) Label.fetch =
          some σ') ∧
    ((exec demoHandler twoPageEnv (initial demoHandler "q") twoPageSchedule).fetcher.beforeDone =
        true →
      FEvent.done ∉
        (exec demoHandler twoPageEnv (initial demoHandler "q") twoPageSchedule).fetchLog) ∧
    ((exec demoHandler twoPageEnv (initial demoHandler "q") twoPageSchedule).fetcher =
        FPc.wgDone ∨
      (exec demoHandler twoPageEnv (initial demoHandler "q") twoPageSchedule).fetcher =
        FPc.exited →
      ∃ init, (exec demoHandler twoPageEnv (initial demoHandler "q") twoPageSchedule).fetchLog =
        init ++ [FEvent.done] ∧ FEvent.done ∉ init) :=
  fetcher_signals_done_once demoHandler "q" twoPageEnv (fun _ => false)
    (exec demoHandler twoPageEnv (initial demoHandler "q") twoPageSchedule)
    (reachable_run demoHandler "q" twoPageEnv twoPageSchedule _ _
      (Reachable.init (by decide)) rfl)

/-- Claim C10. In every run of `Query`, the pages the fetcher has emitted are
the pages the writer has processed followed by the pages waiting in the page
channel, in emission order; the writer takes its drained exit only when the
fetcher has sent its completion signal and the page channel is empty, so that
every emitted page has then been processed exactly once; and while the
deadline has not been cancelled and no error has been reported, the drained
exit is the only way the writer stops. -/
theorem writer_drained_exit (s : SerpHandler) (query : String) (env : Env) (σ : Sys)
    (h : Reachable s query env σ) :
    emittedPages σ.fetchLog = σ.consumed ++ σ.resultCh ∧
    (σ.writer.reason = some WExit.drained →
      (σ.fetcher = FPc.wgDone ∨ σ.fetcher = FPc.exited) ∧ σ.resultCh = [] ∧
        σ.consumed = emittedPages σ.fetchLog) ∧
    (∀ r, σ.writer.reason = some r → σ.ctxDone = false →
      reportedErrors σ.fetchLog = [] → σ.writerErrs = [] → r = WExit.drained) := by
  have hinv := inv_reachable s query env σ h
  refine ⟨hinv.pages, fun hd => ?_, fun r hr hctx _ hwe => ?_⟩
  · have hnil := hinv.drained hd
    refine ⟨?_, hnil, by rw [hinv.pages, hnil, List.append_nil]⟩
    have hsaw := sawDone_of_drained hd
    cases hf : σ.fetcher with
    | wgDone => exact Or.inl rfl
    | exited => exact Or.inr rfl
    | _ =>
      have := (hinv.before (by rw [hf]; rfl)).2.1
      rw [hsaw] at this
      exact absurd this (by simp)
  · cases r with
    | drained => rfl
    | failed => exact absurd hwe (hinv.failed hr)
    | cancelled =>
      have := hinv.cancelled hr
      rw [hctx] at this
      exact absurd this (by simp)
    | closed => exact absurd hr hinv.not_closed

/-- Witness of C10: the writer has left by its drained exit after both pages. -/
theorem writer_drained_exit_witness :
    (exec demoHandler twoPageEnv (initial demoHandler "q") eagerSchedule).writer.reason =
      some WExit.drained ∧
    emittedPages (exec demoHandler twoPageEnv (initial demoHandler "q") eagerSchedule).fetchLog =
      (exec demoHandler twoPageEnv (initial demoHandler "q") eagerSchedule).consumed ++
        (exec demoHandler twoPageEnv (initial demoHandler "q") eagerSchedule).resultCh ∧
    ((exec demoHandler twoPageEnv (initial demoHandler "q") eagerSchedule).writer.reason =
        some WExit.drained →
      ((exec demoHandler twoPageEnv (initial demoHandler "q") eagerSchedule).fetcher =
          FPc.wgDone ∨
        (exec demoHandler twoPageEnv (initial demoHandler "q") eagerSchedule).fetcher =
          FPc.exited) ∧
      (exec demoHandler twoPageEnv (initial demoHandler "q") eagerSchedule).resultCh = [] ∧
      (exec demoHandler twoPageEnv (initial demoHandler "q") eagerSchedule).consumed =
        emittedPages
          (exec demoHandler twoPageEnv (initial demoHandler "q") eagerSchedule).fetchLog) ∧
    (∀ r, (exec demoHandler twoPageEnv (initial demoHandler "q") eagerSchedule).writer.reason =
        some r →
      (exec demoHandler twoPageEnv (initial demoHandler "q") eagerSchedule).ctxDone = false →
      reportedErrors
        (exec demoHandler twoPageEnv (initial demoHandler "q") eagerSchedule).fetchLog = [] →
      (exec demoHandler twoPageEnv (initial demoHandler "q") eagerSchedule).writerErrs = [] →
      r = WExit.drained) :=
  ⟨rfl, writer_drained_exit demoHandler "q" twoPageEnv
    (exec demoHandler twoPageEnv (initial demoHandler "q") eagerSchedule)
    (reachable_run demoHandler "q" twoPageEnv eagerSchedule _ _
      (Reachable.init (by decide)) rfl)⟩
theorem unsent_append (errCh : List Err) (log extra : List FEvent)
    (h : errCh = [] ∨ reportedErrors log ≠ []) :
    errCh = [] ∨ reportedErrors (log ++ extra) ≠ [] := by
  rcases h with h | h
  · exact Or.inl h
  · refine Or.inr ?_
    rw [reportedErrors_append]
    intro h2
    exact h (List.append_eq_nil.mp h2).1

theorem failInv_initial (s : SerpHandler) (query : String) (pg : Nat → JObj) (k : Nat)
    (cause : Err) : FailInv s query pg k cause (initial s query) := by
  constructor <;> simp [initial, FailShape, paramInv_zero, pagesTrace, WPc.reporting]

theorem organicResults_of_nonempty {r : JObj} (h : isEmptyPage r = false) :
    ∃ items, organicResults r = some items := by
  unfold isEmptyPage at h
  cases ho : organicResults r with
  | none => simp [ho] at h
  | some items => exact ⟨items, rfl⟩

theorem pagesTrace_succ_right (s : SerpHandler) (query : String) (pg : Nat → JObj) (p : Nat) :
    pagesTrace s query pg 0 (p + 1) =
      pagesTrace s query pg 0 p ++ [FEvent.request p (requestFor s query p), FEvent.emit (pg p)] := by
  rw [pagesTrace_add s query pg 1 p 0]
  simp [pagesTrace]

theorem failInv_fetchStep (s : SerpHandler) (query : String) (env : Env) (pg : Nat → JObj)
    (k : Nat) (cause : Err) (hf : FailsAt s query env pg k cause) (σ σ' : Sys)
    (hinv : FailInv s query pg k cause σ) (hstep : fetchStep s env σ = some σ') :
    FailInv s query pg k cause σ' := by
  obtain ⟨h1, h2, h3, h4, h5, h6, h7, h8⟩ := hinv
  unfold fetchStep at hstep
  cases hpc : σ.fetcher <;> rw [hpc] at hstep h1 <;> simp only [FailShape] at hstep h1
  case loop page empties parameter =>
    obtain ⟨hle, hpar, hlog⟩ := h1
    split at hstep
    · split at hstep
      · injection hstep with hstep; subst hstep
        exact ⟨Or.inl ⟨page, hle, hlog⟩, h2, h3, h4, h5, h6, h7, h8⟩
      · rw [pageParams_of_inv hpar] at hstep
        by_cases hk : page = k
        · subst hk
          have hreq := hf.fails
          simp only [requestFor] at hreq
          simp only [hreq, fetchBody] at hstep
          injection hstep with hstep; subst hstep
          exact ⟨⟨rfl, by simp [hlog, requestFor]⟩, h2, h3, h4, h5, h6, h7,
            unsent_append _ _ _ h8⟩
        · have hlt : page < k := by omega
          have hreq := hf.pages page hlt
          simp only [requestFor] at hreq
          simp only [hreq, fetchBody, hf.items page hlt, Bool.false_eq_true, if_false] at hstep
          injection hstep with hstep; subst hstep
          exact ⟨⟨hlt, rfl, rfl, by simp [hlog, requestFor]⟩, h2, h3, h4, h5, h6, h7,
            unsent_append _ _ _ h8⟩
    · injection hstep with hstep; subst hstep
      exact ⟨Or.inl ⟨page, hle, hlog⟩, h2, h3, h4, h5, h6, h7, h8⟩
  case sendErr e =>
    obtain ⟨he, hlog⟩ := h1
    split at hstep
    · injection hstep with hstep; subst hstep
      refine ⟨Or.inr (by simp [hlog, he]), ?_, h3, h4, h5, h6, h7,
        Or.inr (by simp [reportedErrors_append, reportedErrors])⟩
      intro e' he'
      rcases List.mem_append.mp he' with h | h
      · exact h2 e' h
      · simp at h; rw [h, he]
    · exact absurd hstep (by simp)
  case sendPage page empties parameter result =>
    obtain ⟨hlt, hpar, hres, hlog⟩ := h1
    split at hstep
    · injection hstep with hstep; subst hstep
      refine ⟨?_, h2, h3, h4, h5, ?_, h7, unsent_append _ _ _ h8⟩
      · show FailShape s query pg k cause (afterSend page empties parameter result) _
        unfold afterSend
        rw [hres, hf.next page hlt]
        simp only [if_true, FailShape]
        refine ⟨hlt, ?_, ?_⟩
        · rw [hpar]; exact paramInv_succ s query page
        · rw [hlog, pagesTrace_succ_right]; simp
      · intro r hr
        rcases List.mem_append.mp hr with h | h
        · exact h6 r h
        · simp at h; rw [h, hres]; exact hf.items page hlt
    · exact absurd hstep (by simp)
  case sendDone =>
    split at hstep
    · injection hstep with hstep; subst hstep
      refine ⟨?_, h2, h3, h4, h5, h6, h7, unsent_append _ _ _ h8⟩
      show FailShape s query pg k cause FPc.wgDone _
      simp only [FailShape]
      rcases h1 with ⟨j, hj, hlog⟩ | hlog
      · exact Or.inl ⟨j, hj, by rw [hlog]⟩
      · exact Or.inr (by simp [hlog])
    · exact absurd hstep (by simp)
  case wgDone =>
    injection hstep with hstep; subst hstep
    exact ⟨h1, h2, h3, h4, h5, h6, h7, h8⟩
  case exited => exact absurd hstep (by simp)
theorem failInv_writeStep (s : SerpHandler) (query : String) (env : Env) (pg : Nat → JObj)
    (k : Nat) (cause : Err) (hf : FailsAt s query env pg k cause) (σ σ' : Sys)
    (hinv : FailInv s query pg k cause σ) (hstep : writeStep s env σ = some σ') :
    FailInv s query pg k cause σ' := by
  obtain ⟨h1, h2, h3, h4, h5, h6, h7, h8⟩ := hinv
  unfold writeStep at hstep
  cases hw : σ.writer <;> rw [hw] at hstep h7 <;> simp only [WPc.reporting] at hstep h7
  case opening =>
    obtain ⟨prior, hopen⟩ := hf.opens
    have hsink : ∃ rows, openSink env.file = Except.ok rows := by
      unfold openSink
      rw [hopen, hf.stats]
      simp only
      split <;> exact ⟨_, rfl⟩
    obtain ⟨rows, hrows⟩ := hsink
    rw [hrows] at hstep
    injection hstep with hstep; subst hstep
    exact ⟨h1, h2, h3, h4, h5, h6, ⟨h7.1, rfl⟩, h8⟩
  case reportOpen e => exact absurd h7.2 (by simp)
  case reportParse e fetchDone => exact absurd h7.2 (by simp)
  case select fetchDone => exact absurd hstep (by simp)
  case wgDone reason =>
    injection hstep with hstep; subst hstep
    exact ⟨h1, h2, h3, h4, h5, h6, ⟨h7.1, rfl⟩, h8⟩
  case exited reason => exact absurd hstep (by simp)

theorem failInv_consume (s : SerpHandler) (query : String) (pg : Nat → JObj) (k : Nat)
    (cause : Err) (σ : Sys) (fetchDone : Bool) (result : JObj)
    (hres : isEmptyPage result = false)
    (h1 : FailShape s query pg k cause σ.fetcher σ.fetchLog)
    (h2 : ∀ e, e ∈ σ.errCh → e = Err.fetchingPage k cause)
    (h3 : ∀ e, σ.monitor = MPc.gotErr (some e) → e = Err.fetchingPage k cause)
    (h4 : ∀ e, σ.queryErr = some e → e = Err.fetchingPage k cause)
    (h5 : ∀ e, σ.main = QPc.returned (some e) → e = Err.fetchingPage k cause)
    (h6 : ∀ r, r ∈ σ.resultCh → isEmptyPage r = false)
    (h7 : σ.writerErrs = [])
    (h8 : σ.errCh = [] ∨ reportedErrors σ.fetchLog ≠ []) :
    FailInv s query pg k cause (consume σ fetchDone result) := by
  obtain ⟨items, hitems⟩ := organicResults_of_nonempty hres
  unfold consume processResult
  simp only [hitems]
  exact ⟨h1, h2, h3, h4, h5, h6, ⟨h7, rfl⟩, h8⟩

theorem failInv_writeSelect (s : SerpHandler) (query : String) (env : Env) (pg : Nat → JObj)
    (k : Nat) (cause : Err) (hf : FailsAt s query env pg k cause) (σ σ' : Sys) (l : Label)
    (hinv : FailInv s query pg k cause σ) (hstep : writeSelect s σ l = some σ') :
    FailInv s query pg k cause σ' := by
  obtain ⟨h1, h2, h3, h4, h5, h6, h7, h8⟩ := hinv
  unfold writeSelect at hstep
  cases hw : σ.writer <;> rw [hw] at hstep <;> simp only at hstep
  case select fetchDone =>
    cases l <;> simp only at hstep
    case writeCtx =>
      split at hstep
      · injection hstep with hstep; subst hstep
        exact ⟨h1, h2, h3, h4, h5, h6, ⟨h7.1, rfl⟩, h8⟩
      · exact absurd hstep (by simp)
    case writeDone =>
      split at hstep
      · injection hstep with hstep; subst hstep
        exact ⟨h1, h2, h3, h4, h5, h6, ⟨h7.1, rfl⟩, h8⟩
      · exact absurd hstep (by simp)
    case writePage =>
      split at hstep
      · next result rest hch =>
        injection hstep with hstep; subst hstep
        refine failInv_consume s query pg k cause _ fetchDone result ?_ h1 h2 h3 h4 h5 ?_ h7.1
          h8
        · exact h6 result (by rw [hch]; exact List.mem_cons_self _ _)
        · intro r hr
          exact h6 r (by rw [hch]; exact List.mem_cons_of_mem _ hr)
      · next hch =>
        split at hstep
        · injection hstep with hstep; subst hstep
          exact ⟨h1, h2, h3, h4, h5, h6, ⟨h7.1, rfl⟩, h8⟩
        · split at hstep
          · next page empties parameter result hpc =>
            rw [hpc] at h1
            simp only [FailShape] at h1
            obtain ⟨hlt, hpar, hres, hlog⟩ := h1
            split at hstep
            · injection hstep with hstep; subst hstep
              refine failInv_consume s query pg k cause _ fetchDone result ?_ ?_ h2 h3 h4 h5
                h6 h7.1 (unsent_append _ _ _ h8)
              · rw [hres]; exact hf.items page hlt
              · show FailShape s query pg k cause (afterSend page empties parameter result) _
                unfold afterSend
                rw [hres, hf.next page hlt]
                simp only [if_true, FailShape]
                refine ⟨hlt, ?_, ?_⟩
                · rw [hpar]; exact paramInv_succ s query page
                · rw [hlog, pagesTrace_succ_right]; simp
            · exact absurd hstep (by simp)
          · exact absurd hstep (by simp)
    case writeIdle =>
      split at hstep
      · split at hstep
        · injection hstep with hstep; subst hstep
          exact ⟨h1, h2, h3, h4, h5, h6, ⟨h7.1, rfl⟩, h8⟩
        · injection hstep with hstep; subst hstep
          exact ⟨h1, h2, h3, h4, h5, h6, ⟨h7.1, by rw [hw]; rfl⟩, h8⟩
      · exact absurd hstep (by simp)
    all_goals exact absurd hstep (by simp)
  all_goals exact absurd hstep (by simp)

theorem failInv_monitorStep (s : SerpHandler) (query : String) (pg : Nat → JObj)
    (k : Nat) (cause : Err) (σ σ' : Sys) (l : Label)
    (hinv : FailInv s query pg k cause σ) (hstep : monitorStep s σ l = some σ') :
    FailInv s query pg k cause σ' := by
  obtain ⟨h1, h2, h3, h4, h5, h6, h7, h8⟩ := hinv
  unfold monitorStep at hstep
  split at hstep
  · split at hstep
    · next e rest hch =>
      injection hstep with hstep; subst hstep
      refine ⟨h1, fun e' he' => h2 e' (by rw [hch]; exact List.mem_cons_of_mem _ he'), ?_,
        h4, h5, h6, h7, Or.inr (h8.resolve_left (by rw [hch]; simp))⟩
      intro e' he'
      simp only [MPc.gotErr.injEq, Option.some.injEq] at he'
      rw [← he']
      exact h2 e (by rw [hch]; exact List.mem_cons_self _ _)
    · split at hstep
      · injection hstep with hstep; subst hstep
        exact ⟨h1, h2, fun e' he' => by simp at he', h4, h5, h6, h7, h8⟩
      · exact absurd hstep (by simp)
  · split at hstep
    · next e hpc =>
      rw [hpc] at h1
      simp only [FailShape] at h1
      obtain ⟨he, hlog⟩ := h1
      split at hstep
      · injection hstep with hstep; subst hstep
        refine ⟨Or.inr (by simp [hlog, he]), h2, ?_, h4, h5, h6, h7,
          Or.inr (by simp [reportedErrors_append, reportedErrors])⟩
        intro e' he'
        simp only [MPc.gotErr.injEq, Option.some.injEq] at he'
        rw [← he', he]
      · exact absurd hstep (by simp)
    · exact absurd hstep (by simp)
  · split at hstep
    · split at hstep
      · next e hw =>
        rw [hw] at h7
        exact absurd h7.2 (by simp [WPc.reporting])
      · next e fetchDone hw =>
        rw [hw] at h7
        exact absurd h7.2 (by simp [WPc.reporting])
      · exact absurd hstep (by simp)
    · exact absurd hstep (by simp)
  · split at hstep
    · injection hstep with hstep; subst hstep
      exact ⟨h1, h2, fun e' he' => by simp at he', h4, h5, h6, h7, h8⟩
    · exact absurd hstep (by simp)
  · next e hm =>
    injection hstep with hstep; subst hstep
    refine ⟨h1, h2, fun e' he' => by simp at he', ?_, h5, h6, h7, h8⟩
    intro e' he'
    exact h3 e' (by rw [hm]; simp only at he'; rw [he'])
  · injection hstep with hstep; subst hstep
    exact ⟨h1, h2, fun e' he' => by simp at he', h4, h5, h6, h7, h8⟩
  · injection hstep with hstep; subst hstep
    exact ⟨h1, h2, fun e' he' => by simp at he', h4, h5, h6, h7, h8⟩
  · exact absurd hstep (by simp)

theorem failInv_mainStep (s : SerpHandler) (query : String) (pg : Nat → JObj)
    (k : Nat) (cause : Err) (σ σ' : Sys) (l : Label)
    (hinv : FailInv s query pg k cause σ) (hstep : mainStep σ l = some σ') :
    FailInv s query pg k cause σ' := by
  obtain ⟨h1, h2, h3, h4, h5, h6, h7, h8⟩ := hinv
  unfold mainStep at hstep
  split at hstep
  · split at hstep
    · injection hstep with hstep; subst hstep
      exact ⟨h1, h2, h3, h4, fun e he => by simp at he, h6, h7, h8⟩
    · exact absurd hstep (by simp)
  · injection hstep with hstep; subst hstep
    exact ⟨h1, h2, h3, h4, fun e he => by simp at he, h6, h7, h8⟩
  · injection hstep with hstep; subst hstep
    exact ⟨h1, h2, h3, h4, fun e he => by simp at he, h6, h7, h8⟩
  · split at hstep
    · injection hstep with hstep; subst hstep
      exact ⟨h1, h2, h3, h4, fun e he => by simp at he, h6, h7, h8⟩
    · exact absurd hstep (by simp)
  · injection hstep with hstep; subst hstep
    exact ⟨h1, h2, h3, h4, fun e he => by simp at he, h6, h7, h8⟩
  · injection hstep with hstep; subst hstep
    exact ⟨h1, h2, h3, h4, fun e he => by simp at he, h6, h7, h8⟩
  · injection hstep with hstep; subst hstep
    exact ⟨h1, h2, h3, h4, fun e he => h4 e (by simpa using he), h6, h7, h8⟩
  · exact absurd hstep (by simp)

theorem failInv_step (s : SerpHandler) (query : String) (env : Env) (pg : Nat → JObj)
    (k : Nat) (cause : Err) (hf : FailsAt s query env pg k cause) (σ σ' : Sys) (l : Label)
    (hinv : FailInv s query pg k cause σ) (hstep : step s env σ l = some σ') :
    FailInv s query pg k cause σ' := by
  cases l <;> simp only [step] at hstep
  case deadline =>
    obtain ⟨h1, h2, h3, h4, h5, h6, h7, h8⟩ := hinv
    injection hstep with hstep; subst hstep
    exact ⟨h1, h2, h3, h4, h5, h6, h7, h8⟩
  case fetch => exact failInv_fetchStep s query env pg k cause hf σ σ' hinv hstep
  case writeStep => exact failInv_writeStep s query env pg k cause hf σ σ' hinv hstep
  case writeCtx => exact failInv_writeSelect s query env pg k cause hf σ σ' _ hinv hstep
  case writeDone => exact failInv_writeSelect s query env pg k cause hf σ σ' _ hinv hstep
  case writePage => exact failInv_writeSelect s query env pg k cause hf σ σ' _ hinv hstep
  case writeIdle => exact failInv_writeSelect s query env pg k cause hf σ σ' _ hinv hstep
  case monErr => exact failInv_monitorStep s query pg k cause σ σ' _ hinv hstep
  case monErrFetcher => exact failInv_monitorStep s query pg k cause σ σ' _ hinv hstep
  case monErrWriter => exact failInv_monitorStep s query pg k cause σ σ' _ hinv hstep
  case monCtx => exact failInv_monitorStep s query pg k cause σ σ' _ hinv hstep
  case monStep => exact failInv_monitorStep s query pg k cause σ σ' _ hinv hstep
  case mainStep => exact failInv_mainStep s query pg k cause σ σ' _ hinv hstep
  case mainTimer => exact failInv_mainStep s query pg k cause σ σ' _ hinv hstep

theorem failInv_reachable (s : SerpHandler) (query : String) (env : Env) (pg : Nat → JObj)
    (k : Nat) (cause : Err) (hf : FailsAt s query env pg k cause) (σ : Sys)
    (h : Reachable s query env σ) : FailInv s query pg k cause σ := by
  induction h with
  | init _ => exact failInv_initial s query pg k cause
  | step l _ hstep ih => exact failInv_step s query env pg k cause hf _ _ l ih hstep
theorem map_range_prefix (pg : Nat → JObj) (j k : Nat) (h : j ≤ k) :
    (List.range j).map pg <+: (List.range k).map pg := by
  obtain ⟨d, rfl⟩ : ∃ d, k = j + d := ⟨k - j, by omega⟩
  rw [List.range_add, List.map_append]
  exact List.prefix_append _ _

theorem logFacts_pages (s : SerpHandler) (query : String) (pg : Nat → JObj) (k : Nat)
    (cause : Err) (finished : Bool) (j : Nat) (hj : j ≤ k) (tail : List FEvent)
    (htail : requests tail = []) (hemit : emittedPages tail = [])
    (herr : reportedErrors tail = []) :
    LogFacts pg k cause finished (pagesTrace s query pg 0 j ++ tail) := by
  have hreq : requestedPages (pagesTrace s query pg 0 j ++ tail) = List.range j := by
    rw [requestedPages_append, requestedPages_pagesTrace]
    simp [requestedPages, htail, List.range_eq_range']
  have hem : emittedPages (pagesTrace s query pg 0 j ++ tail) = (List.range j).map pg := by
    rw [emittedPages_append, emittedPages_pagesTrace, hemit]
    simp [List.range_eq_range']
  have hrep : reportedErrors (pagesTrace s query pg 0 j ++ tail) = [] := by
    rw [reportedErrors_append, reportedErrors_pagesTrace, herr]
    rfl
  have hnot : k ∉ requestedPages (pagesTrace s query pg 0 j ++ tail) := by
    rw [hreq, List.mem_range]; omega
  refine ⟨fun i hi => ?_, ?_, Or.inl hrep, fun hk => absurd hk hnot, fun _ hk => absurd hk hnot⟩
  · rw [hreq, List.mem_range] at hi; omega
  · rw [hem]; exact map_range_prefix pg j k hj

theorem logFacts_request (s : SerpHandler) (query : String) (pg : Nat → JObj) (k : Nat)
    (cause : Err) (j : Nat) (hj : j < k) :
    LogFacts pg k cause false
      (pagesTrace s query pg 0 j ++ [FEvent.request j (requestFor s query j)]) := by
  have hreq : requestedPages (pagesTrace s query pg 0 j ++
      [FEvent.request j (requestFor s query j)]) = List.range j ++ [j] := by
    rw [requestedPages_append, requestedPages_pagesTrace]
    simp [requestedPages, requests, List.range_eq_range']
  have hem : emittedPages (pagesTrace s query pg 0 j ++
      [FEvent.request j (requestFor s query j)]) = (List.range j).map pg := by
    rw [emittedPages_append, emittedPages_pagesTrace]
    simp [emittedPages, List.range_eq_range']
  have hrep : reportedErrors (pagesTrace s query pg 0 j ++
      [FEvent.request j (requestFor s query j)]) = [] := by
    rw [reportedErrors_append, reportedErrors_pagesTrace]
    rfl
  have hnot : k ∉ requestedPages (pagesTrace s query pg 0 j ++
      [FEvent.request j (requestFor s query j)]) := by
    rw [hreq]; simp; omega
  refine ⟨fun i hi => ?_, ?_, Or.inl hrep, fun hk => absurd hk hnot, fun h => by simp at h⟩
  · rw [hreq] at hi; simp at hi; omega
  · rw [hem]; exact map_range_prefix pg j k (by omega)

theorem logFacts_failed (s : SerpHandler) (query : String) (pg : Nat → JObj) (k : Nat)
    (cause : Err) (finished : Bool) (tail : List FEvent)
    (htail : requests tail = []) (hemit : emittedPages tail = [])
    (herr : (reportedErrors tail = [] ∧ finished = false) ∨
      reportedErrors tail = [Err.fetchingPage k cause]) :
    LogFacts pg k cause finished
      (pagesTrace s query pg 0 k ++ FEvent.request k (requestFor s query k) :: tail) := by
  have hreq : requestedPages (pagesTrace s query pg 0 k ++
      FEvent.request k (requestFor s query k) :: tail) = List.range k ++ [k] := by
    rw [requestedPages_append, requestedPages_pagesTrace]
    simp [requestedPages, requests, htail, List.range_eq_range']
  have hem : emittedPages (pagesTrace s query pg 0 k ++
      FEvent.request k (requestFor s query k) :: tail) = (List.range k).map pg := by
    rw [emittedPages_append, emittedPages_pagesTrace]
    simp [emittedPages, hemit, List.range_eq_range']
  have hrep : reportedErrors (pagesTrace s query pg 0 k ++
      FEvent.request k (requestFor s query k) :: tail) = reportedErrors tail := by
    rw [reportedErrors_append, reportedErrors_pagesTrace]
    simp [reportedErrors]
  refine ⟨fun i hi => ?_, ?_, ?_, fun _ => hem, fun hfin _ => ?_⟩
  · rw [hreq] at hi; simp at hi; omega
  · rw [hem]
  · rw [hrep]; rcases herr with h | h
    · exact Or.inl h.1
    · exact Or.inr h
  · rw [hrep]; rcases herr with h | h
    · rw [h.2] at hfin; exact absurd hfin (by simp)
    · exact h

theorem failShape_facts (s : SerpHandler) (query : String) (pg : Nat → JObj) (k : Nat)
    (cause : Err) (pc : FPc) (log : List FEvent) (h : FailShape s query pg k cause pc log) :
    LogFacts pg k cause (!pc.beforeDone) log := by
  cases pc <;> simp only [FailShape] at h
  case loop page empties parameter =>
    obtain ⟨hle, _, hlog⟩ := h
    rw [hlog, ← List.append_nil (pagesTrace s query pg 0 page)]
    exact logFacts_pages s query pg k cause _ page hle [] rfl rfl rfl
  case sendPage page empties parameter result =>
    obtain ⟨hlt, _, _, hlog⟩ := h
    rw [hlog]
    exact logFacts_request s query pg k cause page hlt
  case sendErr e =>
    obtain ⟨_, hlog⟩ := h
    rw [hlog]
    exact logFacts_failed s query pg k cause _ [] rfl rfl (Or.inl ⟨rfl, rfl⟩)
  case sendDone =>
    rcases h with ⟨j, hj, hlog⟩ | hlog
    · rw [hlog, ← List.append_nil (pagesTrace s query pg 0 j)]
      exact logFacts_pages s query pg k cause _ j hj [] rfl rfl rfl
    · rw [hlog]
      exact logFacts_failed s query pg k cause _ _ rfl rfl (Or.inr rfl)
  case wgDone =>
    rcases h with ⟨j, hj, hlog⟩ | hlog
    · rw [hlog]
      exact logFacts_pages s query pg k cause _ j hj _ rfl rfl rfl
    · rw [hlog]
      exact logFacts_failed s query pg k cause _ _ rfl rfl (Or.inr rfl)
  case exited =>
    rcases h with ⟨j, hj, hlog⟩ | hlog
    · rw [hlog]
      exact logFacts_pages s query pg k cause _ j hj _ rfl rfl rfl
    · rw [hlog]
      exact logFacts_failed s query pg k cause _ _ rfl rfl (Or.inr rfl)

/-- In every run of `Query` in which the page source answers the requests for
pages `0..k-1` with non-empty pages announcing a next page and fails on the
request for page `k`, and the output file opens: the fetcher requests no page
index above `k`; the pages it has emitted are an initial part of pages
`0..k-1`, and all of them once the request for `k` has been made; the only
error ever sent on the error channel is the remote error wrapped with the page
index `k`, sent exactly once by the time the fetcher has signalled completion
after that request, and the writer sends none; and the value `Query` returns
is that wrapped error or no error, never another one. -/
theorem query_after_remote_failure (s : SerpHandler) (query : String) (env : Env)
    (pg : Nat → JObj) (k : Nat) (cause : Err) (hf : FailsAt s query env pg k cause)
    (σ : Sys) (h : Reachable s query env σ) :
    (∀ i, i ∈ requestedPages σ.fetchLog → i ≤ k) ∧
    emittedPages σ.fetchLog <+: (List.range k).map pg ∧
    (k ∈ requestedPages σ.fetchLog → emittedPages σ.fetchLog = (List.range k).map pg) ∧
    (reportedErrors σ.fetchLog = [] ∨
      reportedErrors σ.fetchLog = [Err.fetchingPage k cause]) ∧
    (σ.fetcher.beforeDone = false → k ∈ requestedPages σ.fetchLog →
      reportedErrors σ.fetchLog = [Err.fetchingPage k cause]) ∧
    (∀ e, σ.fetcher = FPc.sendErr e → 0 < s.Concurrency →
      ∃ σ', step s env σ Label.fetch = some σ') ∧
    σ.writerErrs = [] ∧
    (∀ r, σ.main = QPc.returned r → r = none ∨ r = some (Err.fetchingPage k cause)) := by
  have hinv := failInv_reachable s query env pg k cause hf σ h
  have hbase := inv_reachable s query env σ h
  obtain ⟨f1, f2, f3, f4, f5⟩ := failShape_facts s query pg k cause _ _ hinv.shape
  refine ⟨f1, f2, f4, f3, fun hb => f5 (by rw [hb]; rfl), fun e he hcap => ?_, hinv.quiet.1,
    fun r hr => ?_⟩
  · have hshape := hinv.shape
    rw [he] at hshape
    simp only [FailShape] at hshape
    have hrep : reportedErrors σ.fetchLog = [] := by
      rw [hshape.2, reportedErrors_append, reportedErrors_pagesTrace]
      rfl
    have hch : σ.errCh = [] := hinv.unsent.resolve_right (fun hne => hne hrep)
    have hwg : σ.wg ≠ 0 := by
      rw [hbase.wg_eq, he]
      simp [FPc.isExited]
    have hopen : σ.errClosed = false := by
      cases hc : σ.errClosed
      · rfl
      · exact absurd (hbase.main_wg (hbase.err_open hc)) hwg
    have hroom : 0 < capacity s := by
      unfold capacity
      omega
    simp [step, fetchStep, he, hch, hopen, hroom]
  · cases r with
    | none => exact Or.inl rfl
    | some e => exact Or.inr (by rw [hinv.returned e hr])

/-- Counterexample to C4 as stated: the only page lacks the item list; no
remote call fails, the fetcher does not stall and the output file is healthy,
yet the parse error the writer reports is received by the monitor, the shared
deadline is cancelled and `Query` returns the parse error. -/
theorem query_returns_parse_error :
    Reachable demoHandler "q" noResultsEnv
      (exec demoHandler noResultsEnv (initial demoHandler "q") parseErrorSchedule) ∧
    organicResults noResultsPage = none ∧
    reportedErrors
      (exec demoHandler noResultsEnv (initial demoHandler "q") parseErrorSchedule).fetchLog =
      [] ∧
    (exec demoHandler noResultsEnv (initial demoHandler "q") parseErrorSchedule).consumed =
      [noResultsPage] ∧
    (exec demoHandler noResultsEnv (initial demoHandler "q") parseErrorSchedule).writerErrs =
      [Err.parseOrganic] ∧
    (exec demoHandler noResultsEnv (initial demoHandler "q") parseErrorSchedule).ctxDone =
      true ∧
    (exec demoHandler noResultsEnv (initial demoHandler "q") parseErrorSchedule).main =
      QPc.returned (some Err.parseOrganic) :=
  ⟨reachable_run demoHandler "q" noResultsEnv parseErrorSchedule _ _
      (Reachable.init (by decide)) rfl, rfl, rfl, rfl, rfl, rfl, rfl⟩

/-! ## The fetcher of the pipeline and `fetchPage` -/

theorem refines_initial (s : SerpHandler) (query : String) (src : PageSource) :
    FetcherRefines s query src (FPc.loop 0 0 (initialParams s query)) [] :=
  ⟨fun _ => false, 0, fun _ _ _ _ => Nat.zero_le _, fun _ _ _ _ _ => Nat.zero_le _,
    fun ctx _ => by simp [fetchPage, fetcherRest]⟩

theorem refines_report (s : SerpHandler) (query : String) (src : PageSource) (e : Err)
    (log : List FEvent) (href : FetcherRefines s query src (FPc.sendErr e) log) :
    FetcherRefines s query src FPc.sendDone (log ++ [FEvent.report e]) := by
  obtain ⟨seen, n, _, _, hall⟩ := href
  refine ⟨seen, n, by simp, by simp, ?_⟩
  intro ctx hctx
  rw [hall ctx hctx]
  simp [fetcherRest]

theorem refines_emit (s : SerpHandler) (query : String) (src : PageSource)
    (page empties : Nat) (parameter : Params) (result : JObj) (log : List FEvent)
    (href : FetcherRefines s query src (FPc.sendPage page empties parameter result) log) :
    FetcherRefines s query src (afterSend page empties parameter result)
      (log ++ [FEvent.emit result]) := by
  obtain ⟨seen, n, _, hsend, hall⟩ := href
  have hn : n ≤ page + 1 := hsend page empties parameter result rfl
  refine ⟨seen, n, ?_, ?_, ?_⟩
  · intro p e par h
    unfold afterSend at h
    split at h
    · injection h with h3; omega
    · exact absurd h (by simp)
  · intro p e par r h
    unfold afterSend at h
    split at h <;> exact absurd h (by simp)
  · intro ctx hctx
    rw [hall ctx hctx]
    unfold afterSend
    by_cases hnext : hasNextPage result = true <;> simp [fetcherRest, hnext]

theorem refines_fetchStep (s : SerpHandler) (query : String) (env : Env) (σ σ' : Sys)
    (href : FetcherRefines s query env.src σ.fetcher σ.fetchLog)
    (hstep : fetchStep s env σ = some σ') :
    FetcherRefines s query env.src σ'.fetcher σ'.fetchLog := by
  obtain ⟨seen, n, hloop, hsend, hall⟩ := href
  unfold fetchStep at hstep
  cases hpc : σ.fetcher <;> rw [hpc] at hstep hloop hsend hall <;> simp only at hstep
  case loop page empties parameter =>
    have hn : n ≤ page := hloop page empties parameter rfl
    split at hstep
    · next hlt =>
      obtain ⟨d, hd⟩ : ∃ d, s.MaxPages.toNat - page = d + 1 :=
        ⟨s.MaxPages.toNat - page - 1, by omega⟩
      have hd2 : s.MaxPages.toNat - (page + 1) = d := by omega
      split at hstep
      · injection hstep with hstep; subst hstep
        refine ⟨fun i => if i = page then true else seen i, page + 1, by simp, by simp, ?_⟩
        intro ctx hctx
        have hp : ctx page = true := by simpa using hctx page (by omega)
        rw [hall ctx (fun i hi => by
          have hne : i ≠ page := by omega
          simpa [hne] using hctx i (by omega))]
        simp [fetcherRest, hd, fetchLoop, hp]
      · split at hstep
        · next e hb =>
          injection hstep with hstep; subst hstep
          refine ⟨fun i => if i = page then false else seen i, page + 1, by simp, by simp, ?_⟩
          intro ctx hctx
          have hp : ctx page = false := by simpa using hctx page (by omega)
          rw [hall ctx (fun i hi => by
            have hne : i ≠ page := by omega
            simpa [hne] using hctx i (by omega))]
          simp [fetcherRest, hd, fetchLoop, hp, hb]
        · next result empties2 hb =>
          injection hstep with hstep; subst hstep
          refine ⟨fun i => if i = page then false else seen i, page + 1, by simp,
            fun _ _ _ _ h => by injection h with h1; omega, ?_⟩
          intro ctx hctx
          have hp : ctx page = false := by simpa using hctx page (by omega)
          rw [hall ctx (fun i hi => by
            have hne : i ≠ page := by omega
            simpa [hne] using hctx i (by omega))]
          simp [fetcherRest, hd, hd2, fetchLoop, hp, hb]
    · next hge =>
      injection hstep with hstep; subst hstep
      refine ⟨seen, n, by simp, by simp, ?_⟩
      intro ctx hctx
      have hz : s.MaxPages.toNat - page = 0 := by omega
      rw [hall ctx hctx]
      simp [fetcherRest, hz, fetchLoop]
  case sendErr e =>
    split at hstep
    · injection hstep with hstep; subst hstep
      exact refines_report s query env.src e σ.fetchLog ⟨seen, n, hloop, hsend, hall⟩
    · exact absurd hstep (by simp)
  case sendPage page empties parameter result =>
    split at hstep
    · injection hstep with hstep; subst hstep
      exact refines_emit s query env.src page empties parameter result σ.fetchLog
        ⟨seen, n, hloop, hsend, hall⟩
    · exact absurd hstep (by simp)
  case sendDone =>
    split at hstep
    · injection hstep with hstep; subst hstep
      refine ⟨seen, n, by simp, by simp, ?_⟩
      intro ctx hctx
      rw [hall ctx hctx]
      simp [fetcherRest]
    · exact absurd hstep (by simp)
  case wgDone =>
    injection hstep with hstep; subst hstep
    refine ⟨seen, n, by simp, by simp, ?_⟩
    intro ctx hctx
    rw [hall ctx hctx]
    simp [fetcherRest]
  case exited => exact absurd hstep (by simp)

theorem writeStep_fetcher (s : SerpHandler) (env : Env) (σ σ' : Sys)
    (hstep : writeStep s env σ = some σ') :
    σ'.fetcher = σ.fetcher ∧ σ'.fetchLog = σ.fetchLog := by
  unfold writeStep at hstep
  split at hstep
  · split at hstep <;> injection hstep with hstep <;> subst hstep <;> exact ⟨rfl, rfl⟩
  · split at hstep
    · injection hstep with hstep; subst hstep; exact ⟨rfl, rfl⟩
    · exact absurd hstep (by simp)
  · split at hstep
    · injection hstep with hstep; subst hstep; exact ⟨rfl, rfl⟩
    · exact absurd hstep (by simp)
  · exact absurd hstep (by simp)
  · injection hstep with hstep; subst hstep; exact ⟨rfl, rfl⟩
  · exact absurd hstep (by simp)

theorem consume_fetcher (σ : Sys) (fetchDone : Bool) (result : JObj) :
    (consume σ fetchDone result).fetcher = σ.fetcher ∧
      (consume σ fetchDone result).fetchLog = σ.fetchLog :=
  ⟨rfl, rfl⟩

theorem refines_writeSelect (s : SerpHandler) (query : String) (src : PageSource)
    (σ σ' : Sys) (l : Label) (href : FetcherRefines s query src σ.fetcher σ.fetchLog)
    (hstep : writeSelect s σ l = some σ') :
    FetcherRefines s query src σ'.fetcher σ'.fetchLog := by
  unfold writeSelect at hstep
  split at hstep
  · split at hstep
    · split at hstep
      · injection hstep with hstep; subst hstep; exact href
      · exact absurd hstep (by simp)
    · split at hstep
      · injection hstep with hstep; subst hstep; exact href
      · exact absurd hstep (by simp)
    · split at hstep
      · injection hstep with hstep; subst hstep
        rw [(consume_fetcher _ _ _).1, (consume_fetcher _ _ _).2]
        exact href
      · split at hstep
        · injection hstep with hstep; subst hstep; exact href
        · split at hstep
          · next page empties parameter result hpc =>
            split at hstep
            · injection hstep with hstep; subst hstep
              rw [(consume_fetcher _ _ _).1, (consume_fetcher _ _ _).2]
              rw [hpc] at href
              exact refines_emit s query src page empties parameter result σ.fetchLog href
            · exact absurd hstep (by simp)
          · exact absurd hstep (by simp)
    · split at hstep
      · split at hstep <;> injection hstep with hstep <;> subst hstep <;> exact href
      · exact absurd hstep (by simp)
    · exact absurd hstep (by simp)
  · exact absurd hstep (by simp)

theorem refines_monitorStep (s : SerpHandler) (query : String) (src : PageSource)
    (σ σ' : Sys) (l : Label) (href : FetcherRefines s query src σ.fetcher σ.fetchLog)
    (hstep : monitorStep s σ l = some σ') :
    FetcherRefines s query src σ'.fetcher σ'.fetchLog := by
  unfold monitorStep at hstep
  split at hstep
  · split at hstep
    · injection hstep with hstep; subst hstep; exact href
    · split at hstep
      · injection hstep with hstep; subst hstep; exact href
      · exact absurd hstep (by simp)
  · split at hstep
    · next e hpc =>
      split at hstep
      · injection hstep with hstep; subst hstep
        rw [hpc] at href
        exact refines_report s query src e σ.fetchLog href
      · exact absurd hstep (by simp)
    · exact absurd hstep (by simp)
  · split at hstep
    · split at hstep
      · injection hstep with hstep; subst hstep; exact href
      · injection hstep with hstep; subst hstep; exact href
      · exact absurd hstep (by simp)
    · exact absurd hstep (by simp)
  · split at hstep
    · injection hstep with hstep; subst hstep; exact href
    · exact absurd hstep (by simp)
  · injection hstep with hstep; subst hstep; exact href
  · injection hstep with hstep; subst hstep; exact href
  · injection hstep with hstep; subst hstep; exact href
  · exact absurd hstep (by simp)

theorem mainStep_fetcher (σ σ' : Sys) (l : Label) (hstep : mainStep σ l = some σ') :
    σ'.fetcher = σ.fetcher ∧ σ'.fetchLog = σ.fetchLog := by
  unfold mainStep at hstep
  split at hstep
  · split at hstep
    · injection hstep with hstep; subst hstep; exact ⟨rfl, rfl⟩
    · exact absurd hstep (by simp)
  · injection hstep with hstep; subst hstep; exact ⟨rfl, rfl⟩
  · injection hstep with hstep; subst hstep; exact ⟨rfl, rfl⟩
  · split at hstep
    · injection hstep with hstep; subst hstep; exact ⟨rfl, rfl⟩
    · exact absurd hstep (by simp)
  · injection hstep with hstep; subst hstep; exact ⟨rfl, rfl⟩
  · injection hstep with hstep; subst hstep; exact ⟨rfl, rfl⟩
  · injection hstep with hstep; subst hstep; exact ⟨rfl, rfl⟩
  · exact absurd hstep (by simp)

theorem refines_step (s : SerpHandler) (query : String) (env : Env) (σ σ' : Sys) (l : Label)
    (href : FetcherRefines s query env.src σ.fetcher σ.fetchLog)
    (hstep : step s env σ l = some σ') :
    FetcherRefines s query env.src σ'.fetcher σ'.fetchLog := by
  cases l <;> simp only [step] at hstep
  case deadline => injection hstep with hstep; subst hstep; exact href
  case fetch => exact refines_fetchStep s query env σ σ' href hstep
  case writeStep =>
    obtain ⟨h1, h2⟩ := writeStep_fetcher s env σ σ' hstep
    rw [h1, h2]; exact href
  case writeCtx => exact refines_writeSelect s query env.src σ σ' _ href hstep
  case writeDone => exact refines_writeSelect s query env.src σ σ' _ href hstep
  case writePage => exact refines_writeSelect s query env.src σ σ' _ href hstep
  case writeIdle => exact refines_writeSelect s query env.src σ σ' _ href hstep
  case monErr => exact refines_monitorStep s query env.src σ σ' _ href hstep
  case monErrFetcher => exact refines_monitorStep s query env.src σ σ' _ href hstep
  case monErrWriter => exact refines_monitorStep s query env.src σ σ' _ href hstep
  case monCtx => exact refines_monitorStep s query env.src σ σ' _ href hstep
  case monStep => exact refines_monitorStep s query env.src σ σ' _ href hstep
  case mainStep =>
    obtain ⟨h1, h2⟩ := mainStep_fetcher σ σ' _ hstep
    rw [h1, h2]; exact href
  case mainTimer =>
    obtain ⟨h1, h2⟩ := mainStep_fetcher σ σ' _ hstep
    rw [h1, h2]; exact href

/-- The two embeddings of the fetcher agree: in every run of `Query` the
history of the fetcher is the beginning of a trace of `fetchPage` for some
cancellation behaviour, and the whole trace once the fetcher has sent its
completion signal. -/
theorem fetchLog_refines_fetchPage (s : SerpHandler) (query : String) (env : Env) (σ : Sys)
    (h : Reachable s query env σ) :
    ∃ ctx rest, fetchPage s query env.src ctx = σ.fetchLog ++ rest ∧
      (σ.fetcher.beforeDone = false → rest = []) := by
  have href : FetcherRefines s query env.src σ.fetcher σ.fetchLog := by
    induction h with
    | init _ => exact refines_initial s query env.src
    | step l _ hstep ih => exact refines_step s query env _ _ l ih hstep
  obtain ⟨seen, n, _, _, hall⟩ := href
  refine ⟨seen, fetcherRest s env.src seen σ.fetcher, hall seen (fun _ _ => rfl), ?_⟩
  intro hb
  cases hpc : σ.fetcher <;> rw [hpc] at hb <;> first | rfl | exact absurd hb (by simp [FPc.beforeDone])
theorem rowsInv_consume (base : List Record) (σ : Sys) (fetchDone : Bool) (result : JObj)
    (h : σ.rows = base ++ specRecords σ.consumed) :
    RowsInv base (consume σ fetchDone result) := by
  refine Or.inr ⟨?_, ?_⟩
  · unfold consume
    simp only
    split <;> simp
  · show (processResult result σ.rows).1 = base ++ specRecords (σ.consumed ++ [result])
    rw [processResult_rows, specRecords_append, h, List.append_assoc]

theorem fetchStep_writer (s : SerpHandler) (env : Env) (σ σ' : Sys)
    (hstep : fetchStep s env σ = some σ') :
    σ'.writer = σ.writer ∧ σ'.rows = σ.rows ∧ σ'.consumed = σ.consumed := by
  unfold fetchStep at hstep
  split at hstep
  · split at hstep
    · split at hstep
      · injection hstep with hstep; subst hstep; exact ⟨rfl, rfl, rfl⟩
      · simp only at hstep
        split at hstep <;> injection hstep with hstep <;> subst hstep <;> exact ⟨rfl, rfl, rfl⟩
    · injection hstep with hstep; subst hstep; exact ⟨rfl, rfl, rfl⟩
  · split at hstep
    · injection hstep with hstep; subst hstep; exact ⟨rfl, rfl, rfl⟩
    · exact absurd hstep (by simp)
  · split at hstep
    · injection hstep with hstep; subst hstep; exact ⟨rfl, rfl, rfl⟩
    · exact absurd hstep (by simp)
  · split at hstep
    · injection hstep with hstep; subst hstep; exact ⟨rfl, rfl, rfl⟩
    · exact absurd hstep (by simp)
  · injection hstep with hstep; subst hstep; exact ⟨rfl, rfl, rfl⟩
  · exact absurd hstep (by simp)

theorem rowsInv_writeStep (s : SerpHandler) (env : Env) (base : List Record)
    (hbase : openSink env.file = Except.ok base) (σ σ' : Sys)
    (hinv : RowsInv base σ) (hstep : writeStep s env σ = some σ') : RowsInv base σ' := by
  unfold writeStep at hstep
  split at hstep
  · next hw =>
    rw [hbase] at hstep
    injection hstep with hstep; subst hstep
    rcases hinv with ⟨_, _, hc⟩ | ⟨hne, _⟩
    · exact Or.inr ⟨by simp, by simp [hc, specRecords]⟩
    · exact absurd hw hne
  · next e hw =>
    split at hstep
    · injection hstep with hstep; subst hstep
      rcases hinv with ⟨ho, _, _⟩ | ⟨_, hr⟩
      · rw [hw] at ho; exact absurd ho (by simp)
      · exact Or.inr ⟨by simp, hr⟩
    · exact absurd hstep (by simp)
  · next e fetchDone hw =>
    split at hstep
    · injection hstep with hstep; subst hstep
      rcases hinv with ⟨ho, _, _⟩ | ⟨_, hr⟩
      · rw [hw] at ho; exact absurd ho (by simp)
      · exact Or.inr ⟨by simp, hr⟩
    · exact absurd hstep (by simp)
  · exact absurd hstep (by simp)
  · next reason hw =>
    injection hstep with hstep; subst hstep
    rcases hinv with ⟨ho, _, _⟩ | ⟨_, hr⟩
    · rw [hw] at ho; exact absurd ho (by simp)
    · exact Or.inr ⟨by simp, hr⟩
  · exact absurd hstep (by simp)

theorem rowsInv_monitorStep (s : SerpHandler) (base : List Record) (σ σ' : Sys) (l : Label)
    (hinv : RowsInv base σ) (hstep : monitorStep s σ l = some σ') : RowsInv base σ' := by
  unfold monitorStep at hstep
  split at hstep
  · split at hstep
    · injection hstep with hstep; subst hstep; exact hinv
    · split at hstep
      · injection hstep with hstep; subst hstep; exact hinv
      · exact absurd hstep (by simp)
  · split at hstep
    · split at hstep
      · injection hstep with hstep; subst hstep; exact hinv
      · exact absurd hstep (by simp)
    · exact absurd hstep (by simp)
  · split at hstep
    · split at hstep
      · next e hw =>
        injection hstep with hstep; subst hstep
        rcases hinv with ⟨ho, _, _⟩ | ⟨_, hr⟩
        · rw [hw] at ho; exact absurd ho (by simp)
        · exact Or.inr ⟨by simp, hr⟩
      · next e fetchDone hw =>
        injection hstep with hstep; subst hstep
        rcases hinv with ⟨ho, _, _⟩ | ⟨_, hr⟩
        · rw [hw] at ho; exact absurd ho (by simp)
        · exact Or.inr ⟨by simp, hr⟩
      · exact absurd hstep (by simp)
    · exact absurd hstep (by simp)
  · split at hstep
    · injection hstep with hstep; subst hstep; exact hinv
    · exact absurd hstep (by simp)
  · injection hstep with hstep; subst hstep; exact hinv
  · injection hstep with hstep; subst hstep; exact hinv
  · injection hstep with hstep; subst hstep; exact hinv
  · exact absurd hstep (by simp)

theorem rowsInv_mainStep (base : List Record) (σ σ' : Sys) (l : Label)
    (hinv : RowsInv base σ) (hstep : mainStep σ l = some σ') : RowsInv base σ' := by
  unfold mainStep at hstep
  split at hstep
  · split at hstep
    · injection hstep with hstep; subst hstep; exact hinv
    · exact absurd hstep (by simp)
  · injection hstep with hstep; subst hstep; exact hinv
  · injection hstep with hstep; subst hstep; exact hinv
  · split at hstep
    · injection hstep with hstep; subst hstep; exact hinv
    · exact absurd hstep (by simp)
  · injection hstep with hstep; subst hstep; exact hinv
  · injection hstep with hstep; subst hstep; exact hinv
  · injection hstep with hstep; subst hstep; exact hinv
  · exact absurd hstep (by simp)

theorem rowsInv_writeSelect (s : SerpHandler) (base : List Record) (σ σ' : Sys) (l : Label)
    (hinv : RowsInv base σ) (hstep : writeSelect s σ l = some σ') : RowsInv base σ' := by
  unfold writeSelect at hstep
  split at hstep
  · next fetchDone hw =>
    have hr : σ.rows = base ++ specRecords σ.consumed := by
      rcases hinv with ⟨ho, _, _⟩ | ⟨_, hr⟩
      · rw [hw] at ho; exact absurd ho (by simp)
      · exact hr
    split at hstep
    · split at hstep
      · injection hstep with hstep; subst hstep
        exact Or.inr ⟨by simp, hr⟩
      · exact absurd hstep (by simp)
    · split at hstep
      · injection hstep with hstep; subst hstep
        exact Or.inr ⟨by simp, hr⟩
      · exact absurd hstep (by simp)
    · split at hstep
      · injection hstep with hstep; subst hstep
        exact rowsInv_consume base _ fetchDone _ hr
      · split at hstep
        · injection hstep with hstep; subst hstep
          exact Or.inr ⟨by simp, hr⟩
        · split at hstep
          · split at hstep
            · injection hstep with hstep; subst hstep
              exact rowsInv_consume base _ fetchDone _ hr
            · exact absurd hstep (by simp)
          · exact absurd hstep (by simp)
    · split at hstep
      · split at hstep
        · injection hstep with hstep; subst hstep
          exact Or.inr ⟨by simp, hr⟩
        · injection hstep with hstep; subst hstep
          exact hinv
      · exact absurd hstep (by simp)
    · exact absurd hstep (by simp)
  · exact absurd hstep (by simp)

theorem rowsInv_step (s : SerpHandler) (env : Env) (base : List Record)
    (hbase : openSink env.file = Except.ok base) (σ σ' : Sys) (l : Label)
    (hinv : RowsInv base σ) (hstep : step s env σ l = some σ') : RowsInv base σ' := by
  cases l <;> simp only [step] at hstep
  case deadline => injection hstep with hstep; subst hstep; exact hinv
  case fetch =>
    obtain ⟨h1, h2, h3⟩ := fetchStep_writer s env σ σ' hstep
    unfold RowsInv
    rw [h1, h2, h3]
    exact hinv
  case writeStep => exact rowsInv_writeStep s env base hbase σ σ' hinv hstep
  case writeCtx => exact rowsInv_writeSelect s base σ σ' _ hinv hstep
  case writeDone => exact rowsInv_writeSelect s base σ σ' _ hinv hstep
  case writePage => exact rowsInv_writeSelect s base σ σ' _ hinv hstep
  case writeIdle => exact rowsInv_writeSelect s base σ σ' _ hinv hstep
  case monErr => exact rowsInv_monitorStep s base σ σ' _ hinv hstep
  case monErrFetcher => exact rowsInv_monitorStep s base σ σ' _ hinv hstep
  case monErrWriter => exact rowsInv_monitorStep s base σ σ' _ hinv hstep
  case monCtx => exact rowsInv_monitorStep s base σ σ' _ hinv hstep
  case monStep => exact rowsInv_monitorStep s base σ σ' _ hinv hstep
  case mainStep => exact rowsInv_mainStep base σ σ' _ hinv hstep
  case mainTimer => exact rowsInv_mainStep base σ σ' _ hinv hstep

/-- The two embeddings of the writer agree on what is written: in every run
of `Query` on a file that opens, the rows written are the header, when the
file was empty, followed by the records of the pages consumed so far. -/
theorem rows_of_reachable (s : SerpHandler) (query : String) (env : Env) (prior : Bytes)
    (hopen : env.file.openFile = Except.ok prior) (hstat : env.file.stat = none) (σ : Sys)
    (h : Reachable s query env σ) :
    (σ.writer = WPc.opening ∧ σ.rows = [] ∧ σ.consumed = []) ∨
    σ.rows = (if prior.length = 0 then [csvHeader] else []) ++ specRecords σ.consumed := by
  have hbase : openSink env.file =
      Except.ok (if prior.length = 0 then [csvHeader] else []) := by
    unfold openSink
    rw [hopen, hstat]
    by_cases hp : prior.length = 0 <;> simp [hp]
  have hinv : RowsInv (if prior.length = 0 then [csvHeader] else []) σ := by
    induction h with
    | init _ => exact Or.inl ⟨rfl, rfl, rfl⟩
    | step l _ hstep ih => exact rowsInv_step s env _ hbase _ _ l ih hstep
  rcases hinv with h1 | h2
  · exact Or.inl h1
  · exact Or.inr h2.2

/-! ## Errors on their way to the result of `Query` -/

theorem monInv_frame (ls ls' : List Label) (σ σ' : Sys) (hinv : MonInv ls σ)
    (hf : WorkerFrame σ σ') (htook : tookErr ls' ↔ tookErr ls)
    (htim : Label.mainTimer ∈ ls' ↔ Label.mainTimer ∈ ls) : MonInv ls' σ' := by
  obtain ⟨f1, f2, f3, f4, f5, f6, f7, f8⟩ := hf
  have hnt : Label.mainTimer ∉ ls' → Label.mainTimer ∉ ls := fun h h2 => h (htim.mpr h2)
  have hsent : (∃ e', σ.queryErr = some e' ∧ Sent σ e') →
      ∃ e', σ.queryErr = some e' ∧ Sent σ' e' :=
    fun ⟨e', h1, h2⟩ => ⟨e', h1, f7 e' h2⟩
  constructor
  · intro e he
    rcases f8 e he with h | h
    · exact f7 e (hinv.sent e h)
    · exact h
  · intro hm
    rw [f1] at hm
    rw [htook, f2]
    exact hinv.sel hm
  · intro e hm
    rw [f1] at hm
    rw [htook, f2]
    obtain ⟨h1, h2, h3⟩ := hinv.got e hm
    exact ⟨h1, h2, fun ht => by
      obtain ⟨e', he1, he2⟩ := h3 (hnt ht)
      exact ⟨e', he1, f7 e' he2⟩⟩
  · intro hm
    rw [f1] at hm
    rw [htook, f2]
    obtain ⟨h1, h2⟩ := hinv.stored hm
    exact ⟨h1, fun ht => hsent (h2 (hnt ht))⟩
  · intro hm
    rw [f1] at hm
    rw [htook, f2]
    obtain ⟨h1, h2⟩ := hinv.fin hm
    exact ⟨fun ht => ⟨f6 (h1 ht).1, fun hnt2 => hsent ((h1 ht).2 (hnt hnt2))⟩, h2⟩
  · intro he
    rw [f4] at he
    rw [f1]
    exact hinv.edone he
  · intro ht hm
    rw [f3] at hm
    rw [f1]
    exact hinv.late (hnt ht) hm
  · intro hc
    rw [f5] at hc
    rw [f3]
    exact hinv.closed hc
  · intro ht r hr
    rw [f3] at hr
    rw [f2]
    exact hinv.ret (hnt ht) r hr

theorem fetchStep_frame (s : SerpHandler) (env : Env) (σ σ' : Sys)
    (hstep : fetchStep s env σ = some σ') : WorkerFrame σ σ' := by
  unfold fetchStep at hstep
  split at hstep
  · split at hstep
    · split at hstep
      · injection hstep with hstep; subst hstep
        exact ⟨rfl, rfl, rfl, rfl, rfl, id, fun _ h => h, fun _ h => Or.inl h⟩
      · simp only at hstep
        split at hstep <;> injection hstep with hstep <;> subst hstep <;>
          refine ⟨rfl, rfl, rfl, rfl, rfl, id, ?_, fun _ h => Or.inl h⟩ <;>
          intro e he <;> simpa [Sent, reportedErrors_append, reportedErrors] using he
    · injection hstep with hstep; subst hstep
      exact ⟨rfl, rfl, rfl, rfl, rfl, id, fun _ h => h, fun _ h => Or.inl h⟩
  · split at hstep
    · injection hstep with hstep; subst hstep
      refine ⟨rfl, rfl, rfl, rfl, rfl, id, ?_, ?_⟩
      · intro e he
        rcases he with h | h
        · exact Or.inl (by simp [reportedErrors_append, h])
        · exact Or.inr h
      · intro e he
        rcases List.mem_append.mp he with h | h
        · exact Or.inl h
        · exact Or.inr (Or.inl (by
            simp only [List.mem_singleton] at h
            simp [reportedErrors_append, reportedErrors, h]))
    · exact absurd hstep (by simp)
  · split at hstep
    · injection hstep with hstep; subst hstep
      refine ⟨rfl, rfl, rfl, rfl, rfl, id, ?_, fun _ h => Or.inl h⟩
      intro e he
      simpa [Sent, reportedErrors_append, reportedErrors] using he
    · exact absurd hstep (by simp)
  · split at hstep
    · injection hstep with hstep; subst hstep
      refine ⟨rfl, rfl, rfl, rfl, rfl, id, ?_, fun _ h => Or.inl h⟩
      intro e he
      simpa [Sent, reportedErrors_append, reportedErrors] using he
    · exact absurd hstep (by simp)
  · injection hstep with hstep; subst hstep
    exact ⟨rfl, rfl, rfl, rfl, rfl, id, fun _ h => h, fun _ h => Or.inl h⟩
  · exact absurd hstep (by simp)

theorem writeStep_frame (s : SerpHandler) (env : Env) (σ σ' : Sys)
    (hstep : writeStep s env σ = some σ') : WorkerFrame σ σ' := by
  unfold writeStep at hstep
  split at hstep
  · split at hstep <;> injection hstep with hstep <;> subst hstep <;>
      exact ⟨rfl, rfl, rfl, rfl, rfl, id, fun _ h => h, fun _ h => Or.inl h⟩
  · split at hstep
    · injection hstep with hstep; subst hstep
      refine ⟨rfl, rfl, rfl, rfl, rfl, id, ?_, ?_⟩
      · intro e he
        rcases he with h | h
        · exact Or.inl h
        · exact Or.inr (List.mem_append_left _ h)
      · intro e he
        rcases List.mem_append.mp he with h | h
        · exact Or.inl h
        · exact Or.inr (Or.inr (List.mem_append_right _ h))
    · exact absurd hstep (by simp)
  · split at hstep
    · injection hstep with hstep; subst hstep
      refine ⟨rfl, rfl, rfl, rfl, rfl, id, ?_, ?_⟩
      · intro e he
        rcases he with h | h
        · exact Or.inl h
        · exact Or.inr (List.mem_append_left _ h)
      · intro e he
        rcases List.mem_append.mp he with h | h
        · exact Or.inl h
        · exact Or.inr (Or.inr (List.mem_append_right _ h))
    · exact absurd hstep (by simp)
  · exact absurd hstep (by simp)
  · injection hstep with hstep; subst hstep
    exact ⟨rfl, rfl, rfl, rfl, rfl, id, fun _ h => h, fun _ h => Or.inl h⟩
  · exact absurd hstep (by simp)

theorem consume_frame (σ : Sys) (fetchDone : Bool) (result : JObj) :
    WorkerFrame σ (consume σ fetchDone result) :=
  ⟨rfl, rfl, rfl, rfl, rfl, id, fun _ h => h, fun _ h => Or.inl h⟩

theorem workerFrame_trans {σ σ1 σ2 : Sys} (h1 : WorkerFrame σ σ1) (h2 : WorkerFrame σ1 σ2) :
    WorkerFrame σ σ2 :=
  ⟨h2.monitor.trans h1.monitor, h2.queryErr.trans h1.queryErr, h2.main.trans h1.main,
    h2.errorDone.trans h1.errorDone, h2.errClosed.trans h1.errClosed,
    fun h => h2.ctxDone (h1.ctxDone h), fun e h => h2.sentMono e (h1.sentMono e h),
    fun e h => by
      rcases h2.chan e h with h3 | h3
      · rcases h1.chan e h3 with h4 | h4
        · exact Or.inl h4
        · exact Or.inr (h2.sentMono e h4)
      · exact Or.inr h3⟩

theorem writeSelect_frame (s : SerpHandler) (σ σ' : Sys) (l : Label)
    (hstep : writeSelect s σ l = some σ') : WorkerFrame σ σ' := by
  unfold writeSelect at hstep
  split at hstep
  · split at hstep
    · split at hstep
      · injection hstep with hstep; subst hstep
        exact ⟨rfl, rfl, rfl, rfl, rfl, id, fun _ h => h, fun _ h => Or.inl h⟩
      · exact absurd hstep (by simp)
    · split at hstep
      · injection hstep with hstep; subst hstep
        exact ⟨rfl, rfl, rfl, rfl, rfl, id, fun _ h => h, fun _ h => Or.inl h⟩
      · exact absurd hstep (by simp)
    · split at hstep
      · injection hstep with hstep; subst hstep
        refine workerFrame_trans ?_ (consume_frame _ _ _)
        exact ⟨rfl, rfl, rfl, rfl, rfl, id, fun _ h => h, fun _ h => Or.inl h⟩
      · split at hstep
        · injection hstep with hstep; subst hstep
          exact ⟨rfl, rfl, rfl, rfl, rfl, id, fun _ h => h, fun _ h => Or.inl h⟩
        · split at hstep
          · split at hstep
            · injection hstep with hstep; subst hstep
              refine workerFrame_trans ?_ (consume_frame _ _ _)
              refine ⟨rfl, rfl, rfl, rfl, rfl, id, ?_, fun _ h => Or.inl h⟩
              intro e he
              simpa [Sent, reportedErrors_append, reportedErrors] using he
            · exact absurd hstep (by simp)
          · exact absurd hstep (by simp)
    · split at hstep
      · split at hstep <;> injection hstep with hstep <;> subst hstep <;>
          exact ⟨rfl, rfl, rfl, rfl, rfl, id, fun _ h => h, fun _ h => Or.inl h⟩
      · exact absurd hstep (by simp)
    · exact absurd hstep (by simp)
  · exact absurd hstep (by simp)

theorem monInv_initial (s : SerpHandler) (query : String) : MonInv [] (initial s query) := by
  constructor <;> simp [initial, tookErr, MPc.finished, QPc.pastWait, QPc.pastClose]

theorem tookErr_append (ls : List Label) (l : Label) :
    tookErr (ls ++ [l]) ↔
      tookErr ls ∨ l = Label.monErr ∨ l = Label.monErrFetcher ∨ l = Label.monErrWriter := by
  simp only [tookErr, List.mem_append, List.mem_singleton]
  constructor
  · rintro (h | h | h)
    · rcases h with h | h
      · exact Or.inl (Or.inl h)
      · exact Or.inr (Or.inl h.symm)
    · rcases h with h | h
      · exact Or.inl (Or.inr (Or.inl h))
      · exact Or.inr (Or.inr (Or.inl h.symm))
    · rcases h with h | h
      · exact Or.inl (Or.inr (Or.inr h))
      · exact Or.inr (Or.inr (Or.inr h.symm))
  · rintro ((h | h | h) | h | h | h)
    · exact Or.inl (Or.inl h)
    · exact Or.inr (Or.inl (Or.inl h))
    · exact Or.inr (Or.inr (Or.inl h))
    · exact Or.inl (Or.inr h.symm)
    · exact Or.inr (Or.inl (Or.inr h.symm))
    · exact Or.inr (Or.inr (Or.inr h.symm))

theorem timer_append (ls : List Label) (l : Label) :
    Label.mainTimer ∈ ls ++ [l] ↔ Label.mainTimer ∈ ls ∨ l = Label.mainTimer := by
  simp only [List.mem_append, List.mem_singleton]
  constructor
  · rintro (h | h)
    · exact Or.inl h
    · exact Or.inr h.symm
  · rintro (h | h)
    · exact Or.inl h
    · exact Or.inr h.symm

theorem pastWait_of_pastClose {q : QPc} (h : q.pastClose = true) : q.pastWait = true := by
  cases q <;> simp_all [QPc.pastClose, QPc.pastWait]

theorem not_pastWait_of_select {ls : List Label} {σ : Sys} (hinv : MonInv ls σ) {m : MPc}
    (hm : σ.monitor = m) (hne : m ≠ MPc.exited) (ht : Label.mainTimer ∉ ls) :
    σ.main.pastWait = false := by
  cases hp : σ.main.pastWait
  · rfl
  · have := hinv.late ht hp
    rw [hm] at this
    exact absurd this hne

/-- The monitor's `select` receives the error `e`. -/
theorem monInv_take (ls : List Label) (σ σ' : Sys) (l : Label) (e : Err)
    (hinv : MonInv ls σ) (hm : σ.monitor = MPc.select)
    (hl : l = Label.monErr ∨ l = Label.monErrFetcher ∨ l = Label.monErrWriter)
    (hmon : σ'.monitor = MPc.gotErr (some e)) (hq : σ'.queryErr = σ.queryErr)
    (hmain : σ'.main = σ.main) (hed : σ'.errorDone = σ.errorDone)
    (hec : σ'.errClosed = σ.errClosed) (hsent : Sent σ' e)
    (hmono : ∀ e', Sent σ e' → Sent σ' e')
    (hch : ∀ e', e' ∈ σ'.errCh → e' ∈ σ.errCh) : MonInv (ls ++ [l]) σ' := by
  have htook : tookErr (ls ++ [l]) := (tookErr_append ls l).mpr (Or.inr hl)
  have hnt : Label.mainTimer ∉ ls ++ [l] → Label.mainTimer ∉ ls :=
    fun ht h => ht ((timer_append ls l).mpr (Or.inl h))
  have hwait : Label.mainTimer ∉ ls ++ [l] → σ'.main.pastWait = false := fun ht => by
    rw [hmain]
    exact not_pastWait_of_select hinv hm (by simp) (hnt ht)
  constructor
  · intro e' he'
    exact hmono e' (hinv.sent e' (hch e' he'))
  · intro h; rw [hmon] at h; exact absurd h (by simp)
  · intro e' he'
    rw [hmon] at he'
    simp only [MPc.gotErr.injEq] at he'
    rw [hq]
    exact ⟨htook, (hinv.sel hm).2, fun _ => ⟨e, he'.symm, hsent⟩⟩
  · intro h; rw [hmon] at h; exact absurd h (by simp)
  · intro h; rw [hmon] at h; exact absurd h (by simp [MPc.finished])
  · intro he
    rw [hed] at he
    have := hinv.edone he
    rw [hm] at this
    exact absurd this (by simp)
  · intro ht hp
    rw [hwait ht] at hp
    exact absurd hp (by simp)
  · intro hc
    rw [hec] at hc
    rw [hmain]
    exact hinv.closed hc
  · intro ht r hr
    have := hwait ht
    rw [hr] at this
    exact absurd this (by simp [QPc.pastWait])

theorem monInv_monitorStep (s : SerpHandler) (ls : List Label) (σ σ' : Sys) (l : Label)
    (hinv : MonInv ls σ) (hstep : monitorStep s σ l = some σ') : MonInv (ls ++ [l]) σ' := by
  unfold monitorStep at hstep
  split at hstep
  · next _ hm =>
    split at hstep
    · next e rest hch =>
      injection hstep with hstep; subst hstep
      exact monInv_take ls σ _ _ e hinv hm (Or.inl rfl) rfl rfl rfl rfl rfl
        (hinv.sent e (by rw [hch]; exact List.mem_cons_self _ _)) (fun _ h => h)
        (fun e' he' => by rw [hch]; exact List.mem_cons_of_mem _ he')
    · split at hstep
      · next hclosed =>
        injection hstep with hstep; subst hstep
        obtain ⟨hnot, hq⟩ := hinv.sel hm
        have htimer : Label.mainTimer ∈ ls := by
          by_contra ht
          have := not_pastWait_of_select hinv hm (by simp) ht
          rw [pastWait_of_pastClose (hinv.closed hclosed)] at this
          exact absurd this (by simp)
        have htimer2 : Label.mainTimer ∈ ls ++ [Label.monErr] :=
          (timer_append ls _).mpr (Or.inl htimer)
        constructor
        · exact hinv.sent
        · intro h; exact absurd h (by simp)
        · intro e' he'
          exact ⟨(tookErr_append ls _).mpr (Or.inr (Or.inl rfl)), hq,
            fun ht => absurd htimer2 ht⟩
        · intro h; exact absurd h (by simp)
        · intro h; exact absurd h (by simp [MPc.finished])
        · intro he
          have := hinv.edone he
          rw [hm] at this
          exact absurd this (by simp)
        · intro ht; exact absurd htimer2 ht
        · exact hinv.closed
        · intro ht; exact absurd htimer2 ht
      · exact absurd hstep (by simp)
  · next _ hm =>
    split at hstep
    · next e hpc =>
      split at hstep
      · injection hstep with hstep; subst hstep
        refine monInv_take ls σ _ _ e hinv hm (Or.inr (Or.inl rfl)) rfl rfl rfl rfl rfl
          (Or.inl (by simp [reportedErrors_append, reportedErrors])) ?_ (fun _ h => h)
        intro e' he'
        rcases he' with h | h
        · exact Or.inl (by simp [reportedErrors_append, h])
        · exact Or.inr h
      · exact absurd hstep (by simp)
    · exact absurd hstep (by simp)
  · next _ hm =>
    split at hstep
    · split at hstep
      · next e hw =>
        injection hstep with hstep; subst hstep
        refine monInv_take ls σ _ _ e hinv hm (Or.inr (Or.inr rfl)) rfl rfl rfl rfl rfl
          (Or.inr (by simp)) ?_ (fun _ h => h)
        intro e' he'
        rcases he' with h | h
        · exact Or.inl h
        · exact Or.inr (List.mem_append_left _ h)
      · next e fetchDone hw =>
        injection hstep with hstep; subst hstep
        refine monInv_take ls σ _ _ e hinv hm (Or.inr (Or.inr rfl)) rfl rfl rfl rfl rfl
          (Or.inr (by simp)) ?_ (fun _ h => h)
        intro e' he'
        rcases he' with h | h
        · exact Or.inl h
        · exact Or.inr (List.mem_append_left _ h)
      · exact absurd hstep (by simp)
    · exact absurd hstep (by simp)
  · next _ hm =>
    -- the select takes the cancellation case
    split at hstep
    · injection hstep with hstep; subst hstep
      obtain ⟨hnot, hq⟩ := hinv.sel hm
      have hnot2 : ¬ tookErr (ls ++ [Label.monCtx]) := by
        rw [tookErr_append]
        simp [hnot]
      have hnt : Label.mainTimer ∉ ls ++ [Label.monCtx] → Label.mainTimer ∉ ls :=
        fun ht h => ht ((timer_append ls _).mpr (Or.inl h))
      constructor
      · exact hinv.sent
      · intro h; exact absurd h (by simp)
      · intro e' he'; exact absurd he' (by simp)
      · intro h; exact absurd h (by simp)
      · intro _; exact ⟨fun h => absurd h hnot2, fun _ => hq⟩
      · intro he
        have := hinv.edone he
        rw [hm] at this
        exact absurd this (by simp)
      · intro ht hp
        have := not_pastWait_of_select hinv hm (by simp) (hnt ht)
        have hp2 : σ.main.pastWait = true := hp
        rw [this] at hp2
        exact absurd hp2 (by simp)
      · exact hinv.closed
      · intro ht r hr
        have := not_pastWait_of_select hinv hm (by simp) (hnt ht)
        have hr2 : σ.main = QPc.returned r := hr
        rw [hr2] at this
        exact absurd this (by simp [QPc.pastWait])
    · exact absurd hstep (by simp)
  · next _ e hm =>
    -- the assignment queryErr = err
    injection hstep with hstep; subst hstep
    obtain ⟨htook, hq, hsome⟩ := hinv.got e hm
    have htook2 : tookErr (ls ++ [Label.monStep]) := (tookErr_append ls _).mpr (Or.inl htook)
    have hnt : Label.mainTimer ∉ ls ++ [Label.monStep] → Label.mainTimer ∉ ls :=
      fun ht h => ht ((timer_append ls _).mpr (Or.inl h))
    constructor
    · exact hinv.sent
    · intro h; exact absurd h (by simp)
    · intro e' he'; exact absurd he' (by simp)
    · intro _
      refine ⟨htook2, fun ht => ?_⟩
      obtain ⟨e', he1, he2⟩ := hsome (hnt ht)
      exact ⟨e', he1, he2⟩
    · intro h; exact absurd h (by simp [MPc.finished])
    · intro he
      have := hinv.edone he
      rw [hm] at this
      exact absurd this (by simp)
    · intro ht hp
      have := not_pastWait_of_select hinv hm (by simp) (hnt ht)
      have hp2 : σ.main.pastWait = true := hp
      rw [this] at hp2
      exact absurd hp2 (by simp)
    · exact hinv.closed
    · intro ht r hr
      have := not_pastWait_of_select hinv hm (by simp) (hnt ht)
      have hr2 : σ.main = QPc.returned r := hr
      rw [hr2] at this
      exact absurd this (by simp [QPc.pastWait])
  · next _ hm =>
    -- the call cancel()
    injection hstep with hstep; subst hstep
    obtain ⟨htook, hstored⟩ := hinv.stored hm
    have htook2 : tookErr (ls ++ [Label.monStep]) := (tookErr_append ls _).mpr (Or.inl htook)
    have hnt : Label.mainTimer ∉ ls ++ [Label.monStep] → Label.mainTimer ∉ ls :=
      fun ht h => ht ((timer_append ls _).mpr (Or.inl h))
    constructor
    · exact hinv.sent
    · intro h; exact absurd h (by simp)
    · intro e' he'; exact absurd he' (by simp)
    · intro h; exact absurd h (by simp)
    · intro _
      exact ⟨fun _ => ⟨rfl, fun ht => hstored (hnt ht)⟩, fun h => absurd htook2 h⟩
    · intro he
      have := hinv.edone he
      rw [hm] at this
      exact absurd this (by simp)
    · intro ht hp
      have := not_pastWait_of_select hinv hm (by simp) (hnt ht)
      have hp2 : σ.main.pastWait = true := hp
      rw [this] at hp2
      exact absurd hp2 (by simp)
    · exact hinv.closed
    · intro ht r hr
      have := not_pastWait_of_select hinv hm (by simp) (hnt ht)
      have hr2 : σ.main = QPc.returned r := hr
      rw [hr2] at this
      exact absurd this (by simp [QPc.pastWait])
  · next _ hm =>
    -- the call close(errorDone)
    injection hstep with hstep; subst hstep
    obtain ⟨hfin1, hfin2⟩ := hinv.fin (by rw [hm]; rfl)
    have hnt : Label.mainTimer ∉ ls ++ [Label.monStep] → Label.mainTimer ∉ ls :=
      fun ht h => ht ((timer_append ls _).mpr (Or.inl h))
    have htk : tookErr (ls ++ [Label.monStep]) ↔ tookErr ls := by
      rw [tookErr_append]; simp
    constructor
    · exact hinv.sent
    · intro h; exact absurd h (by simp)
    · intro e' he'; exact absurd he' (by simp)
    · intro h; exact absurd h (by simp)
    · intro _
      refine ⟨fun h => ?_, fun h => hfin2 (fun h2 => h (htk.mpr h2))⟩
      obtain ⟨hc, hs⟩ := hfin1 (htk.mp h)
      exact ⟨hc, fun ht => hs (hnt ht)⟩
    · intro _; rfl
    · intro _ _; rfl
    · exact hinv.closed
    · intro ht r hr
      exact hinv.ret (hnt ht) r hr
  · exact absurd hstep (by simp)

/-- A step of the goroutine of `Query`: the monitor's part of the invariant is
kept, the part about `Query` is given. -/
theorem monInv_mainCore (ls : List Label) (σ σ' : Sys) (l : Label) (hinv : MonInv ls σ)
    (hl : l = Label.mainStep ∨ l = Label.mainTimer)
    (hmon : σ'.monitor = σ.monitor) (hq : σ'.queryErr = σ.queryErr)
    (hed : σ'.errorDone = σ.errorDone) (hctx : σ.ctxDone = true → σ'.ctxDone = true)
    (hsent : ∀ e, Sent σ e → Sent σ' e) (hch : ∀ e, e ∈ σ'.errCh → e ∈ σ.errCh)
    (hlate : Label.mainTimer ∉ ls ++ [l] → σ'.main.pastWait = true → σ.monitor = MPc.exited)
    (hclosed : σ'.errClosed = true → σ'.main.pastClose = true)
    (hret : Label.mainTimer ∉ ls ++ [l] → ∀ r, σ'.main = QPc.returned r → r = σ.queryErr) :
    MonInv (ls ++ [l]) σ' := by
  have htk : tookErr (ls ++ [l]) ↔ tookErr ls := by
    rw [tookErr_append]
    rcases hl with h | h <;> subst h <;> simp
  have hnt : Label.mainTimer ∉ ls ++ [l] → Label.mainTimer ∉ ls :=
    fun ht h => ht ((timer_append ls l).mpr (Or.inl h))
  have hs : (∃ e', σ.queryErr = some e' ∧ Sent σ e') →
      ∃ e', σ.queryErr = some e' ∧ Sent σ' e' :=
    fun ⟨e', h1, h2⟩ => ⟨e', h1, hsent e' h2⟩
  constructor
  · intro e he
    exact hsent e (hinv.sent e (hch e he))
  · intro hm
    rw [hmon] at hm
    rw [htk, hq]
    exact hinv.sel hm
  · intro e hm
    rw [hmon] at hm
    rw [htk, hq]
    obtain ⟨h1, h2, h3⟩ := hinv.got e hm
    exact ⟨h1, h2, fun ht => by
      obtain ⟨e', he1, he2⟩ := h3 (hnt ht)
      exact ⟨e', he1, hsent e' he2⟩⟩
  · intro hm
    rw [hmon] at hm
    rw [htk, hq]
    obtain ⟨h1, h2⟩ := hinv.stored hm
    exact ⟨h1, fun ht => hs (h2 (hnt ht))⟩
  · intro hm
    rw [hmon] at hm
    rw [htk, hq]
    obtain ⟨h1, h2⟩ := hinv.fin hm
    exact ⟨fun ht => ⟨hctx (h1 ht).1, fun hnt2 => hs ((h1 ht).2 (hnt hnt2))⟩, h2⟩
  · intro he
    rw [hed] at he
    rw [hmon]
    exact hinv.edone he
  · intro ht hp
    rw [hmon]
    exact hlate ht hp
  · exact hclosed
  · intro ht r hr
    rw [hq]
    exact hret ht r hr

theorem monInv_mainStep (ls : List Label) (σ σ' : Sys) (l : Label) (hinv : MonInv ls σ)
    (hstep : mainStep σ l = some σ') : MonInv (ls ++ [l]) σ' := by
  have hnc : σ.main.pastClose = false → σ.errClosed = false := fun h => by
    cases hc : σ.errClosed
    · rfl
    · rw [hinv.closed hc] at h
      exact absurd h (by simp)
  unfold mainStep at hstep
  split at hstep
  · next _ hm =>
    split at hstep
    · injection hstep with hstep; subst hstep
      refine monInv_mainCore ls σ _ _ hinv (Or.inl rfl) rfl rfl rfl id (fun _ h => h)
        (fun _ h => h) (fun _ h => absurd h (by simp [QPc.pastWait])) ?_
        (fun _ r h => absurd h (by simp))
      intro hc
      have hc2 : σ.errClosed = true := hc
      rw [hnc (by rw [hm]; rfl)] at hc2
      exact absurd hc2 (by simp)
    · exact absurd hstep (by simp)
  · next _ hm =>
    injection hstep with hstep; subst hstep
    refine monInv_mainCore ls σ _ _ hinv (Or.inl rfl) rfl rfl rfl id (fun _ h => h)
      (fun _ h => h) (fun _ h => absurd h (by simp [QPc.pastWait])) ?_
      (fun _ r h => absurd h (by simp))
    intro hc
    have hc2 : σ.errClosed = true := hc
    rw [hnc (by rw [hm]; rfl)] at hc2
    exact absurd hc2 (by simp)
  · next _ hm =>
    injection hstep with hstep; subst hstep
    refine monInv_mainCore ls σ _ _ hinv (Or.inl rfl) rfl rfl rfl (fun _ => rfl)
      (fun _ h => h) (fun _ h => h) (fun _ h => absurd h (by simp [QPc.pastWait])) ?_
      (fun _ r h => absurd h (by simp))
    intro hc
    have hc2 : σ.errClosed = true := hc
    rw [hnc (by rw [hm]; rfl)] at hc2
    exact absurd hc2 (by simp)
  · next _ hm =>
    split at hstep
    · next hdone =>
      injection hstep with hstep; subst hstep
      refine monInv_mainCore ls σ _ _ hinv (Or.inl rfl) rfl rfl rfl id (fun _ h => h)
        (fun _ h => h) (fun _ _ => hinv.edone hdone) ?_ (fun _ r h => absurd h (by simp))
      intro hc
      have hc2 : σ.errClosed = true := hc
      rw [hnc (by rw [hm]; rfl)] at hc2
      exact absurd hc2 (by simp)
    · exact absurd hstep (by simp)
  · next _ hm =>
    injection hstep with hstep; subst hstep
    have htimer : Label.mainTimer ∈ ls ++ [Label.mainTimer] :=
      (timer_append ls _).mpr (Or.inr rfl)
    refine monInv_mainCore ls σ _ _ hinv (Or.inr rfl) rfl rfl rfl id (fun _ h => h)
      (fun _ h => h) (fun ht => absurd htimer ht) ?_ (fun ht => absurd htimer ht)
    intro hc
    have hc2 : σ.errClosed = true := hc
    rw [hnc (by rw [hm]; rfl)] at hc2
    exact absurd hc2 (by simp)
  · next _ hm =>
    injection hstep with hstep; subst hstep
    refine monInv_mainCore ls σ _ _ hinv (Or.inl rfl) rfl rfl rfl id (fun _ h => h)
      (fun _ h => h) ?_ (fun _ => rfl) (fun _ r h => absurd h (by simp))
    intro ht _
    exact hinv.late (fun h => ht ((timer_append ls _).mpr (Or.inl h))) (by rw [hm]; rfl)
  · next _ hm =>
    injection hstep with hstep; subst hstep
    refine monInv_mainCore ls σ _ _ hinv (Or.inl rfl) rfl rfl rfl id (fun _ h => h)
      (fun _ h => h) ?_ (fun _ => rfl) ?_
    · intro ht _
      exact hinv.late (fun h => ht ((timer_append ls _).mpr (Or.inl h))) (by rw [hm]; rfl)
    · intro _ r hr
      simp only [QPc.returned.injEq] at hr
      exact hr.symm
  · exact absurd hstep (by simp)

theorem monInv_step (s : SerpHandler) (env : Env) (ls : List Label) (σ σ' : Sys) (l : Label)
    (hinv : MonInv ls σ) (hstep : step s env σ l = some σ') : MonInv (ls ++ [l]) σ' := by
  cases l <;> simp only [step] at hstep
  case deadline =>
    injection hstep with hstep; subst hstep
    exact monInv_frame ls _ σ _ hinv
      ⟨rfl, rfl, rfl, rfl, rfl, fun _ => rfl, fun _ h => h, fun _ h => Or.inl h⟩
      (by rw [tookErr_append]; simp) (by rw [timer_append]; simp)
  case fetch =>
    exact monInv_frame ls _ σ σ' hinv (fetchStep_frame s env σ σ' hstep)
      (by rw [tookErr_append]; simp) (by rw [timer_append]; simp)
  case writeStep =>
    exact monInv_frame ls _ σ σ' hinv (writeStep_frame s env σ σ' hstep)
      (by rw [tookErr_append]; simp) (by rw [timer_append]; simp)
  case writeCtx =>
    exact monInv_frame ls _ σ σ' hinv (writeSelect_frame s σ σ' _ hstep)
      (by rw [tookErr_append]; simp) (by rw [timer_append]; simp)
  case writeDone =>
    exact monInv_frame ls _ σ σ' hinv (writeSelect_frame s σ σ' _ hstep)
      (by rw [tookErr_append]; simp) (by rw [timer_append]; simp)
  case writePage =>
    exact monInv_frame ls _ σ σ' hinv (writeSelect_frame s σ σ' _ hstep)
      (by rw [tookErr_append]; simp) (by rw [timer_append]; simp)
  case writeIdle =>
    exact monInv_frame ls _ σ σ' hinv (writeSelect_frame s σ σ' _ hstep)
      (by rw [tookErr_append]; simp) (by rw [timer_append]; simp)
  case monErr => exact monInv_monitorStep s ls σ σ' _ hinv hstep
  case monErrFetcher => exact monInv_monitorStep s ls σ σ' _ hinv hstep
  case monErrWriter => exact monInv_monitorStep s ls σ σ' _ hinv hstep
  case monCtx => exact monInv_monitorStep s ls σ σ' _ hinv hstep
  case monStep => exact monInv_monitorStep s ls σ σ' _ hinv hstep
  case mainStep => exact monInv_mainStep ls σ σ' _ hinv hstep
  case mainTimer => exact monInv_mainStep ls σ σ' _ hinv hstep

theorem monInv_run (s : SerpHandler) (env : Env) (schedule : List Label) :
    ∀ (before : List Label) (σ σ' : Sys), MonInv before σ →
      run s env σ schedule = some σ' → MonInv (before ++ schedule) σ' := by
  induction schedule with
  | nil =>
    intro before σ σ' hinv hrun
    simp only [run] at hrun
    injection hrun with hrun
    subst hrun
    simpa using hinv
  | cons l rest ih =>
    intro before σ σ' hinv hrun
    simp only [run] at hrun
    cases hs : step s env σ l with
    | none => simp [hs] at hrun
    | some σ1 =>
      simp only [hs] at hrun
      have := ih (before ++ [l]) σ1 σ' (monInv_step s env before σ σ1 l hinv hs) hrun
      simpa using this

/-! ## Parse errors of the writer -/

theorem parseErrors_append (a b : List JObj) :
    parseErrors (a ++ b) = parseErrors a ++ parseErrors b := by
  induction a with
  | nil => rfl
  | cons page rest ih =>
    simp only [List.cons_append, parseErrors]
    split <;> simp [ih]

theorem mem_parseErrors (pages : List JObj) (e : Err) (h : e ∈ parseErrors pages) :
    e = Err.parseOrganic := by
  induction pages with
  | nil => simp [parseErrors] at h
  | cons page rest ih =>
    simp only [parseErrors] at h
    split at h
    · rcases List.mem_cons.mp h with h1 | h1
      · exact h1
      · exact ih h1
    · exact ih h

theorem parseInv_consume (σ : Sys) (fetchDone : Bool) (result : JObj)
    (h : σ.writerErrs = parseErrors σ.consumed) :
    ParseInv (consume σ fetchDone result) := by
  unfold consume processResult
  cases ho : organicResults result with
  | none =>
    refine ⟨?_, fun e => by simp, by simp [WPc.reason]⟩
    simp [WPc.pending, parseErrors_append, parseErrors, ho, h]
  | some items =>
    refine ⟨?_, fun e => by simp, by simp [WPc.reason]⟩
    simp [WPc.pending, parseErrors_append, parseErrors, ho, h]

theorem parseInv_fetchStep (s : SerpHandler) (env : Env) (σ σ' : Sys) (hinv : ParseInv σ)
    (hstep : fetchStep s env σ = some σ') : ParseInv σ' := by
  obtain ⟨h1, h2, h3⟩ := hinv
  unfold fetchStep at hstep
  split at hstep
  · split at hstep
    · split at hstep
      · injection hstep with hstep; subst hstep; exact ⟨h1, h2, h3⟩
      · simp only at hstep
        split at hstep <;> injection hstep with hstep <;> subst hstep <;> exact ⟨h1, h2, h3⟩
    · injection hstep with hstep; subst hstep; exact ⟨h1, h2, h3⟩
  · split at hstep
    · injection hstep with hstep; subst hstep; exact ⟨h1, h2, h3⟩
    · exact absurd hstep (by simp)
  · split at hstep
    · injection hstep with hstep; subst hstep; exact ⟨h1, h2, h3⟩
    · exact absurd hstep (by simp)
  · split at hstep
    · injection hstep with hstep; subst hstep; exact ⟨h1, h2, h3⟩
    · exact absurd hstep (by simp)
  · injection hstep with hstep; subst hstep; exact ⟨h1, h2, h3⟩
  · exact absurd hstep (by simp)

theorem parseInv_writeStep (s : SerpHandler) (env : Env) (base : List Record)
    (hbase : openSink env.file = Except.ok base) (σ σ' : Sys) (hinv : ParseInv σ)
    (hstep : writeStep s env σ = some σ') : ParseInv σ' := by
  obtain ⟨h1, h2, h3⟩ := hinv
  unfold writeStep at hstep
  split at hstep
  · next hw =>
    rw [hbase] at hstep
    injection hstep with hstep; subst hstep
    rw [hw] at h1
    exact ⟨h1, fun e => by simp, by simp [WPc.reason]⟩
  · next e hw => exact absurd hw (h2 e)
  · next e fetchDone hw =>
    split at hstep
    · injection hstep with hstep; subst hstep
      rw [hw] at h1
      refine ⟨?_, fun e => by simp, by simp [WPc.reason]⟩
      simpa [WPc.pending] using h1
    · exact absurd hstep (by simp)
  · exact absurd hstep (by simp)
  · next reason hw =>
    injection hstep with hstep; subst hstep
    rw [hw] at h1 h3
    exact ⟨h1, fun e => by simp, h3⟩
  · exact absurd hstep (by simp)

theorem parseInv_writeSelect (s : SerpHandler) (σ σ' : Sys) (l : Label) (hinv : ParseInv σ)
    (hstep : writeSelect s σ l = some σ') : ParseInv σ' := by
  obtain ⟨h1, h2, h3⟩ := hinv
  unfold writeSelect at hstep
  split at hstep
  · next fetchDone hw =>
    rw [hw] at h1
    have herrs : σ.writerErrs = parseErrors σ.consumed := by simpa [WPc.pending] using h1
    split at hstep
    · split at hstep
      · injection hstep with hstep; subst hstep
        exact ⟨h1, fun e => by simp, by simp [WPc.reason]⟩
      · exact absurd hstep (by simp)
    · split at hstep
      · injection hstep with hstep; subst hstep
        exact ⟨h1, fun e => by simp, by simp [WPc.reason]⟩
      · exact absurd hstep (by simp)
    · split at hstep
      · injection hstep with hstep; subst hstep
        exact parseInv_consume _ fetchDone _ herrs
      · split at hstep
        · injection hstep with hstep; subst hstep
          exact ⟨h1, fun e => by simp, by simp [WPc.reason]⟩
        · split at hstep
          · split at hstep
            · injection hstep with hstep; subst hstep
              exact parseInv_consume _ fetchDone _ herrs
            · exact absurd hstep (by simp)
          · exact absurd hstep (by simp)
    · split at hstep
      · split at hstep
        · injection hstep with hstep; subst hstep
          exact ⟨h1, fun e => by simp, by simp [WPc.reason]⟩
        · injection hstep with hstep; subst hstep
          exact ⟨by rw [hw]; exact h1, h2, h3⟩
      · exact absurd hstep (by simp)
    · exact absurd hstep (by simp)
  · exact absurd hstep (by simp)

theorem parseInv_monitorStep (s : SerpHandler) (σ σ' : Sys) (l : Label) (hinv : ParseInv σ)
    (hstep : monitorStep s σ l = some σ') : ParseInv σ' := by
  obtain ⟨h1, h2, h3⟩ := hinv
  unfold monitorStep at hstep
  split at hstep
  · split at hstep
    · injection hstep with hstep; subst hstep; exact ⟨h1, h2, h3⟩
    · split at hstep
      · injection hstep with hstep; subst hstep; exact ⟨h1, h2, h3⟩
      · exact absurd hstep (by simp)
  · split at hstep
    · split at hstep
      · injection hstep with hstep; subst hstep; exact ⟨h1, h2, h3⟩
      · exact absurd hstep (by simp)
    · exact absurd hstep (by simp)
  · split at hstep
    · split at hstep
      · next e hw => exact absurd hw (h2 e)
      · next e fetchDone hw =>
        injection hstep with hstep; subst hstep
        rw [hw] at h1
        refine ⟨?_, fun e => by simp, by simp [WPc.reason]⟩
        simpa [WPc.pending] using h1
      · exact absurd hstep (by simp)
    · exact absurd hstep (by simp)
  · split at hstep
    · injection hstep with hstep; subst hstep; exact ⟨h1, h2, h3⟩
    · exact absurd hstep (by simp)
  · injection hstep with hstep; subst hstep; exact ⟨h1, h2, h3⟩
  · injection hstep with hstep; subst hstep; exact ⟨h1, h2, h3⟩
  · injection hstep with hstep; subst hstep; exact ⟨h1, h2, h3⟩
  · exact absurd hstep (by simp)

theorem parseInv_mainStep (σ σ' : Sys) (l : Label) (hinv : ParseInv σ)
    (hstep : mainStep σ l = some σ') : ParseInv σ' := by
  obtain ⟨h1, h2, h3⟩ := hinv
  unfold mainStep at hstep
  split at hstep
  · split at hstep
    · injection hstep with hstep; subst hstep; exact ⟨h1, h2, h3⟩
    · exact absurd hstep (by simp)
  · injection hstep with hstep; subst hstep; exact ⟨h1, h2, h3⟩
  · injection hstep with hstep; subst hstep; exact ⟨h1, h2, h3⟩
  · split at hstep
    · injection hstep with hstep; subst hstep; exact ⟨h1, h2, h3⟩
    · exact absurd hstep (by simp)
  · injection hstep with hstep; subst hstep; exact ⟨h1, h2, h3⟩
  · injection hstep with hstep; subst hstep; exact ⟨h1, h2, h3⟩
  · injection hstep with hstep; subst hstep; exact ⟨h1, h2, h3⟩
  · exact absurd hstep (by simp)

theorem parseInv_step (s : SerpHandler) (env : Env) (base : List Record)
    (hbase : openSink env.file = Except.ok base) (σ σ' : Sys) (l : Label)
    (hinv : ParseInv σ) (hstep : step s env σ l = some σ') : ParseInv σ' := by
  cases l <;> simp only [step] at hstep
  case deadline =>
    obtain ⟨h1, h2, h3⟩ := hinv
    injection hstep with hstep; subst hstep; exact ⟨h1, h2, h3⟩
  case fetch => exact parseInv_fetchStep s env σ σ' hinv hstep
  case writeStep => exact parseInv_writeStep s env base hbase σ σ' hinv hstep
  case writeCtx => exact parseInv_writeSelect s σ σ' _ hinv hstep
  case writeDone => exact parseInv_writeSelect s σ σ' _ hinv hstep
  case writePage => exact parseInv_writeSelect s σ σ' _ hinv hstep
  case writeIdle => exact parseInv_writeSelect s σ σ' _ hinv hstep
  case monErr => exact parseInv_monitorStep s σ σ' _ hinv hstep
  case monErrFetcher => exact parseInv_monitorStep s σ σ' _ hinv hstep
  case monErrWriter => exact parseInv_monitorStep s σ σ' _ hinv hstep
  case monCtx => exact parseInv_monitorStep s σ σ' _ hinv hstep
  case monStep => exact parseInv_monitorStep s σ σ' _ hinv hstep
  case mainStep => exact parseInv_mainStep σ σ' _ hinv hstep
  case mainTimer => exact parseInv_mainStep σ σ' _ hinv hstep

theorem parseInv_reachable (s : SerpHandler) (query : String) (env : Env) (prior : Bytes)
    (hopen : env.file.openFile = Except.ok prior) (hstat : env.file.stat = none) (σ : Sys)
    (h : Reachable s query env σ) : ParseInv σ := by
  have hbase : openSink env.file =
      Except.ok (if prior.length = 0 then [csvHeader] else []) := by
    unfold openSink
    rw [hopen, hstat]
    by_cases hp : prior.length = 0 <;> simp [hp]
  induction h with
  | init _ => exact ⟨rfl, fun e => by simp [initial], by simp [initial, WPc.reason]⟩
  | step l _ hstep ih => exact parseInv_step s env _ hbase _ _ l ih hstep

/-- Claim C4, as amended. Parse errors travel on the shared error channel and
the monitor treats them as it treats every error. In every run of `Query` in
which no fatal error occurs (the fetcher has reported neither a remote-call
failure nor a stall; the output file opens and its size is read) and the
500 ms wait of `Query` for the monitor does not time out: the records written
are those of the well-formed pages consumed, after the header if the file was
empty, so a page lacking a well-formed item list adds no record; the writer
has sent, or is about to send, exactly one parse error for every such page it
has consumed and is not aborted by it, since it leaves its loop only on
cancellation or when drained; if the monitor's `select` has taken the error
case, the monitor stores the parse error as the result of `Query` and cancels
the shared deadline, and the value `Query` returns is the parse error; if it
has not, no error is stored and the value `Query` returns is no error. -/
theorem parse_error_reaches_query (s : SerpHandler) (query : String) (env : Env)
    (prior : Bytes) (schedule : List Label) (σ : Sys) (hcap : 0 ≤ s.Concurrency)
    (hopen : env.file.openFile = Except.ok prior) (hstat : env.file.stat = none)
    (hrun : run s env (initial s query) schedule = some σ)
    (hfetch : reportedErrors σ.fetchLog = [])
    (htimer : Label.mainTimer ∉ schedule) :
    ((σ.writer = WPc.opening ∧ σ.rows = [] ∧ σ.consumed = []) ∨
      σ.rows = (if prior.length = 0 then [csvHeader] else []) ++ specRecords σ.consumed) ∧
    σ.writerErrs ++ σ.writer.pending = parseErrors σ.consumed ∧
    (∀ r, σ.writer.reason = some r → r = WExit.cancelled ∨ r = WExit.drained) ∧
    (tookErr schedule →
      (σ.monitor = MPc.cancelling ∨ σ.monitor.finished = true →
        σ.queryErr = some Err.parseOrganic) ∧
      (σ.monitor.finished = true → σ.ctxDone = true) ∧
      (∀ r, σ.main = QPc.returned r → r = some Err.parseOrganic)) ∧
    (¬ tookErr schedule →
      σ.queryErr = none ∧ ∀ r, σ.main = QPc.returned r → r = none) := by
  have hreach : Reachable s query env σ :=
    reachable_run s query env schedule _ _ (Reachable.init hcap) hrun
  have hbase := inv_reachable s query env σ hreach
  have hparse := parseInv_reachable s query env prior hopen hstat σ hreach
  have hmon : MonInv schedule σ := by
    simpa using monInv_run s env schedule [] _ σ (monInv_initial s query) hrun
  have hsent : ∀ e, Sent σ e → e = Err.parseOrganic := by
    intro e he
    rcases he with h | h
    · rw [hfetch] at h
      exact absurd h (by simp)
    · apply mem_parseErrors σ.consumed
      rw [← hparse.errs]
      exact List.mem_append_left _ h
  have hstored : ∀ {q : Option Err}, (∃ e', q = some e' ∧ Sent σ e') →
      q = some Err.parseOrganic := by
    rintro q ⟨e', h1, h2⟩
    rw [h1, hsent e' h2]
  refine ⟨rows_of_reachable s query env prior hopen hstat σ hreach, hparse.errs, ?_, ?_, ?_⟩
  · intro r hr
    cases r with
    | failed => exact absurd hr hparse.notFailed
    | cancelled => exact Or.inl rfl
    | closed => exact absurd hr hbase.not_closed
    | drained => exact Or.inr rfl
  · intro htook
    have hq : σ.monitor = MPc.cancelling ∨ σ.monitor.finished = true →
        σ.queryErr = some Err.parseOrganic := by
      rintro (h | h)
      · exact hstored ((hmon.stored h).2 htimer)
      · exact hstored (((hmon.fin h).1 htook).2 htimer)
    refine ⟨hq, fun h => ((hmon.fin h).1 htook).1, fun r hr => ?_⟩
    have hexit : σ.monitor = MPc.exited := hmon.late htimer (by rw [hr]; rfl)
    rw [hmon.ret htimer r hr]
    exact hq (Or.inr (by rw [hexit]; rfl))
  · intro hnot
    have hq : σ.queryErr = none := by
      cases hm : σ.monitor with
      | select => exact (hmon.sel hm).2
      | gotErr e => exact absurd (hmon.got e hm).1 hnot
      | cancelling => exact absurd (hmon.stored hm).1 hnot
      | closing => exact (hmon.fin (by rw [hm]; rfl)).2 hnot
      | exited => exact (hmon.fin (by rw [hm]; rfl)).2 hnot
    exact ⟨hq, fun r hr => by rw [hmon.ret htimer r hr, hq]⟩

/-- Witness of the amended C4: the run on `noResultsEnv` in which the monitor
receives the parse error; `Query` returns it. -/
theorem parse_error_reaches_query_witness :
    tookErr parseErrorSchedule ∧
    (exec demoHandler noResultsEnv (initial demoHandler "q") parseErrorSchedule).main =
      QPc.returned (some Err.parseOrganic) ∧
    (((exec demoHandler noResultsEnv (initial demoHandler "q") parseErrorSchedule).writer =
        WPc.opening ∧
        (exec demoHandler noResultsEnv (initial demoHandler "q") parseErrorSchedule).rows =
          [] ∧
        (exec demoHandler noResultsEnv (initial demoHandler "q") parseErrorSchedule).consumed =
          []) ∨
      (exec demoHandler noResultsEnv (initial demoHandler "q") parseErrorSchedule).rows =
        (if ([] : Bytes).length = 0 then [csvHeader] else []) ++
          specRecords
            (exec demoHandler noResultsEnv (initial demoHandler "q") parseErrorSchedule).consumed) ∧
    (exec demoHandler noResultsEnv (initial demoHandler "q") parseErrorSchedule).writerErrs ++
        (exec demoHandler noResultsEnv (initial demoHandler "q")
          parseErrorSchedule).writer.pending =
      parseErrors
        (exec demoHandler noResultsEnv (initial demoHandler "q") parseErrorSchedule).consumed ∧
    (∀ r, (exec demoHandler noResultsEnv (initial demoHandler "q")
        parseErrorSchedule).writer.reason = some r →
      r = WExit.cancelled ∨ r = WExit.drained) ∧
    (tookErr parseErrorSchedule →
      ((exec demoHandler noResultsEnv (initial demoHandler "q") parseErrorSchedule).monitor =
          MPc.cancelling ∨
        (exec demoHandler noResultsEnv (initial demoHandler "q")
          parseErrorSchedule).monitor.finished = true →
        (exec demoHandler noResultsEnv (initial demoHandler "q") parseErrorSchedule).queryErr =
          some Err.parseOrganic) ∧
      ((exec demoHandler noResultsEnv (initial demoHandler "q")
          parseErrorSchedule).monitor.finished = true →
        (exec demoHandler noResultsEnv (initial demoHandler "q") parseErrorSchedule).ctxDone =
          true) ∧
      (∀ r, (exec demoHandler noResultsEnv (initial demoHandler "q") parseErrorSchedule).main =
          QPc.returned r →
        r = some Err.parseOrganic)) ∧
    (¬ tookErr parseErrorSchedule →
      (exec demoHandler noResultsEnv (initial demoHandler "q") parseErrorSchedule).queryErr =
        none ∧
      ∀ r, (exec demoHandler noResultsEnv (initial demoHandler "q") parseErrorSchedule).main =
        QPc.returned r → r = none) :=
  ⟨Or.inl (by decide), rfl,
    parse_error_reaches_query demoHandler "q" noResultsEnv [] parseErrorSchedule
      (exec demoHandler noResultsEnv (initial demoHandler "q") parseErrorSchedule)
      (by decide) rfl rfl rfl rfl (by decide)⟩

/-! ## A remote failure and the result of `Query` -/

theorem failsAt_failsAtTwoEnv :
    FailsAt demoHandler "q" failsAtTwoEnv (fun _ => pageOf [itemA] (some "next")) 2
      (Err.external "rate limit") :=
  { pages := fun i hi => by
      simp [failsAtTwoEnv, failsAtTwoSource, hi]
    items := fun _ _ => rfl
    next := fun _ _ => rfl
    fails := rfl
    opens := ⟨[], rfl⟩
    stats := rfl }

/-- In the setting of a remote failure at page `k`, and when the 500 ms wait
of `Query` does not time out, `Query` returns the wrapped remote error exactly
when the monitor's `select` has taken the error case, and no error
otherwise. -/
theorem remote_error_returned_iff_received (s : SerpHandler) (query : String) (env : Env)
    (pg : Nat → JObj) (k : Nat) (cause : Err) (hf : FailsAt s query env pg k cause)
    (schedule : List Label) (σ : Sys) (hcap : 0 ≤ s.Concurrency)
    (hrun : run s env (initial s query) schedule = some σ)
    (htimer : Label.mainTimer ∉ schedule) (r : Option Err) (hr : σ.main = QPc.returned r) :
    (tookErr schedule → r = some (Err.fetchingPage k cause)) ∧
    (¬ tookErr schedule → r = none) := by
  have hreach : Reachable s query env σ :=
    reachable_run s query env schedule _ _ (Reachable.init hcap) hrun
  have hfail := failInv_reachable s query env pg k cause hf σ hreach
  have hmon : MonInv schedule σ := by
    simpa using monInv_run s env schedule [] _ σ (monInv_initial s query) hrun
  have hexit : σ.monitor = MPc.exited := hmon.late htimer (by rw [hr]; rfl)
  have hfin := hmon.fin (by rw [hexit]; rfl)
  rw [hmon.ret htimer r hr]
  refine ⟨fun htook => ?_, fun hnot => hfin.2 hnot⟩
  obtain ⟨e', he1, _⟩ := (hfin.1 htook).2 htimer
  rw [he1, hfail.stored e' he1]

/-- Claim C3 fails on this input. The page source returns two non-empty pages
that announce a next page and fails on the request for page 2, as in the
specification's example. The fetcher requests pages 0, 1, 2 and no more,
emits pages 0 and 1 and sends the wrapped remote error, once. Under
`lostErrorSchedule` the monitor takes `<-ctx.Done()` and `Query` returns no
error, and so it does under `expiredDeadlineSchedule`, where the fetcher has
sent the same error; under `keptErrorSchedule`, with the same input, `Query`
returns the error. -/
theorem query_loses_remote_error :
    FailsAt demoHandler "q" failsAtTwoEnv (fun _ => pageOf [itemA] (some "next")) 2
      (Err.external "rate limit") ∧
    (run demoHandler failsAtTwoEnv (initial demoHandler "q") lostErrorSchedule).isSome = true ∧
    requestedPages
      (exec demoHandler failsAtTwoEnv (initial demoHandler "q") lostErrorSchedule).fetchLog =
      [0, 1, 2] ∧
    emittedPages
      (exec demoHandler failsAtTwoEnv (initial demoHandler "q") lostErrorSchedule).fetchLog =
      [pageOf [itemA] (some "next"), pageOf [itemA] (some "next")] ∧
    reportedErrors
      (exec demoHandler failsAtTwoEnv (initial demoHandler "q") lostErrorSchedule).fetchLog =
      [failsAtTwoReport] ∧
    (exec demoHandler failsAtTwoEnv (initial demoHandler "q") lostErrorSchedule).main =
      QPc.returned none ∧
    (run demoHandler failsAtTwoEnv (initial demoHandler "q")
      expiredDeadlineSchedule).isSome = true ∧
    reportedErrors
      (exec demoHandler failsAtTwoEnv (initial demoHandler "q")
        expiredDeadlineSchedule).fetchLog =
      [failsAtTwoReport] ∧
    (exec demoHandler failsAtTwoEnv (initial demoHandler "q") expiredDeadlineSchedule).main =
      QPc.returned none ∧
    (run demoHandler failsAtTwoEnv (initial demoHandler "q") keptErrorSchedule).isSome = true ∧
    (exec demoHandler failsAtTwoEnv (initial demoHandler "q") keptErrorSchedule).main =
      QPc.returned (some failsAtTwoReport) :=
  ⟨failsAt_failsAtTwoEnv, rfl, rfl, rfl, rfl, rfl, rfl, rfl, rfl, rfl, rfl⟩


end SerpCli
